import Mathlib

/-! Upload orchestration of `commands/uploader.go`

A shallow embedding of the upload session (`uploadContext`), its pointer filter
(`prepareUpload`), descriptor construction (`uploadTransfer`), queueing
(`UploadPointers`), error classification (`CollectErrors`), the exit policy
(`ReportErrors`) and the per-ref driver (`uploadForRefUpdates`).

Go state that is mutated in place becomes explicit state passing: a method
`func (c *uploadContext) m(...)` becomes a function returning the new context.
Process termination (`os.Exit`, `Exit`, `ExitWithError`) becomes the `Run.exit`
result, which carries the state reached at the moment of termination.
-/

namespace Uploader

/-! ## External types used by the uploader -/

/-- The fields of `lfs.WrappedPointer` that `uploader.go` reads: the path, the
content hash and the size in bytes. The size is an `int64` in Go; the uploader
only compares it with zero and passes it to the progress meter, whose addition
wraps (see `Meter.Add`). -/
structure WrappedPointer where
  Name : String
  Oid : String
  Size : Int
  deriving DecidableEq, Repr

/-- The value of `tools.StringSet`: a set of strings, kept as the list of its
members without repetition. -/
structure StringSet where
  elems : List String
  deriving DecidableEq, Repr

/-- The constructor `tools.NewStringSet()`: the empty set. -/
def NewStringSet : StringSet := ⟨[]⟩

/-- The method `StringSet.Contains`. -/
def StringSet.Contains (s : StringSet) (x : String) : Bool := decide (x ∈ s.elems)

/-- The method `StringSet.Add`. -/
def StringSet.Add (s : StringSet) (x : String) : StringSet :=
  if x ∈ s.elems then s else ⟨x :: s.elems⟩

/-- A Go `map[string]string`, kept as an association list with one entry per
key. -/
structure StringMap where
  entries : List (String × String)
  deriving DecidableEq, Repr

/-- The empty map, `make(map[string]string)`. -/
def StringMap.empty : StringMap := ⟨[]⟩

/-- Map assignment `m[k] = v`: the entry of `k` is replaced. -/
def StringMap.set (m : StringMap) (k v : String) : StringMap :=
  ⟨(k, v) :: m.entries.filter (fun e => e.1 != k)⟩

/-- Map lookup `m[k]`, `none` when the key is absent. -/
def StringMap.get (m : StringMap) (k : String) : Option String :=
  m.entries.lookup k

/-- The builtin `len(m)`. -/
def StringMap.len (m : StringMap) : Nat := m.entries.length

/-- Modelled from the spec: `tq.MalformedObjectError` is declared outside
`uploader.go`; the spec gives every queue error a path, an oid and a kind that
is absent, corrupt or other. A malformed-object error is of the first two kinds,
told apart by one flag. -/
structure MalformedObjectError where
  Name : String
  Oid : String
  missing : Bool
  deriving DecidableEq, Repr

/-- The method `MalformedObjectError.Missing`. -/
def MalformedObjectError.Missing (e : MalformedObjectError) : Bool := e.missing

/-- The method `MalformedObjectError.Corrupt`. -/
def MalformedObjectError.Corrupt (e : MalformedObjectError) : Bool := !e.Missing

/-- Go `error` values that reach the uploader. `malformedObject` is the dynamic
type `*tq.MalformedObjectError`; `notExist` is an error for which
`os.IsNotExist` holds; `wrap` is `errors.Wrap`; `join` is `errors.Join`. -/
inductive Error where
  | text (msg : String)
  | malformedObject (e : MalformedObjectError)
  | notExist (path : String)
  | wrap (inner : Error) (context : String)
  | join (first second : Error)
  deriving DecidableEq, Repr

/-- The message of an error, as `err.Error()` renders it. -/
def Error.message : Error → String
  | .text msg => msg
  | .malformedObject e =>
      (if e.missing then "missing object: " else "corrupt object: ") ++ e.Name ++ " (" ++ e.Oid ++ ")"
  | .notExist path => "stat " ++ path ++ ": no such file or directory"
  | .wrap inner context => context ++ ": " ++ inner.message
  | .join first second => first.message ++ "\n" ++ second.message

/-- The function `errors.Wrap`. -/
def errors.Wrap (err : Error) (msg : String) : Error := Error.wrap err msg

/-- The function `errors.Join` applied to the accumulator (possibly `nil`) and a
new error: a `nil` accumulator contributes nothing. -/
def errors.Join (acc : Option Error) (err : Error) : Option Error :=
  match acc with
  | none => some err
  | some e => some (Error.join e err)

/-- The function `os.IsNotExist`. -/
def os.IsNotExist : Error → Bool
  | .notExist _ => true
  | _ => false

/-- The local file system as `os.Stat` sees it: `Stat path` is the error of the
call, `none` when the file exists. -/
structure FileSystem where
  Stat : String → Option Error

/-- The part of `lfs.GitFilter` that is used: `ObjectPath` resolves the local
media path of an oid, or fails. -/
structure GitFilter where
  ObjectPath : String → Except Error String

/-- The value of an integer as a Go `int64`: reduced modulo `2^64` into the
range from `-2^63` to `2^63 - 1` (two's complement wrap-around). -/
def wrapInt64 (x : Int) : Int :=
  (x + 9223372036854775808) % 18446744073709551616 - 9223372036854775808

/-- Whether an integer is a value of the Go type `int64`. -/
def isInt64 (x : Int) : Prop :=
  -9223372036854775808 ≤ x ∧ x ≤ 9223372036854775807

/-- The progress meter `tq.Meter`: the running byte estimate, an `int64`, and
whether `Finish` was called. -/
structure Meter where
  estimatedBytes : Int
  finished : Bool
  deriving DecidableEq, Repr

/-- The method `Meter.Add`: the size is added to the estimate with
`atomic.AddInt64`, which wraps around on overflow. -/
def Meter.Add (m : Meter) (size : Int) : Meter :=
  { m with estimatedBytes := wrapInt64 (m.estimatedBytes + size) }

/-- The method `Meter.Finish`. -/
def Meter.Finish (m : Meter) : Meter := { m with finished := true }

/-- A lock held on a path. -/
structure refLock where
  path : String
  owners : String
  deriving DecidableEq, Repr

/-- The tri-state lock verification mode. -/
inductive verifyState where
  | verifyStateUnknown
  | verifyStateEnabled
  | verifyStateDisabled
  deriving DecidableEq, Repr

/-- Modelled from the spec: the lock verifier is declared outside
`uploader.go`. The spec describes it as answering whether a path is locked and
by whom, exposing a tri-state verification mode, and accumulating the
locked-by-us and locked-by-them observations for later reporting. -/
structure lockVerifier where
  verifyState : verifyState
  ourLocks : List refLock
  theirLocks : List refLock
  ownedLocks : List refLock
  unownedLocks : List refLock
  deriving DecidableEq, Repr

/-- The lock on `name` in a lock table, if any. -/
def findLock (locks : List refLock) (name : String) : Option refLock :=
  locks.find? (fun l => l.path == name)

/-- The method `LockedByThem`: whether `name` is locked by someone else; a hit
is recorded among the unowned locks. -/
def lockVerifier.LockedByThem (lv : lockVerifier) (name : String) : Bool × lockVerifier :=
  match findLock lv.theirLocks name with
  | some lock => (true, { lv with unownedLocks := lv.unownedLocks ++ [lock] })
  | none => (false, lv)

/-- The method `LockedByUs`: whether `name` is locked by the current committer;
a hit is recorded among the owned locks. -/
def lockVerifier.LockedByUs (lv : lockVerifier) (name : String) : Bool × lockVerifier :=
  match findLock lv.ourLocks name with
  | some lock => (true, { lv with ownedLocks := lv.ownedLocks ++ [lock] })
  | none => (false, lv)

/-- The method `Enabled`: the mode is strictly enabled. -/
def lockVerifier.Enabled (lv : lockVerifier) : Bool :=
  decide (lv.verifyState = verifyState.verifyStateEnabled)

/-- The method `HasUnownedLocks`. -/
def lockVerifier.HasUnownedLocks (lv : lockVerifier) : Bool :=
  decide (0 < lv.unownedLocks.length)

/-- The method `HasOwnedLocks`. -/
def lockVerifier.HasOwnedLocks (lv : lockVerifier) : Bool :=
  decide (0 < lv.ownedLocks.length)

/-- The transfer descriptor `tq.Transfer`, with the fields the uploader sets. -/
structure Transfer where
  Name : String
  Path : String
  Oid : String
  Size : Int
  Missing : Bool
  deriving DecidableEq, Repr

/-- A transfer queue seen from the uploader: the descriptors given to `Add`, in
order, and the transfer engine behind it, which decides the errors the queue
reports once drained. -/
structure TransferQueue where
  added : List Transfer
  engine : List Transfer → List Error

/-- The method `TransferQueue.Add`. -/
def TransferQueue.Add (q : TransferQueue) (t : Transfer) : TransferQueue :=
  { q with added := q.added ++ [t] }

/-- The method `TransferQueue.Errors`, read after `Wait`. -/
def TransferQueue.Errors (q : TransferQueue) : List Error := q.engine q.added

/-- How the process can terminate from inside the uploader. -/
inductive ProcessExit where
  | osExit (status : Nat)
  | exitMessage (msg : String)
  | exitWithError (err : Error)
  deriving DecidableEq, Repr

/-- The result of running a Go function that may terminate the process: it
returns with a value, or the process ends with the state reached so far. -/
inductive Run (α : Type) where
  | done (a : α)
  | exit (e : ProcessExit) (a : α)

/-! ## The upload context -/

/-- The struct `uploadContext`. `printed` is not a Go field: it is the list of
lines written by `Print`, `FullError` and `Error`, in order. The fields
`Remote`, `Manifest`, `logger` and the committer identity are not read by the
functions embedded here apart from queue construction. -/
structure uploadContext where
  DryRun : Bool
  uploadedOids : StringSet
  gitfilter : GitFilter
  meter : Meter
  lockVerifier : lockVerifier
  allowMissing : Bool
  scannerErr : Option Error
  missing : StringMap
  corrupt : StringMap
  otherErrs : List Error
  printed : List String

/-- The function `Print`: one line of output. -/
def uploadContext.Print (c : uploadContext) (line : String) : uploadContext :=
  { c with printed := c.printed ++ [line] }

/-- The method `scannerError`. -/
def uploadContext.scannerError (c : uploadContext) : Option Error := c.scannerErr

/-- The method `addScannerError`. -/
def uploadContext.addScannerError (c : uploadContext) (err : Error) : uploadContext :=
  { c with scannerErr := errors.Join c.scannerErr err }

/-- The method `SetUploaded`. -/
def uploadContext.SetUploaded (c : uploadContext) (oid : String) : uploadContext :=
  { c with uploadedOids := c.uploadedOids.Add oid }

/-- The method `HasUploaded`. -/
def uploadContext.HasUploaded (c : uploadContext) (oid : String) : Bool :=
  c.uploadedOids.Contains oid

/-- The method `NewQueue`: a fresh queue in front of the given transfer
engine. -/
def uploadContext.NewQueue (_c : uploadContext) (engine : List Transfer → List Error) :
    TransferQueue :=
  { added := [], engine := engine }

/-! ## The pointer filter -/

/-- The variables of the loop in `prepareUpload`: the context (of which the
loop changes the lock verifier and the meter), the local set `uniqOids` and the
slice `uploadables`. -/
structure prepareState where
  c : uploadContext
  uniqOids : StringSet
  uploadables : List WrappedPointer

/-- One iteration of the loop of `prepareUpload` for the pointer `p`. -/
def prepareStep (st : prepareState) (p : WrappedPointer) : prepareState :=
  if st.uniqOids.Contains p.Oid || st.c.HasUploaded p.Oid || p.Size == 0 then
    st
  else
    let uniqOids := st.uniqOids.Add p.Oid
    let them := st.c.lockVerifier.LockedByThem p.Name
    let canUpload : Bool := if them.1 then !them.2.Enabled else true
    let us := them.2.LockedByUs p.Name
    if canUpload then
      { c := { st.c with lockVerifier := us.2, meter := st.c.meter.Add p.Size },
        uniqOids := uniqOids,
        uploadables := st.uploadables ++ [p] }
    else
      { c := { st.c with lockVerifier := us.2 },
        uniqOids := uniqOids,
        uploadables := st.uploadables }

/-- The loop of `prepareUpload` over the remaining pointers. -/
def prepareLoop (st : prepareState) : List WrappedPointer → prepareState
  | [] => st
  | p :: ps => prepareLoop (prepareStep st p) ps

/-- The method `prepareUpload`: the context after the call and the returned
slice. -/
def uploadContext.prepareUpload (c : uploadContext) (unfiltered : List WrappedPointer) :
    uploadContext × List WrappedPointer :=
  let st := prepareLoop { c := c, uniqOids := NewStringSet, uploadables := [] } unfiltered
  (st.c, st.uploadables)

/-! ## Descriptor construction and queueing -/

/-- The text of the error raised for a pointer whose object cannot be
inspected. -/
def uploadErrorText (filename oid : String) : String :=
  "Error uploading file " ++ filename ++ " (" ++ oid ++ ")"

/-- The method `uploadTransfer`. -/
def uploadContext.uploadTransfer (fs : FileSystem) (c : uploadContext) (p : WrappedPointer) :
    Except Error Transfer :=
  let filename := p.Name
  let oid := p.Oid
  match c.gitfilter.ObjectPath oid with
  | .error err => .error (errors.Wrap err (uploadErrorText filename oid))
  | .ok localMediaPath =>
    match fs.Stat localMediaPath with
    | some err =>
      if os.IsNotExist err then
        .ok { Name := filename, Path := localMediaPath, Oid := oid, Size := p.Size,
              Missing := !c.allowMissing }
      else
        .error (errors.Wrap err (uploadErrorText filename oid))
    | none =>
      .ok { Name := filename, Path := localMediaPath, Oid := oid, Size := p.Size,
            Missing := false }

/-- The dry-run loop of `UploadPointers`. -/
def dryRunLoop (c : uploadContext) : List WrappedPointer → uploadContext
  | [] => c
  | p :: ps =>
    if c.HasUploaded p.Oid then
      dryRunLoop c ps
    else
      dryRunLoop ((c.Print ("push " ++ p.Oid ++ " => " ++ p.Name)).SetUploaded p.Oid) ps

/-- The queueing loop of `UploadPointers` over the filtered pointers; a
descriptor error ends the process through `ExitWithError`. -/
def queueLoop (fs : FileSystem) (c : uploadContext) (q : TransferQueue) :
    List WrappedPointer → Run (uploadContext × TransferQueue)
  | [] => .done (c, q)
  | p :: ps =>
    match c.uploadTransfer fs p with
    | .error err => .exit (.exitWithError err) (c, q)
    | .ok t =>
      queueLoop fs (c.SetUploaded p.Oid)
        (q.Add { Name := t.Name, Path := t.Path, Oid := t.Oid, Size := t.Size, Missing := t.Missing })
        ps

/-- The method `UploadPointers`. -/
def uploadContext.UploadPointers (fs : FileSystem) (c : uploadContext) (q : TransferQueue)
    (unfiltered : List WrappedPointer) : Run (uploadContext × TransferQueue) :=
  if c.DryRun then
    .done (dryRunLoop c unfiltered, q)
  else
    let r := c.prepareUpload unfiltered
    queueLoop fs r.1 q r.2

/-! ## Error classification and the exit policy -/

/-- One iteration of the loop of `CollectErrors`. -/
def collectStep (c : uploadContext) (err : Error) : uploadContext :=
  match err with
  | .malformedObject malformed =>
    if malformed.Missing then
      { c with missing := c.missing.set malformed.Name malformed.Oid }
    else if malformed.Corrupt then
      { c with corrupt := c.corrupt.set malformed.Name malformed.Oid }
    else
      c
  | _ => { c with otherErrs := c.otherErrs ++ [err] }

/-- The loop of `CollectErrors` over the errors a drained queue reports. -/
def collectLoop (c : uploadContext) (errs : List Error) : uploadContext :=
  errs.foldl collectStep c

/-- The method `CollectErrors`: the queue is drained and its errors are
classified. -/
def uploadContext.CollectErrors (c : uploadContext) (tqueue : TransferQueue) : uploadContext :=
  collectLoop c tqueue.Errors

/-- The lines of the itemized report of one bucket. -/
def bucketLines (kind : String) (m : StringMap) : List String :=
  m.entries.map (fun e => "  (" ++ kind ++ ") " ++ e.1 ++ " (" ++ e.2 ++ ")")

/-- The two hint lines printed when a push is rejected for missing objects. -/
def pushMissingHint : String :=
  "hint: Your push was rejected due to missing or corrupt local objects.\n" ++
  "hint: You can disable this check with: `git config lfs.allowincompletepush true`"

/-- The method `ReportErrors`. -/
def uploadContext.ReportErrors (c0 : uploadContext) : Run uploadContext :=
  let c1 : uploadContext := { c0 with meter := c0.meter.Finish }
  let c2 : uploadContext := { c1 with printed := c1.printed ++ c1.otherErrs.map Error.message }
  let report : Bool := decide (c2.missing.len > 0) || decide (c2.corrupt.len > 0)
  let c3 : uploadContext :=
    if report then
      let action := if c2.allowMissing then "missing objects" else "failed"
      { c2 with printed := c2.printed ++ ["Git LFS upload " ++ action ++ ":"]
                  ++ bucketLines "missing" c2.missing ++ bucketLines "corrupt" c2.corrupt }
    else c2
  if report && !c3.allowMissing then
    .exit (.osExit 2) (c3.Print pushMissingHint)
  else if decide (c3.otherErrs.length > 0) then
    .exit (.osExit 2) c3
  else if c3.lockVerifier.HasUnownedLocks then
    let c4 : uploadContext := { c3 with printed := c3.printed ++ ["Unable to push locked files:"]
                  ++ c3.lockVerifier.unownedLocks.map (fun l => "* " ++ l.path ++ " - " ++ l.owners) }
    if c4.lockVerifier.Enabled then
      .exit (.exitMessage "Cannot update locked files.") c4
    else
      .done (c4.Print "warning: The above files would have halted this push.")
  else if c3.lockVerifier.HasOwnedLocks then
    .done { c3 with printed := c3.printed
                  ++ ["Consider unlocking your own locked files: (`git lfs unlock <path>`)"]
                  ++ c3.lockVerifier.ownedLocks.map (fun l => "* " ++ l.path) }
  else
    .done c3

/-! ## Driving the scan of a batch of ref updates -/

/-- A Git reference `git.Ref`: its name and the commit it points to. -/
structure Ref where
  Name : String
  Sha : String
  deriving DecidableEq, Repr

/-- The value of `git.RefUpdate` as the uploader reads it: the local ref, the
commitish of the local side, and the remote ref. -/
structure RefUpdate where
  LocalRef : Ref
  LocalRefCommitish : String
  RemoteRef : Ref
  deriving DecidableEq, Repr

/-- What a scan delivers to the callbacks installed by the uploader: a pointer
or a per-object error for `gitScannerCallback`, or a path for the
potentially-locked callback of `buildGitScanner`. Deliveries are taken one
after the other. -/
inductive ScanEvent where
  | pointer (p : WrappedPointer)
  | scanError (err : Error)
  | potentiallyLocked (name : String)
  deriving DecidableEq, Repr

/-- The history scanner `lfs.GitScanner`: each scan delivers events and then
returns its own error, if any. -/
structure GitScanner where
  ScanRefWithDeleted : String → List ScanEvent × Option Error
  ScanMultiRangeToRemote : String → List String → List ScanEvent × Option Error

/-- The callbacks of `gitScannerCallback` and `buildGitScanner` applied to the
events of one scan, in order. -/
def deliver (fs : FileSystem) (c : uploadContext) (q : TransferQueue) :
    List ScanEvent → Run (uploadContext × TransferQueue)
  | [] => .done (c, q)
  | .pointer p :: evs =>
    match c.UploadPointers fs q [p] with
    | .exit e s => .exit e s
    | .done (c1, q1) => deliver fs c1 q1 evs
  | .scanError err :: evs => deliver fs (c.addScannerError err) q evs
  | .potentiallyLocked name :: evs =>
    deliver fs { c with lockVerifier := (c.lockVerifier.LockedByThem name).2 } q evs

/-- The scan chosen by `uploadRangeOrAll`: the full-history scan for a push of
all objects, the multi-range scan bounded by the exclusions otherwise. -/
def runScan (g : GitScanner) (exclude : List String) (update : RefUpdate) (pushAll : Bool) :
    List ScanEvent × Option Error :=
  if pushAll then g.ScanRefWithDeleted update.LocalRefCommitish
  else g.ScanMultiRangeToRemote update.LocalRefCommitish exclude

/-- The function `uploadRangeOrAll`: the context and queue after the scan, and
the returned error. -/
def uploadRangeOrAll (fs : FileSystem) (g : GitScanner) (ctx : uploadContext) (q : TransferQueue)
    (exclude : List String) (update : RefUpdate) (pushAll : Bool) :
    Run (uploadContext × TransferQueue × Option Error) :=
  let scan := runScan g exclude update pushAll
  match deliver fs ctx q scan.1 with
  | .exit e s => .exit e (s.1, s.2, none)
  | .done (c1, q1) =>
    match scan.2 with
    | some err => .done (c1, q1, some err)
    | none => .done (c1, q1, c1.scannerError)

/-- The exclusion list computed at the start of `uploadForRefUpdates`. -/
def excludeFor : List RefUpdate → List String
  | [] => []
  | update :: rest =>
    let remoteRefSha := update.RemoteRef.Sha
    if update.LocalRefCommitish != remoteRefSha then remoteRefSha :: excludeFor rest
    else excludeFor rest

/-- What `uploadForRefUpdates` has done when it stops: the context, the ref
updates whose scan was started together with the queue of each as it was when
the scan ended, and the error returned by the loop. -/
structure UploadOutcome where
  ctx : uploadContext
  scanned : List (RefUpdate × TransferQueue)
  collected : List RefUpdate
  err : Option Error

/-- The scanning loop of `uploadForRefUpdates`. `scanned` and `collected` log
the updates for which `uploadRangeOrAll` and `CollectErrors` have run. -/
def refUpdateLoop (fs : FileSystem) (g : GitScanner) (engine : RefUpdate → List Transfer → List Error)
    (exclude : List String) (pushAll : Bool) (ctx : uploadContext)
    (scanned : List (RefUpdate × TransferQueue)) (collected : List RefUpdate) :
    List RefUpdate → Run UploadOutcome
  | [] => .done { ctx := ctx, scanned := scanned, collected := collected, err := none }
  | update :: rest =>
    let q := ctx.NewQueue (engine update)
    match uploadRangeOrAll fs g ctx q exclude update pushAll with
    | .exit e s =>
      .exit e { ctx := s.1, scanned := scanned ++ [(update, s.2.1)], collected := collected,
                err := none }
    | .done (c1, q1, err) =>
      let c2 := c1.CollectErrors q1
      match err with
      | some e =>
        .done { ctx := c2, scanned := scanned ++ [(update, q1)],
                collected := collected ++ [update],
                err := some (errors.Wrap e ("ref \"" ++ update.LocalRef.Name ++ "\":")) }
      | none =>
        refUpdateLoop fs g engine exclude pushAll c2 (scanned ++ [(update, q1)])
          (collected ++ [update]) rest

/-- The function `uploadForRefUpdates`. `verifyLocks` stands for
`verifyLocksForUpdates`, which is declared outside `uploader.go` and may itself
end the process. The deferred `ReportErrors` runs when the loop returns, with or
without an error, and not when the process has already ended. -/
def uploadForRefUpdates (fs : FileSystem) (g : GitScanner)
    (engine : RefUpdate → List Transfer → List Error)
    (verifyLocks : lockVerifier → List RefUpdate → Run lockVerifier)
    (ctx : uploadContext) (updates : List RefUpdate) (pushAll : Bool) : Run UploadOutcome :=
  match verifyLocks ctx.lockVerifier updates with
  | .exit e lv =>
    .exit e { ctx := { ctx with lockVerifier := lv }, scanned := [], collected := [], err := none }
  | .done lv =>
    let ctx1 := { ctx with lockVerifier := lv }
    let exclude := excludeFor updates
    match refUpdateLoop fs g engine exclude pushAll ctx1 [] [] updates with
    | .exit e o => .exit e o
    | .done o =>
      match o.ctx.ReportErrors with
      | .exit e c => .exit e { o with ctx := c }
      | .done c => .done { o with ctx := c }

/-! ## Read-only views used to state and prove the properties -/

/-- Whether the lock gate of `prepareUpload` lets a path through: it is blocked
exactly when `LockedByThem` holds for it and verification is enabled. -/
def admits (lv : lockVerifier) (name : String) : Bool :=
  !((lv.LockedByThem name).1 && lv.Enabled)

/-- The pointers the loop of `prepareUpload` appends to `uploadables`, as a
function of the values the loop only reads (the lock tables and mode, the
uploaded set) and of `uniqOids`; `prepareLoop_uploadables` proves that the loop
computes it. -/
def kept (lv : lockVerifier) (uploaded : StringSet) :
    StringSet → List WrappedPointer → List WrappedPointer
  | _, [] => []
  | seen, p :: ps =>
    if seen.Contains p.Oid || uploaded.Contains p.Oid || p.Size == 0 then
      kept lv uploaded seen ps
    else if admits lv p.Name then
      p :: kept lv uploaded (seen.Add p.Oid) ps
    else
      kept lv uploaded (seen.Add p.Oid) ps

/-- The estimate of the meter after `Meter.Add` has been called with each size of
a list in turn. -/
def meterAfter (before : Int) (sizes : List Int) : Int :=
  sizes.foldl (fun m size => wrapInt64 (m + size)) before

/-- The parts of a lock verifier that neither `LockedByThem` nor `LockedByUs`
changes: the mode and the two lock tables. -/
def sameLocks (lv lv1 : lockVerifier) : Prop :=
  lv1.verifyState = lv.verifyState ∧ lv1.theirLocks = lv.theirLocks ∧ lv1.ourLocks = lv.ourLocks

/-- The parts of the context that the pointer filter leaves alone. -/
def sameSession (c c1 : uploadContext) : Prop :=
  c1.DryRun = c.DryRun ∧ c1.uploadedOids = c.uploadedOids ∧ c1.gitfilter = c.gitfilter ∧
  c1.allowMissing = c.allowMissing ∧ c1.scannerErr = c.scannerErr ∧ c1.missing = c.missing ∧
  c1.corrupt = c.corrupt ∧ c1.otherErrs = c.otherErrs ∧ c1.printed = c.printed ∧
  c1.meter.finished = c.meter.finished ∧ sameLocks c.lockVerifier c1.lockVerifier

/-- The transfers a session adds to its queues over a sequence of
`UploadPointers` calls, each call with the queue it is given; `none` when a call
ends the process. The transfers added by one call are those the queue holds
after the call beyond those it held before. -/
def sessionAdds (fs : FileSystem) :
    uploadContext → List (TransferQueue × List WrappedPointer) → Option (uploadContext × List Transfer)
  | c, [] => some (c, [])
  | c, (q, batch) :: rest =>
    match c.UploadPointers fs q batch with
    | .exit _ _ => none
    | .done (c1, q1) =>
      match sessionAdds fs c1 rest with
      | none => none
      | some (c2, adds) => some (c2, q1.added.drop q.added.length ++ adds)

/-- The state carried by a result, whether the function returned or the process
ended. -/
def Run.state {α : Type} : Run α → α
  | .done a => a
  | .exit _ a => a

/-- Whether the process ended. -/
def Run.exited {α : Type} : Run α → Bool
  | .done _ => false
  | .exit _ _ => true

/-- The context after `SetUploaded` has been called for each pointer of a list,
as the queueing loop of `UploadPointers` does for the pointers it queues. -/
def markAll (c : uploadContext) (ps : List WrappedPointer) : uploadContext :=
  ps.foldl (fun c1 p => c1.SetUploaded p.Oid) c

/-- Whether an error has the dynamic type `*tq.MalformedObjectError`. -/
def Error.isMalformed : Error → Bool
  | .malformedObject _ => true
  | _ => false

/-- The oid of an error when it is a malformed-object error of the given kind
(`true` for missing, `false` for corrupt) for the path `name`. -/
def classifiedOid (missing : Bool) (name : String) : Error → Option String
  | .malformedObject m => if m.Missing = missing ∧ m.Name = name then some m.Oid else none
  | _ => none

/-- The oid of the last error of a list that is a malformed-object error of the
given kind for the path `name`. -/
def lastClassified (missing : Bool) (name : String) : List Error → Option String
  | [] => none
  | e :: rest =>
    match lastClassified missing name rest with
    | some oid => some oid
    | none => classifiedOid missing name e

/-- The classification bucket of a kind: `missing` for `true`, `corrupt` for
`false`. -/
def uploadContext.bucket (c : uploadContext) (missing : Bool) : StringMap :=
  if missing then c.missing else c.corrupt

/-! ## Sample values -/

/-- A scanner that reports a per-object error while scanning the commit `c1`
and delivers one pointer for every other commit. -/
def brokenAtFirst : GitScanner :=
  { ScanRefWithDeleted := fun _ => ([], none),
    ScanMultiRangeToRemote := fun commit _ =>
      if commit = "c1" then ([ScanEvent.scanError (Error.text "bad pointer")], none)
      else ([ScanEvent.pointer ⟨"two.bin", "b", 5⟩], none) }

/-- The update of `main` from the remote commit `r1` to the local commit `c1`. -/
def updateMain : RefUpdate :=
  { LocalRef := ⟨"main", "c1"⟩, LocalRefCommitish := "c1", RemoteRef := ⟨"main", "r1"⟩ }

/-- The update of `topic` from the remote commit `r2` to the local commit `c2`. -/
def updateTopic : RefUpdate :=
  { LocalRef := ⟨"topic", "c2"⟩, LocalRefCommitish := "c2", RemoteRef := ⟨"topic", "r2"⟩ }

/-- A lock verification that changes nothing. -/
def verifyNothing : lockVerifier → List RefUpdate → Run lockVerifier :=
  fun lv _ => Run.done lv

/-- A fresh queue that reports the given errors once drained. -/
def failingQueue (errs : List Error) : TransferQueue := { added := [], engine := fun _ => errs }


/-- A file system in which every object file exists. -/
def allPresent : FileSystem := ⟨fun _ => none⟩

/-- A file system in which no object file exists. -/
def allAbsent : FileSystem := ⟨fun path => some (Error.notExist path)⟩

/-- A Git filter that resolves every oid below `objects/`. -/
def objectsDir : GitFilter := ⟨fun oid => .ok ("objects/" ++ oid)⟩

/-- A lock verifier in the given mode in which `locked.bin` is locked by
someone else. -/
def lockedByBob (mode : verifyState) : lockVerifier :=
  { verifyState := mode, ourLocks := [], theirLocks := [⟨"locked.bin", "bob"⟩],
    ownedLocks := [], unownedLocks := [] }

/-- A lock verifier in the given mode with no lock at all. -/
def noLocks (mode : verifyState) : lockVerifier :=
  { verifyState := mode, ourLocks := [], theirLocks := [], ownedLocks := [], unownedLocks := [] }

/-- A freshly built session, as `newUploadContext` leaves it, with the given
lock verifier and settings. -/
def freshContext (dryRun allowMissing : Bool) (lv : lockVerifier) : uploadContext :=
  { DryRun := dryRun, uploadedOids := NewStringSet, gitfilter := objectsDir,
    meter := ⟨0, false⟩, lockVerifier := lv, allowMissing := allowMissing,
    scannerErr := none, missing := StringMap.empty, corrupt := StringMap.empty,
    otherErrs := [], printed := [] }

/-- A fresh queue whose transfers all succeed. -/
def quietQueue : TransferQueue := { added := [], engine := fun _ => [] }

/-- The pointers for which the loop of `prepareUpload` goes past its first test
(not seen in this batch, not uploaded, size not zero) and so reaches the lock
checks, as a function of the uploaded set and of `uniqOids`. -/
def examined (uploaded : StringSet) : StringSet → List WrappedPointer → List WrappedPointer
  | _, [] => []
  | seen, p :: ps =>
    if seen.Contains p.Oid || uploaded.Contains p.Oid || p.Size == 0 then
      examined uploaded seen ps
    else
      p :: examined uploaded (seen.Add p.Oid) ps

/-- A lock verifier in the given mode in which `mine.bin` is locked by the
current committer and `locked.bin` by someone else. -/
def lockedByMeAndBob (mode : verifyState) : lockVerifier :=
  { verifyState := mode, ourLocks := [⟨"mine.bin", "me"⟩], theirLocks := [⟨"locked.bin", "bob"⟩],
    ownedLocks := [], unownedLocks := [] }

/-- The reminder `ReportErrors` prints about the locks of the current
committer. -/
def ownedReminder : String :=
  "Consider unlocking your own locked files: (`git lfs unlock <path>`)"

/-- The lines `ReportErrors` prints before it evaluates the lock state: the
other errors, then the itemized report of the missing and corrupt objects when
there are any. -/
def reportLines (c : uploadContext) : List String :=
  c.otherErrs.map Error.message ++
    (if 0 < c.missing.len ∨ 0 < c.corrupt.len then
      ["Git LFS upload " ++ (if c.allowMissing then "missing objects" else "failed") ++ ":"]
        ++ bucketLines "missing" c.missing ++ bucketLines "corrupt" c.corrupt
    else [])

/-- The lines `ReportErrors` prints about the paths locked by others. -/
def unownedLines (lv : lockVerifier) : List String :=
  ["Unable to push locked files:"]
    ++ lv.unownedLocks.map (fun l => "* " ++ l.path ++ " - " ++ l.owners)

/-- A lock verifier in the given mode that has seen both a path locked by
someone else and a path locked by the current committer. -/
def bothKindsSeen (mode : verifyState) : lockVerifier :=
  { verifyState := mode, ourLocks := [⟨"mine.bin", "me"⟩], theirLocks := [⟨"locked.bin", "bob"⟩],
    ownedLocks := [⟨"mine.bin", "me"⟩], unownedLocks := [⟨"locked.bin", "bob"⟩] }

/-- A lock verifier in the given mode that has seen only a path locked by the
current committer. -/
def onlyOwnedSeen (mode : verifyState) : lockVerifier :=
  { verifyState := mode, ourLocks := [⟨"mine.bin", "me"⟩], theirLocks := [],
    ownedLocks := [⟨"mine.bin", "me"⟩], unownedLocks := [] }

/-- The first record of a batch that carries the given oid with a size that is
not zero. -/
def firstNonEmpty (oid : String) (batch : List WrappedPointer) : Option WrappedPointer :=
  batch.find? (fun y => y.Oid == oid && y.Size != 0)

/-- The line `UploadPointers` prints for a pointer in dry-run mode. -/
def pushLine (p : WrappedPointer) : String := "push " ++ p.Oid ++ " => " ++ p.Name

/-- The pointers for which the dry-run loop of `UploadPointers` prints a line, as
a function of the uploaded set at the start of the loop. -/
def announced (uploaded : StringSet) : List WrappedPointer → List WrappedPointer
  | [] => []
  | p :: ps =>
    if uploaded.Contains p.Oid then announced uploaded ps
    else p :: announced (uploaded.Add p.Oid) ps

/-- A scanner that delivers one pointer for every incremental scan and nothing
for a full-history scan. -/
def onePointerScanner : GitScanner :=
  { ScanRefWithDeleted := fun _ => ([], none),
    ScanMultiRangeToRemote := fun _ _ => ([ScanEvent.pointer ⟨"one.bin", "a", 100⟩], none) }

/-- An update of `stable` whose local and remote tips are the same commit. -/
def updateStable : RefUpdate :=
  { LocalRef := ⟨"stable", "c3"⟩, LocalRefCommitish := "c3", RemoteRef := ⟨"stable", "c3"⟩ }

/-- A Git filter that cannot resolve the object path of the oid `c` and resolves
every other oid below `objects/`. -/
def brokenStoreFor : GitFilter :=
  ⟨fun oid => if oid = "c" then .error (Error.text "permission denied") else .ok ("objects/" ++ oid)⟩

/-- The scan-error accumulator after the callback of `gitScannerCallback` has
seen the events of a scan: every per-object error is joined onto it with
`addScannerError`, in order. -/
def joinScanErrors (acc : Option Error) : List ScanEvent → Option Error
  | [] => acc
  | ScanEvent.pointer _ :: evs => joinScanErrors acc evs
  | ScanEvent.scanError err :: evs => joinScanErrors (errors.Join acc err) evs
  | ScanEvent.potentiallyLocked _ :: evs => joinScanErrors acc evs

/-- A scanner whose incremental scan reports a per-object error and then
returns an error of its own. -/
def brokenTwice : GitScanner :=
  { ScanRefWithDeleted := fun _ => ([], none),
    ScanMultiRangeToRemote := fun _ _ =>
      ([ScanEvent.scanError (Error.text "bad pointer")], some (Error.text "scan failed")) }

/-- A scanner that delivers one pointer per scan, named after the call: the
incremental scan names it after the exclusion list it is given, the full-history
scan names it `full history`; the oid is the commit scanned. -/
def echoScanner : GitScanner :=
  { ScanRefWithDeleted := fun commit =>
      ([ScanEvent.pointer ⟨"full history", commit, 1⟩], none),
    ScanMultiRangeToRemote := fun commit exclude =>
      ([ScanEvent.pointer ⟨String.intercalate "," exclude, commit, 1⟩], none) }

/-! ## Sets, maps and the lock verifier -/

theorem StringSet.contains_iff (s : StringSet) (x : String) :
    s.Contains x = true ↔ x ∈ s.elems := by
  simp [StringSet.Contains]

theorem StringSet.contains_false_iff (s : StringSet) (x : String) :
    s.Contains x = false ↔ x ∉ s.elems := by
  simp [StringSet.Contains]

theorem StringSet.mem_add (s : StringSet) (x y : String) :
    y ∈ (s.Add x).elems ↔ y = x ∨ y ∈ s.elems := by
  unfold StringSet.Add
  by_cases h : x ∈ s.elems
  · simp only [h, if_true]
    constructor
    · intro hy; exact Or.inr hy
    · rintro (rfl | hy)
      · exact h
      · exact hy
  · simp [h]

theorem LockedByThem_sameLocks (lv : lockVerifier) (name : String) :
    sameLocks lv (lv.LockedByThem name).2 := by
  unfold lockVerifier.LockedByThem sameLocks
  cases findLock lv.theirLocks name <;> simp

theorem LockedByUs_sameLocks (lv : lockVerifier) (name : String) :
    sameLocks lv (lv.LockedByUs name).2 := by
  unfold lockVerifier.LockedByUs sameLocks
  cases findLock lv.ourLocks name <;> simp

theorem sameLocks_refl (lv : lockVerifier) : sameLocks lv lv := ⟨rfl, rfl, rfl⟩

theorem sameLocks_trans {a b c : lockVerifier} (h1 : sameLocks a b) (h2 : sameLocks b c) :
    sameLocks a c :=
  ⟨h2.1.trans h1.1, h2.2.1.trans h1.2.1, h2.2.2.trans h1.2.2⟩

theorem sameLocks_enabled {a b : lockVerifier} (h : sameLocks a b) : b.Enabled = a.Enabled := by
  unfold lockVerifier.Enabled
  rw [h.1]

theorem sameLocks_lockedByThem {a b : lockVerifier} (h : sameLocks a b) (name : String) :
    (b.LockedByThem name).1 = (a.LockedByThem name).1 := by
  unfold lockVerifier.LockedByThem
  rw [h.2.1]
  cases findLock a.theirLocks name <;> rfl

theorem sameLocks_admits {a b : lockVerifier} (h : sameLocks a b) (name : String) :
    admits b name = admits a name := by
  unfold admits
  rw [sameLocks_lockedByThem h, sameLocks_enabled h]

theorem sameLocks_kept {a b : lockVerifier} (h : sameLocks a b) (uploaded : StringSet)
    (seen : StringSet) (ps : List WrappedPointer) :
    kept b uploaded seen ps = kept a uploaded seen ps := by
  induction ps generalizing seen with
  | nil => rfl
  | cons p ps ih =>
    simp only [kept, sameLocks_admits h, ih]

theorem sameSession_refl (c : uploadContext) : sameSession c c :=
  ⟨rfl, rfl, rfl, rfl, rfl, rfl, rfl, rfl, rfl, rfl, sameLocks_refl _⟩

theorem sameSession_trans {a b c : uploadContext} (h1 : sameSession a b) (h2 : sameSession b c) :
    sameSession a c := by
  obtain ⟨a1, a2, a3, a4, a5, a6, a7, a8, a9, a10, a11⟩ := h1
  obtain ⟨b1, b2, b3, b4, b5, b6, b7, b8, b9, b10, b11⟩ := h2
  exact ⟨b1.trans a1, b2.trans a2, b3.trans a3, b4.trans a4, b5.trans a5, b6.trans a6,
    b7.trans a7, b8.trans a8, b9.trans a9, b10.trans a10, sameLocks_trans a11 b11⟩

/-! ## The loop of `prepareUpload` -/

theorem prepareStep_skip (st : prepareState) (p : WrappedPointer)
    (h : (st.uniqOids.Contains p.Oid || st.c.HasUploaded p.Oid || p.Size == 0) = true) :
    prepareStep st p = st := by
  unfold prepareStep
  rw [if_pos h]

theorem prepareStep_canUpload (st : prepareState) (p : WrappedPointer) :
    (if (st.c.lockVerifier.LockedByThem p.Name).1
      then !(st.c.lockVerifier.LockedByThem p.Name).2.Enabled else true)
      = admits st.c.lockVerifier p.Name := by
  unfold admits
  rw [sameLocks_enabled (LockedByThem_sameLocks _ _)]
  cases (st.c.lockVerifier.LockedByThem p.Name).1 <;> simp

theorem prepareStep_go (st : prepareState) (p : WrappedPointer)
    (h : ¬ (st.uniqOids.Contains p.Oid || st.c.HasUploaded p.Oid || p.Size == 0) = true) :
    prepareStep st p =
      if admits st.c.lockVerifier p.Name then
        { c := { st.c with
                  lockVerifier := ((st.c.lockVerifier.LockedByThem p.Name).2.LockedByUs p.Name).2,
                  meter := st.c.meter.Add p.Size },
          uniqOids := st.uniqOids.Add p.Oid,
          uploadables := st.uploadables ++ [p] }
      else
        { c := { st.c with
                  lockVerifier := ((st.c.lockVerifier.LockedByThem p.Name).2.LockedByUs p.Name).2 },
          uniqOids := st.uniqOids.Add p.Oid,
          uploadables := st.uploadables } := by
  unfold prepareStep
  rw [if_neg h]
  dsimp only
  rw [prepareStep_canUpload]

theorem prepareStep_sameSession (st : prepareState) (p : WrappedPointer) :
    sameSession st.c (prepareStep st p).c := by
  by_cases h : (st.uniqOids.Contains p.Oid || st.c.HasUploaded p.Oid || p.Size == 0) = true
  · rw [prepareStep_skip st p h]
    exact sameSession_refl _
  · have hl : sameLocks st.c.lockVerifier
        ((st.c.lockVerifier.LockedByThem p.Name).2.LockedByUs p.Name).2 :=
      sameLocks_trans (LockedByThem_sameLocks _ _) (LockedByUs_sameLocks _ _)
    rw [prepareStep_go st p h]
    cases admits st.c.lockVerifier p.Name
    · exact ⟨rfl, rfl, rfl, rfl, rfl, rfl, rfl, rfl, rfl, rfl, hl⟩
    · exact ⟨rfl, rfl, rfl, rfl, rfl, rfl, rfl, rfl, rfl, rfl, hl⟩

theorem prepareLoop_sameSession (st : prepareState) (ps : List WrappedPointer) :
    sameSession st.c (prepareLoop st ps).c := by
  induction ps generalizing st with
  | nil => exact sameSession_refl _
  | cons p ps ih =>
    exact sameSession_trans (prepareStep_sameSession st p) (ih (prepareStep st p))

theorem prepareLoop_uploadables (st : prepareState) (ps : List WrappedPointer) :
    (prepareLoop st ps).uploadables
      = st.uploadables ++ kept st.c.lockVerifier st.c.uploadedOids st.uniqOids ps := by
  induction ps generalizing st with
  | nil => simp [prepareLoop, kept]
  | cons p ps ih =>
    rw [prepareLoop, ih]
    have hs := prepareStep_sameSession st p
    rw [sameLocks_kept hs.2.2.2.2.2.2.2.2.2.2, hs.2.1]
    by_cases h : (st.uniqOids.Contains p.Oid || st.c.HasUploaded p.Oid || p.Size == 0) = true
    · rw [prepareStep_skip st p h]
      have h2 : (st.uniqOids.Contains p.Oid || st.c.uploadedOids.Contains p.Oid || p.Size == 0)
          = true := h
      simp only [kept, h2, if_true]
    · have h2 : ¬ (st.uniqOids.Contains p.Oid || st.c.uploadedOids.Contains p.Oid || p.Size == 0)
          = true := h
      simp only [kept, h2, if_false]
      rw [prepareStep_go st p h]
      cases admits st.c.lockVerifier p.Name <;> simp

theorem prepareLoop_meter (st : prepareState) (ps : List WrappedPointer) :
    (prepareLoop st ps).c.meter.estimatedBytes
      = meterAfter st.c.meter.estimatedBytes
          ((kept st.c.lockVerifier st.c.uploadedOids st.uniqOids ps).map (fun p => p.Size)) := by
  induction ps generalizing st with
  | nil => simp [prepareLoop, kept, meterAfter]
  | cons p ps ih =>
    rw [prepareLoop, ih]
    have hs := prepareStep_sameSession st p
    rw [sameLocks_kept hs.2.2.2.2.2.2.2.2.2.2, hs.2.1]
    by_cases h : (st.uniqOids.Contains p.Oid || st.c.HasUploaded p.Oid || p.Size == 0) = true
    · rw [prepareStep_skip st p h]
      have h2 : (st.uniqOids.Contains p.Oid || st.c.uploadedOids.Contains p.Oid || p.Size == 0)
          = true := h
      simp only [kept, h2, if_true]
    · have h2 : ¬ (st.uniqOids.Contains p.Oid || st.c.uploadedOids.Contains p.Oid || p.Size == 0)
          = true := h
      simp only [kept, h2, if_false]
      rw [prepareStep_go st p h]
      cases admits st.c.lockVerifier p.Name <;> simp [Meter.Add, meterAfter]

theorem prepareUpload_eq (c : uploadContext) (ps : List WrappedPointer) :
    (c.prepareUpload ps).2 = kept c.lockVerifier c.uploadedOids NewStringSet ps := by
  unfold uploadContext.prepareUpload
  simp [prepareLoop_uploadables]

theorem prepareUpload_sameSession (c : uploadContext) (ps : List WrappedPointer) :
    sameSession c (c.prepareUpload ps).1 := by
  unfold uploadContext.prepareUpload
  exact prepareLoop_sameSession _ ps

/-! ## What the filter keeps -/

theorem kept_cons_skip (lv : lockVerifier) (uploaded seen : StringSet) (p : WrappedPointer)
    (ps : List WrappedPointer)
    (h : (seen.Contains p.Oid || uploaded.Contains p.Oid || p.Size == 0) = true) :
    kept lv uploaded seen (p :: ps) = kept lv uploaded seen ps := by
  simp only [kept, h, if_true]

theorem kept_cons_pass (lv : lockVerifier) (uploaded seen : StringSet) (p : WrappedPointer)
    (ps : List WrappedPointer)
    (h : ¬ (seen.Contains p.Oid || uploaded.Contains p.Oid || p.Size == 0) = true)
    (ha : admits lv p.Name = true) :
    kept lv uploaded seen (p :: ps) = p :: kept lv uploaded (seen.Add p.Oid) ps := by
  simp [kept, h, ha]

theorem kept_cons_block (lv : lockVerifier) (uploaded seen : StringSet) (p : WrappedPointer)
    (ps : List WrappedPointer)
    (h : ¬ (seen.Contains p.Oid || uploaded.Contains p.Oid || p.Size == 0) = true)
    (ha : admits lv p.Name = false) :
    kept lv uploaded seen (p :: ps) = kept lv uploaded (seen.Add p.Oid) ps := by
  simp [kept, h, ha]

theorem skip_false_iff (uploaded seen : StringSet) (p : WrappedPointer) :
    (¬ (seen.Contains p.Oid || uploaded.Contains p.Oid || p.Size == 0) = true)
      ↔ (p.Oid ∉ seen.elems ∧ p.Oid ∉ uploaded.elems ∧ p.Size ≠ 0) := by
  simp [StringSet.Contains, and_assoc]

theorem mem_kept (lv : lockVerifier) (uploaded : StringSet) (seen : StringSet)
    (ps : List WrappedPointer) (x : WrappedPointer)
    (hx : x ∈ kept lv uploaded seen ps) :
    x ∈ ps ∧ x.Oid ∉ seen.elems ∧ x.Oid ∉ uploaded.elems ∧ x.Size ≠ 0 ∧ admits lv x.Name = true := by
  induction ps generalizing seen with
  | nil => simp [kept] at hx
  | cons p ps ih =>
    by_cases h : (seen.Contains p.Oid || uploaded.Contains p.Oid || p.Size == 0) = true
    · rw [kept_cons_skip _ _ _ _ _ h] at hx
      have := ih seen hx
      exact ⟨List.mem_cons_of_mem _ this.1, this.2⟩
    · have hn := (skip_false_iff uploaded seen p).1 h
      cases ha : admits lv p.Name
      · rw [kept_cons_block _ _ _ _ _ h ha] at hx
        have := ih _ hx
        refine ⟨List.mem_cons_of_mem _ this.1, ?_, this.2.2⟩
        intro hm
        exact this.2.1 ((StringSet.mem_add _ _ _).2 (Or.inr hm))
      · rw [kept_cons_pass _ _ _ _ _ h ha] at hx
        rcases List.mem_cons.1 hx with rfl | hx
        · exact ⟨List.mem_cons_self _ _, hn.1, hn.2.1, hn.2.2, ha⟩
        · have := ih _ hx
          refine ⟨List.mem_cons_of_mem _ this.1, ?_, this.2.2⟩
          intro hm
          exact this.2.1 ((StringSet.mem_add _ _ _).2 (Or.inr hm))

theorem kept_oid_not_seen (lv : lockVerifier) (uploaded : StringSet) (seen : StringSet)
    (ps : List WrappedPointer) (x : WrappedPointer) (oid : String)
    (hx : x ∈ kept lv uploaded (seen.Add oid) ps) : x.Oid ≠ oid := by
  intro he
  exact (mem_kept _ _ _ _ _ hx).2.1 ((StringSet.mem_add _ _ _).2 (Or.inl he))

theorem kept_nodup (lv : lockVerifier) (uploaded : StringSet) (seen : StringSet)
    (ps : List WrappedPointer) :
    ((kept lv uploaded seen ps).map (fun p => p.Oid)).Nodup := by
  induction ps generalizing seen with
  | nil => simp [kept]
  | cons p ps ih =>
    by_cases h : (seen.Contains p.Oid || uploaded.Contains p.Oid || p.Size == 0) = true
    · rw [kept_cons_skip _ _ _ _ _ h]
      exact ih seen
    · cases ha : admits lv p.Name
      · rw [kept_cons_block _ _ _ _ _ h ha]
        exact ih _
      · rw [kept_cons_pass _ _ _ _ _ h ha, List.map_cons, List.nodup_cons]
        refine ⟨?_, ih _⟩
        intro hm
        obtain ⟨x, hx, hxo⟩ := List.mem_map.1 hm
        exact kept_oid_not_seen _ _ _ _ _ _ hx hxo

theorem kept_sublist (lv : lockVerifier) (uploaded : StringSet) (seen : StringSet)
    (ps : List WrappedPointer) :
    List.Sublist (kept lv uploaded seen ps) ps := by
  induction ps generalizing seen with
  | nil => simp [kept]
  | cons p ps ih =>
    by_cases h : (seen.Contains p.Oid || uploaded.Contains p.Oid || p.Size == 0) = true
    · rw [kept_cons_skip _ _ _ _ _ h]
      exact List.Sublist.cons _ (ih seen)
    · cases ha : admits lv p.Name
      · rw [kept_cons_block _ _ _ _ _ h ha]
        exact List.Sublist.cons _ (ih _)
      · rw [kept_cons_pass _ _ _ _ _ h ha]
        exact List.Sublist.cons₂ _ (ih _)

theorem kept_first_iff (lv : lockVerifier) (uploaded : StringSet) (seen : StringSet)
    (pre post : List WrappedPointer) (r : WrappedPointer)
    (hseen : r.Oid ∉ seen.elems) (hup : r.Oid ∉ uploaded.elems) (hsize : r.Size ≠ 0)
    (hfirst : ∀ x ∈ pre, x.Oid ≠ r.Oid) :
    r ∈ kept lv uploaded seen (pre ++ r :: post) ↔ admits lv r.Name = true := by
  induction pre generalizing seen with
  | nil =>
    have h : ¬ (seen.Contains r.Oid || uploaded.Contains r.Oid || r.Size == 0) = true :=
      (skip_false_iff uploaded seen r).2 ⟨hseen, hup, hsize⟩
    rw [List.nil_append]
    cases ha : admits lv r.Name
    · rw [kept_cons_block _ _ _ _ _ h ha]
      constructor
      · intro hm
        exact absurd rfl (kept_oid_not_seen _ _ _ _ _ _ hm)
      · intro hf
        exact absurd hf (by simp)
    · rw [kept_cons_pass _ _ _ _ _ h ha]
      simp
  | cons p pre ih =>
    have hp : p.Oid ≠ r.Oid := hfirst p (List.mem_cons_self _ _)
    have hrest : ∀ x ∈ pre, x.Oid ≠ r.Oid := fun x hx => hfirst x (List.mem_cons_of_mem _ hx)
    rw [List.cons_append]
    by_cases h : (seen.Contains p.Oid || uploaded.Contains p.Oid || p.Size == 0) = true
    · rw [kept_cons_skip _ _ _ _ _ h]
      exact ih seen hseen hrest
    · have hseen2 : r.Oid ∉ (seen.Add p.Oid).elems := by
        intro hm
        rcases (StringSet.mem_add _ _ _).1 hm with he | hm
        · exact hp he.symm
        · exact hseen hm
      cases ha : admits lv p.Name
      · rw [kept_cons_block _ _ _ _ _ h ha]
        exact ih _ hseen2 hrest
      · rw [kept_cons_pass _ _ _ _ _ h ha, List.mem_cons]
        have hne : r ≠ p := by
          intro he
          exact hp (by rw [he])
        simp only [hne, false_or]
        exact ih _ hseen2 hrest

/-! ## Descriptors and the queueing loop -/

theorem uploadTransfer_congr (fs : FileSystem) (c c1 : uploadContext) (p : WrappedPointer)
    (hg : c1.gitfilter = c.gitfilter) (ha : c1.allowMissing = c.allowMissing) :
    c1.uploadTransfer fs p = c.uploadTransfer fs p := by
  unfold uploadContext.uploadTransfer
  rw [hg, ha]

theorem uploadTransfer_ok (fs : FileSystem) (c : uploadContext) (p : WrappedPointer) (t : Transfer)
    (h : c.uploadTransfer fs p = .ok t) :
    t.Name = p.Name ∧ t.Oid = p.Oid ∧ t.Size = p.Size ∧
    c.gitfilter.ObjectPath p.Oid = .ok t.Path ∧
    (t.Missing = true ↔
      ((∃ e, fs.Stat t.Path = some e ∧ os.IsNotExist e = true) ∧ c.allowMissing = false)) := by
  unfold uploadContext.uploadTransfer at h
  dsimp only at h
  cases hp : c.gitfilter.ObjectPath p.Oid with
  | error e => rw [hp] at h; simp at h
  | ok path =>
    rw [hp] at h
    dsimp only at h
    cases hs : fs.Stat path with
    | none =>
      rw [hs] at h
      simp only [Except.ok.injEq] at h
      subst h
      simp [hs]
    | some e =>
      rw [hs] at h
      dsimp only at h
      by_cases hn : os.IsNotExist e = true
      · rw [if_pos hn] at h
        simp only [Except.ok.injEq] at h
        subst h
        simp [hs, hn]
      · rw [if_neg hn] at h
        simp at h

theorem markAll_nil (c : uploadContext) : markAll c [] = c := rfl

theorem markAll_cons (c : uploadContext) (p : WrappedPointer) (ps : List WrappedPointer) :
    markAll c (p :: ps) = markAll (c.SetUploaded p.Oid) ps := rfl

theorem markAll_frame (c : uploadContext) (ps : List WrappedPointer) :
    (markAll c ps).DryRun = c.DryRun ∧ (markAll c ps).gitfilter = c.gitfilter ∧
    (markAll c ps).allowMissing = c.allowMissing ∧ (markAll c ps).meter = c.meter ∧
    (markAll c ps).lockVerifier = c.lockVerifier ∧ (markAll c ps).scannerErr = c.scannerErr ∧
    (markAll c ps).missing = c.missing ∧ (markAll c ps).corrupt = c.corrupt ∧
    (markAll c ps).otherErrs = c.otherErrs ∧ (markAll c ps).printed = c.printed := by
  induction ps generalizing c with
  | nil => simp [markAll_nil]
  | cons p ps ih =>
    rw [markAll_cons]
    have := ih (c.SetUploaded p.Oid)
    simpa [uploadContext.SetUploaded] using this

theorem mem_markAll (c : uploadContext) (ps : List WrappedPointer) (x : String) :
    x ∈ (markAll c ps).uploadedOids.elems
      ↔ x ∈ c.uploadedOids.elems ∨ x ∈ ps.map (fun p => p.Oid) := by
  induction ps generalizing c with
  | nil => simp [markAll_nil]
  | cons p ps ih =>
    rw [markAll_cons, ih]
    simp only [uploadContext.SetUploaded, StringSet.mem_add, List.map_cons, List.mem_cons]
    tauto

theorem queueLoop_spec (fs : FileSystem) (c : uploadContext) (q : TransferQueue)
    (ps : List WrappedPointer) :
    ∃ pre post ts, ps = pre ++ post ∧
      List.Forall₂ (fun p t => c.uploadTransfer fs p = .ok t) pre ts ∧
      (queueLoop fs c q ps).state.2.added = q.added ++ ts ∧
      (queueLoop fs c q ps).state.2.engine = q.engine ∧
      (queueLoop fs c q ps).state.1 = markAll c pre ∧
      ((queueLoop fs c q ps).exited = false → post = []) ∧
      ((queueLoop fs c q ps).exited = true →
        ∃ p rest err, post = p :: rest ∧ c.uploadTransfer fs p = .error err ∧
          queueLoop fs c q ps
            = .exit (.exitWithError err) (queueLoop fs c q ps).state) := by
  induction ps generalizing c q with
  | nil =>
    exact ⟨[], [], [], rfl, List.Forall₂.nil, by simp [queueLoop, Run.state],
      by simp [queueLoop, Run.state], by simp [queueLoop, Run.state, markAll_nil],
      fun _ => rfl, by simp [queueLoop, Run.exited]⟩
  | cons p ps ih =>
    cases ht : c.uploadTransfer fs p with
    | error err =>
      refine ⟨[], p :: ps, [], rfl, List.Forall₂.nil, ?_, ?_, ?_, ?_, ?_⟩
      · simp [queueLoop, ht, Run.state]
      · simp [queueLoop, ht, Run.state]
      · simp [queueLoop, ht, Run.state, markAll_nil]
      · simp [queueLoop, ht, Run.exited]
      · intro _
        exact ⟨p, ps, err, rfl, ht, by simp [queueLoop, ht, Run.state]⟩
    | ok t =>
      have hq : queueLoop fs c q (p :: ps)
          = queueLoop fs (c.SetUploaded p.Oid) (q.Add t) ps := by
        simp [queueLoop, ht]
      obtain ⟨pre, post, ts, hps, hall, hadd, heng, hctx, hdone, hexit⟩ :=
        ih (c.SetUploaded p.Oid) (q.Add t)
      have hcongr : ∀ x, (c.SetUploaded p.Oid).uploadTransfer fs x = c.uploadTransfer fs x :=
        fun x => uploadTransfer_congr fs c _ x rfl rfl
      refine ⟨p :: pre, post, t :: ts, by rw [hps]; rfl, ?_, ?_, ?_, ?_, ?_, ?_⟩
      · refine List.Forall₂.cons ht ?_
        simpa only [hcongr] using hall
      · rw [hq, hadd]
        simp [TransferQueue.Add]
      · rw [hq, heng]
        rfl
      · rw [hq, hctx, markAll_cons]
      · rw [hq]
        exact hdone
      · rw [hq]
        intro he
        obtain ⟨p1, rest, err, h1, h2, h3⟩ := hexit he
        exact ⟨p1, rest, err, h1, by rw [← hcongr]; exact h2, h3⟩

theorem forall₂_transfer_fields (fs : FileSystem) (c : uploadContext)
    (ps : List WrappedPointer) (ts : List Transfer)
    (h : List.Forall₂ (fun p t => c.uploadTransfer fs p = .ok t) ps ts) :
    ts.map (fun t => t.Oid) = ps.map (fun p => p.Oid) ∧
    ts.map (fun t => t.Size) = ps.map (fun p => p.Size) ∧
    ts.map (fun t => t.Name) = ps.map (fun p => p.Name) := by
  induction h with
  | nil => simp
  | cons hpt _ ih =>
    have := uploadTransfer_ok fs c _ _ hpt
    simp [this.1, this.2.1, this.2.2.1, ih.1, ih.2.1, ih.2.2]

/-! ## `UploadPointers` outside dry-run mode -/

theorem UploadPointers_spec (fs : FileSystem) (c : uploadContext) (q : TransferQueue)
    (ps : List WrappedPointer) (hdry : c.DryRun = false) :
    ∃ pre post ts, (c.prepareUpload ps).2 = pre ++ post ∧
      List.Forall₂ (fun p t => c.uploadTransfer fs p = .ok t) pre ts ∧
      (c.UploadPointers fs q ps).state.2.added = q.added ++ ts ∧
      (c.UploadPointers fs q ps).state.1 = markAll (c.prepareUpload ps).1 pre ∧
      ((c.UploadPointers fs q ps).exited = false → post = []) := by
  have hs := prepareUpload_sameSession c ps
  obtain ⟨pre, post, ts, h1, h2, h3, _, h5, h6, _⟩ :=
    queueLoop_spec fs (c.prepareUpload ps).1 q (c.prepareUpload ps).2
  have hu : c.UploadPointers fs q ps
      = queueLoop fs (c.prepareUpload ps).1 q (c.prepareUpload ps).2 := by
    unfold uploadContext.UploadPointers
    rw [hdry]
    rfl
  have hcongr : ∀ x, (c.prepareUpload ps).1.uploadTransfer fs x = c.uploadTransfer fs x :=
    fun x => uploadTransfer_congr fs c _ x hs.2.2.1 hs.2.2.2.1
  refine ⟨pre, post, ts, h1, ?_, ?_, ?_, ?_⟩
  · simpa only [hcongr] using h2
  · rw [hu]; exact h3
  · rw [hu]; exact h5
  · rw [hu]; exact h6

theorem UploadPointers_added (fs : FileSystem) (c : uploadContext) (q : TransferQueue)
    (ps : List WrappedPointer) (hdry : c.DryRun = false) :
    ∃ pre post ts, kept c.lockVerifier c.uploadedOids NewStringSet ps = pre ++ post ∧
      List.Forall₂ (fun p t => c.uploadTransfer fs p = .ok t) pre ts ∧
      (c.UploadPointers fs q ps).state.2.added.drop q.added.length = ts ∧
      (∀ x, x ∈ (c.UploadPointers fs q ps).state.1.uploadedOids.elems
        ↔ x ∈ c.uploadedOids.elems ∨ x ∈ ts.map (fun t => t.Oid)) ∧
      (c.UploadPointers fs q ps).state.1.DryRun = false ∧
      ((c.UploadPointers fs q ps).exited = false → post = []) := by
  obtain ⟨pre, post, ts, h1, h2, h3, h4, h5⟩ := UploadPointers_spec fs c q ps hdry
  have hs := prepareUpload_sameSession c ps
  refine ⟨pre, post, ts, ?_, h2, ?_, ?_, ?_, h5⟩
  · rw [← prepareUpload_eq]; exact h1
  · rw [h3]; simp
  · intro x
    rw [h4, mem_markAll, hs.2.1, (forall₂_transfer_fields fs c pre ts h2).1]
  · rw [h4, (markAll_frame _ _).1, hs.1, hdry]

theorem sessionAdds_inv (fs : FileSystem) (calls : List (TransferQueue × List WrappedPointer)) :
    ∀ (c : uploadContext) (r : uploadContext × List Transfer), c.DryRun = false →
      sessionAdds fs c calls = some r →
      (r.2.map (fun t => t.Oid)).Nodup ∧
      (∀ t ∈ r.2, t.Oid ∉ c.uploadedOids.elems) ∧
      (∀ t ∈ r.2, t.Oid ∈ r.1.uploadedOids.elems) ∧
      (∀ x ∈ c.uploadedOids.elems, x ∈ r.1.uploadedOids.elems) ∧
      (∀ t ∈ r.2, t.Size ≠ 0) := by
  induction calls with
  | nil =>
    intro c r _ hr
    simp only [sessionAdds, Option.some.injEq] at hr
    subst hr
    simp
  | cons call rest ih =>
    intro c r hdry hr
    obtain ⟨q, batch⟩ := call
    obtain ⟨pre, post, ts, hk, hall, hadd, hmem, hdry1, hpost⟩ :=
      UploadPointers_added fs c q batch hdry
    cases hu : c.UploadPointers fs q batch with
    | exit e st => simp [sessionAdds, hu] at hr
    | done st =>
      obtain ⟨c1, q1⟩ := st
      rw [hu] at hadd hmem hdry1 hpost
      simp only [Run.state] at hadd hmem hdry1
      have hp : post = [] := hpost rfl
      subst hp
      rw [List.append_nil] at hk
      cases hrest : sessionAdds fs c1 rest with
      | none => simp [sessionAdds, hu, hrest] at hr
      | some r1 =>
        obtain ⟨c2, adds⟩ := r1
        simp only [sessionAdds, hu, hrest, Option.some.injEq] at hr
        subst hr
        obtain ⟨i1, i2, i3, i4, i5⟩ := ih c1 (c2, adds) hdry1 hrest
        have hf := forall₂_transfer_fields fs c pre ts hall
        have hoids : ts.map (fun t => t.Oid)
            = (kept c.lockVerifier c.uploadedOids NewStringSet batch).map (fun p => p.Oid) := by
          rw [hk]; exact hf.1
        have hts_nodup : (ts.map (fun t => t.Oid)).Nodup := by
          rw [hoids]; exact kept_nodup _ _ _ _
        have hts_new : ∀ t ∈ ts, t.Oid ∉ c.uploadedOids.elems := by
          intro t ht
          have : t.Oid ∈ ts.map (fun t => t.Oid) := List.mem_map_of_mem _ ht
          rw [hoids] at this
          obtain ⟨x, hx, hxo⟩ := List.mem_map.1 this
          have := (mem_kept _ _ _ _ _ hx).2.2.1
          simpa [← hxo] using this
        have hts_size : ∀ t ∈ ts, t.Size ≠ 0 := by
          intro t ht
          have : t.Size ∈ ts.map (fun t => t.Size) := List.mem_map_of_mem _ ht
          rw [hf.2.1] at this
          obtain ⟨x, hx, hxo⟩ := List.mem_map.1 this
          rw [← hk] at hx
          have := (mem_kept _ _ _ _ _ hx).2.2.2.1
          simpa [← hxo] using this
        dsimp only
        rw [hadd]
        refine ⟨?_, ?_, ?_, ?_, ?_⟩
        · rw [List.map_append, List.nodup_append]
          refine ⟨hts_nodup, i1, ?_⟩
          intro o ho1 ho2
          obtain ⟨t, ht, hto⟩ := List.mem_map.1 ho2
          apply i2 t ht
          rw [hmem]
          exact Or.inr (hto ▸ ho1)
        · intro t ht
          rcases List.mem_append.1 ht with h | h
          · exact hts_new t h
          · intro hm
            exact i2 t h ((hmem _).2 (Or.inl hm))
        · intro t ht
          rcases List.mem_append.1 ht with h | h
          · exact i4 _ ((hmem _).2 (Or.inr (List.mem_map_of_mem _ h)))
          · exact i3 t h
        · intro x hx
          exact i4 _ ((hmem _).2 (Or.inl hx))
        · intro t ht
          rcases List.mem_append.1 ht with h | h
          · exact hts_size t h
          · exact i5 t h

/-! ## Deduplication, zero sizes and lock gating -/

/-- C1: over any sequence of non-dry-run `UploadPointers` calls on one context
in which no call ends the process, the transfers added to the queues carry
pairwise distinct oids, none of them an oid that was already uploaded when the
sequence started, and each of them is marked uploaded at the end. -/
theorem C1_oid_queued_at_most_once (fs : FileSystem) (c : uploadContext)
    (calls : List (TransferQueue × List WrappedPointer)) (r : uploadContext × List Transfer)
    (hdry : c.DryRun = false) (hr : sessionAdds fs c calls = some r) :
    (r.2.map (fun t => t.Oid)).Nodup ∧
    (∀ t ∈ r.2, c.HasUploaded t.Oid = false) ∧
    (∀ t ∈ r.2, r.1.HasUploaded t.Oid = true) := by
  obtain ⟨h1, h2, h3, _, _⟩ := sessionAdds_inv fs calls c r hdry hr
  refine ⟨h1, ?_, ?_⟩
  · intro t ht
    exact (StringSet.contains_false_iff _ _).2 (h2 t ht)
  · intro t ht
    exact (StringSet.contains_iff _ _).2 (h3 t ht)

/-- C1, the scenario of the spec: the batches `[a(100), b(0)]` and then
`[a(100), c(50)]`, with no locks, queue exactly `a` and `c`. -/
theorem C1_oid_queued_at_most_once_witness :
    sessionAdds allPresent (freshContext false false (noLocks .verifyStateEnabled))
        [(quietQueue, [⟨"one.bin", "a", 100⟩, ⟨"two.bin", "b", 0⟩]),
         (quietQueue, [⟨"one.bin", "a", 100⟩, ⟨"three.bin", "c", 50⟩])]
      = some ({ freshContext false false (noLocks .verifyStateEnabled) with
                uploadedOids := ⟨["c", "a"]⟩, meter := ⟨150, false⟩ },
              [⟨"one.bin", "objects/a", "a", 100, false⟩,
               ⟨"three.bin", "objects/c", "c", 50, false⟩]) ∧
    (([⟨"one.bin", "objects/a", "a", 100, false⟩,
       ⟨"three.bin", "objects/c", "c", 50, false⟩] : List Transfer).map (fun t => t.Oid)).Nodup :=
  ⟨rfl,
   (C1_oid_queued_at_most_once allPresent
      (freshContext false false (noLocks .verifyStateEnabled))
      [(quietQueue, [⟨"one.bin", "a", 100⟩, ⟨"two.bin", "b", 0⟩]),
       (quietQueue, [⟨"one.bin", "a", 100⟩, ⟨"three.bin", "c", 50⟩])]
      ({ freshContext false false (noLocks .verifyStateEnabled) with
         uploadedOids := ⟨["c", "a"]⟩, meter := ⟨150, false⟩ },
       [⟨"one.bin", "objects/a", "a", 100, false⟩,
        ⟨"three.bin", "objects/c", "c", 50, false⟩])
      rfl rfl).1⟩

/-- C2: for every batch and every session state, the slice returned by
`prepareUpload` has pairwise distinct oids and holds no record whose oid is
already in `uploadedOids`. -/
theorem C2_prepareUpload_distinct_and_new (c : uploadContext) (batch : List WrappedPointer) :
    ((c.prepareUpload batch).2.map (fun p => p.Oid)).Nodup ∧
    ∀ r ∈ (c.prepareUpload batch).2, c.HasUploaded r.Oid = false := by
  rw [prepareUpload_eq]
  refine ⟨kept_nodup _ _ _ _, ?_⟩
  intro r hr
  exact (StringSet.contains_false_iff _ _).2 (mem_kept _ _ _ _ _ hr).2.2.1

/-- C2 at a batch that names the oid `a` under two paths, in a session that has
already uploaded `b`: only the first record of `a` is returned. -/
theorem C2_prepareUpload_distinct_and_new_witness :
    (({ freshContext false false (noLocks .verifyStateEnabled) with
          uploadedOids := ⟨["b"]⟩ }).prepareUpload
        [⟨"one.bin", "a", 100⟩, ⟨"copy.bin", "a", 100⟩, ⟨"two.bin", "b", 7⟩]).2
      = [⟨"one.bin", "a", 100⟩] ∧
    ((({ freshContext false false (noLocks .verifyStateEnabled) with
          uploadedOids := ⟨["b"]⟩ }).prepareUpload
        [⟨"one.bin", "a", 100⟩, ⟨"copy.bin", "a", 100⟩, ⟨"two.bin", "b", 7⟩]).2.map
        (fun p : WrappedPointer => p.Oid)).Nodup :=
  ⟨rfl,
   (C2_prepareUpload_distinct_and_new
      { freshContext false false (noLocks .verifyStateEnabled) with uploadedOids := ⟨["b"]⟩ }
      [⟨"one.bin", "a", 100⟩, ⟨"copy.bin", "a", 100⟩, ⟨"two.bin", "b", 7⟩]).1⟩

/-- C3, as stated, fails: in the batch `[x(oid a, 0 bytes), y(oid a, 100 bytes)]`
the first record has size zero and its oid is not uploaded before the call, yet
the non-dry-run `UploadPointers` marks that oid as uploaded. -/
theorem C3_zero_size_counterexample :
    (freshContext false false (lockedByBob .verifyStateEnabled)).DryRun = false ∧
    (⟨"x", "a", 0⟩ : WrappedPointer) ∈ [(⟨"x", "a", 0⟩ : WrappedPointer), ⟨"y", "a", 100⟩] ∧
    (⟨"x", "a", 0⟩ : WrappedPointer).Size = 0 ∧
    (freshContext false false (lockedByBob .verifyStateEnabled)).HasUploaded "a" = false ∧
    (((freshContext false false (lockedByBob .verifyStateEnabled)).UploadPointers allPresent
        quietQueue [⟨"x", "a", 0⟩, ⟨"y", "a", 100⟩]).state.1.HasUploaded "a") = true := by
  refine ⟨rfl, by decide, rfl, rfl, rfl⟩

/-- C3, amended: no record of size zero is in the slice returned by
`prepareUpload`; outside dry-run mode no transfer that `UploadPointers` adds to
the queue has size zero; and the oid of a zero-size record that was not uploaded
before the call is not marked uploaded by it when every record of the batch with
that oid has size zero. This holds for the state reached whether the call
returns or ends the process. -/
theorem C3_zero_size_never_queued (fs : FileSystem) (c : uploadContext) (q : TransferQueue)
    (batch : List WrappedPointer) (hdry : c.DryRun = false) :
    (∀ r ∈ (c.prepareUpload batch).2, r.Size ≠ 0) ∧
    (∀ t ∈ (c.UploadPointers fs q batch).state.2.added.drop q.added.length, t.Size ≠ 0) ∧
    (∀ r ∈ batch, r.Size = 0 → c.HasUploaded r.Oid = false →
      (∀ x ∈ batch, x.Oid = r.Oid → x.Size = 0) →
      (c.UploadPointers fs q batch).state.1.HasUploaded r.Oid = false) := by
  obtain ⟨pre, post, ts, hk, hall, hadd, hmem, _, _⟩ := UploadPointers_added fs c q batch hdry
  have hf := forall₂_transfer_fields fs c pre ts hall
  have hpre : ∀ x ∈ pre, x ∈ batch ∧ x.Size ≠ 0 := by
    intro x hx
    have hx2 : x ∈ kept c.lockVerifier c.uploadedOids NewStringSet batch := by
      rw [hk]; exact List.mem_append_left _ hx
    have := mem_kept _ _ _ _ _ hx2
    exact ⟨this.1, this.2.2.2.1⟩
  refine ⟨?_, ?_, ?_⟩
  · intro r hr
    rw [prepareUpload_eq] at hr
    exact (mem_kept _ _ _ _ _ hr).2.2.2.1
  · intro t ht
    rw [hadd] at ht
    have : t.Size ∈ ts.map (fun t => t.Size) := List.mem_map_of_mem _ ht
    rw [hf.2.1] at this
    obtain ⟨x, hx, hxo⟩ := List.mem_map.1 this
    have := (hpre x hx).2
    simpa [← hxo] using this
  · intro r _ _ hup hzero
    apply (StringSet.contains_false_iff _ _).2
    intro hm
    rcases (hmem _).1 hm with h | h
    · exact (StringSet.contains_false_iff _ _).1 hup h
    · rw [hf.1] at h
      obtain ⟨x, hx, hxo⟩ := List.mem_map.1 h
      exact (hpre x hx).2 (hzero x (hpre x hx).1 hxo)

/-- C3, amended, at a batch with one empty and one non-empty object. -/
theorem C3_zero_size_never_queued_witness :
    (freshContext false false (lockedByBob .verifyStateEnabled)).DryRun = false ∧
    (((freshContext false false (lockedByBob .verifyStateEnabled)).UploadPointers allPresent
        quietQueue [⟨"one.bin", "a", 100⟩, ⟨"two.bin", "b", 0⟩]).state.1.HasUploaded "b") = false :=
  ⟨rfl,
   (C3_zero_size_never_queued allPresent (freshContext false false (lockedByBob .verifyStateEnabled))
      quietQueue [⟨"one.bin", "a", 100⟩, ⟨"two.bin", "b", 0⟩] rfl).2.2
      ⟨"two.bin", "b", 0⟩ (by decide) rfl rfl (by decide)⟩

/-- C4: for a record `r` of non-zero size whose oid is not uploaded and which is
the first record of the batch with that oid, `r` is in the slice returned by
`prepareUpload` exactly when it is not the case that verification is enabled and
the path is locked by someone else. So `r` is kept whenever the mode is not
enabled, whatever `LockedByThem` says, and is dropped when the mode is enabled
and the path is locked by others. -/
theorem C4_lock_gating (c : uploadContext) (pre post : List WrappedPointer) (r : WrappedPointer)
    (hsize : r.Size ≠ 0) (hup : c.HasUploaded r.Oid = false)
    (hfirst : ∀ x ∈ pre, x.Oid ≠ r.Oid) :
    (r ∈ (c.prepareUpload (pre ++ r :: post)).2
      ↔ ¬ (c.lockVerifier.Enabled = true ∧ (c.lockVerifier.LockedByThem r.Name).1 = true)) ∧
    (c.lockVerifier.verifyState ≠ verifyState.verifyStateEnabled →
      r ∈ (c.prepareUpload (pre ++ r :: post)).2) ∧
    (c.lockVerifier.verifyState = verifyState.verifyStateEnabled →
      (c.lockVerifier.LockedByThem r.Name).1 = true →
      r ∉ (c.prepareUpload (pre ++ r :: post)).2) := by
  have hiff : r ∈ (c.prepareUpload (pre ++ r :: post)).2
      ↔ ¬ (c.lockVerifier.Enabled = true ∧ (c.lockVerifier.LockedByThem r.Name).1 = true) := by
    rw [prepareUpload_eq,
      kept_first_iff c.lockVerifier c.uploadedOids NewStringSet pre post r (by simp [NewStringSet])
        ((StringSet.contains_false_iff _ _).1 hup) hsize hfirst]
    unfold admits
    cases c.lockVerifier.Enabled <;> cases (c.lockVerifier.LockedByThem r.Name).1 <;> simp
  refine ⟨hiff, ?_, ?_⟩
  · intro hmode
    rw [hiff]
    intro h
    have := h.1
    simp only [lockVerifier.Enabled, decide_eq_true_eq] at this
    exact hmode this
  · intro hmode hlocked
    rw [hiff]
    intro h
    apply h
    refine ⟨?_, hlocked⟩
    simp [lockVerifier.Enabled, hmode]

/-- C4 at a batch in which `locked.bin` is locked by someone else: with
verification enabled the record is dropped, and the record of another path is
kept. -/
theorem C4_lock_gating_witness :
    ((⟨"locked.bin", "b", 7⟩ : WrappedPointer)
      ∉ ((freshContext false false (lockedByBob .verifyStateEnabled)).prepareUpload
          ([⟨"one.bin", "a", 100⟩] ++ ⟨"locked.bin", "b", 7⟩ :: [⟨"copy.bin", "b", 7⟩])).2) ∧
    ((⟨"locked.bin", "b", 7⟩ : WrappedPointer)
      ∈ ((freshContext false false (lockedByBob .verifyStateUnknown)).prepareUpload
          ([⟨"one.bin", "a", 100⟩] ++ ⟨"locked.bin", "b", 7⟩ :: [⟨"copy.bin", "b", 7⟩])).2) :=
  ⟨(C4_lock_gating (freshContext false false (lockedByBob .verifyStateEnabled))
      [⟨"one.bin", "a", 100⟩] [⟨"copy.bin", "b", 7⟩] ⟨"locked.bin", "b", 7⟩
      (by decide) rfl (by decide)).2.2 rfl rfl,
   (C4_lock_gating (freshContext false false (lockedByBob .verifyStateUnknown))
      [⟨"one.bin", "a", 100⟩] [⟨"copy.bin", "b", 7⟩] ⟨"locked.bin", "b", 7⟩
      (by decide) rfl (by decide)).2.1 (by decide)⟩

/-! ## Descriptors -/

/-- C5: when `uploadTransfer` returns a descriptor for `p`, its `Missing` flag
is true exactly when the local object file does not exist and `allowMissing` is
false; its name, oid and size are those of `p` and its path is the resolved
object path. With `allowMissing` true the flag is false, and for an absent file
a descriptor is still returned. Outside dry-run mode, a call of `UploadPointers`
that returns has added to the queue exactly the descriptors of the pointers kept
by `prepareUpload`, in order. -/
theorem C5_missing_flag (fs : FileSystem) (c : uploadContext) :
    (∀ p t, c.uploadTransfer fs p = .ok t →
      (t.Missing = true ↔
        ((∃ e, fs.Stat t.Path = some e ∧ os.IsNotExist e = true) ∧ c.allowMissing = false)) ∧
      t.Name = p.Name ∧ t.Oid = p.Oid ∧ t.Size = p.Size ∧
      c.gitfilter.ObjectPath p.Oid = .ok t.Path ∧
      (c.allowMissing = true → t.Missing = false)) ∧
    (∀ p path e, c.allowMissing = true → c.gitfilter.ObjectPath p.Oid = .ok path →
      fs.Stat path = some e → os.IsNotExist e = true →
      c.uploadTransfer fs p
        = .ok { Name := p.Name, Path := path, Oid := p.Oid, Size := p.Size, Missing := false }) ∧
    (∀ q batch, c.DryRun = false → (c.UploadPointers fs q batch).exited = false →
      List.Forall₂ (fun p t => c.uploadTransfer fs p = .ok t) (c.prepareUpload batch).2
        ((c.UploadPointers fs q batch).state.2.added.drop q.added.length)) := by
  refine ⟨?_, ?_, ?_⟩
  · intro p t h
    obtain ⟨h1, h2, h3, h4, h5⟩ := uploadTransfer_ok fs c p t h
    refine ⟨h5, h1, h2, h3, h4, ?_⟩
    intro ha
    cases hm : t.Missing
    · rfl
    · have := (h5.1 hm).2
      rw [ha] at this
      exact absurd this (by simp)
  · intro p path e ha hp hs hn
    unfold uploadContext.uploadTransfer
    simp [hp, hs, hn, ha]
  · intro q batch hdry hret
    obtain ⟨pre, post, ts, h1, h2, h3, _, h5⟩ := UploadPointers_spec fs c q batch hdry
    have hp : post = [] := h5 hret
    subst hp
    rw [List.append_nil] at h1
    rw [h1, h3]
    simpa using h2

/-- C5 at a session that allows missing objects and a store in which no object
file exists: the descriptor is returned, not marked missing, and queued. -/
theorem C5_missing_flag_witness :
    ((freshContext false true (noLocks .verifyStateEnabled)).uploadTransfer allAbsent
        ⟨"one.bin", "a", 100⟩
      = .ok { Name := "one.bin", Path := "objects/a", Oid := "a", Size := 100, Missing := false }) ∧
    List.Forall₂
      (fun p t => (freshContext false true (noLocks .verifyStateEnabled)).uploadTransfer allAbsent p
        = .ok t)
      ((freshContext false true (noLocks .verifyStateEnabled)).prepareUpload [⟨"one.bin", "a", 100⟩]).2
      ((((freshContext false true (noLocks .verifyStateEnabled)).UploadPointers allAbsent quietQueue
          [⟨"one.bin", "a", 100⟩]).state.2.added).drop quietQueue.added.length) :=
  ⟨(C5_missing_flag allAbsent (freshContext false true (noLocks .verifyStateEnabled))).2.1
      ⟨"one.bin", "a", 100⟩ "objects/a" (Error.notExist "objects/a") rfl rfl rfl rfl,
   (C5_missing_flag allAbsent (freshContext false true (noLocks .verifyStateEnabled))).2.2
      quietQueue [⟨"one.bin", "a", 100⟩] rfl rfl⟩

/-- C6: `uploadTransfer` returns an error exactly when resolving the object path
fails or the existence check fails with an error that is not a does-not-exist
error; for an absent file it returns a descriptor, whatever `allowMissing`
is. -/
theorem C6_error_iff (fs : FileSystem) (c : uploadContext) (p : WrappedPointer) :
    ((∃ err, c.uploadTransfer fs p = .error err) ↔
      ((∃ e, c.gitfilter.ObjectPath p.Oid = .error e) ∨
       (∃ path e, c.gitfilter.ObjectPath p.Oid = .ok path ∧ fs.Stat path = some e ∧
          os.IsNotExist e = false))) ∧
    (∀ path e, c.gitfilter.ObjectPath p.Oid = .ok path → fs.Stat path = some e →
      os.IsNotExist e = true → ∃ t, c.uploadTransfer fs p = .ok t) := by
  unfold uploadContext.uploadTransfer
  dsimp only
  cases hp : c.gitfilter.ObjectPath p.Oid with
  | error e0 => simp
  | ok path =>
    cases hs : fs.Stat path with
    | none => simp [hs]
    | some e =>
      cases hn : os.IsNotExist e
      · simp only [hs, hn]
        refine ⟨by simp; exact ⟨e, hs, hn⟩, ?_⟩
        intro path1 e1 h1 h2 h3
        simp only [Except.ok.injEq] at h1
        subst h1
        rw [hs] at h2
        simp only [Option.some.injEq] at h2
        subst h2
        rw [hn] at h3
        exact absurd h3 (by simp)
      · simp [hs, hn]

/-- C6 at a store in which the object file is absent: a descriptor is
returned. -/
theorem C6_error_iff_witness :
    ∃ t, (freshContext false false (noLocks .verifyStateEnabled)).uploadTransfer allAbsent
      ⟨"one.bin", "a", 100⟩ = .ok t :=
  (C6_error_iff allAbsent (freshContext false false (noLocks .verifyStateEnabled))
    ⟨"one.bin", "a", 100⟩).2 "objects/a" (Error.notExist "objects/a") rfl rfl rfl

/-! ## Classification of queue errors -/

theorem lookup_filter_ne (l : List (String × String)) (k x : String) :
    (l.filter (fun e => e.1 != k)).lookup x = if x = k then none else l.lookup x := by
  induction l with
  | nil => simp
  | cons a l ih =>
    obtain ⟨a1, a2⟩ := a
    by_cases ha : a1 = k
    · subst ha
      by_cases hx : x = a1
      · subst hx
        simpa using ih
      · have : (x == a1) = false := by simpa using hx
        simp [List.lookup, this, ih, hx]
    · have hne : (a1 != k) = true := by simpa using ha
      simp only [List.filter, hne]
      by_cases hx : x = a1
      · subst hx
        simp [List.lookup, ha]
      · have : (x == a1) = false := by simpa using hx
        simp only [List.lookup, this]
        exact ih

theorem StringMap.get_set (m : StringMap) (k v x : String) :
    (m.set k v).get x = if x = k then some v else m.get x := by
  unfold StringMap.set StringMap.get
  by_cases hx : x = k
  · subst hx
    simp [List.lookup]
  · have : (x == k) = false := by simpa using hx
    simp [List.lookup, this, lookup_filter_ne, hx]

theorem collectStep_bucket (c : uploadContext) (e : Error) (kind : Bool) (name : String) :
    ((collectStep c e).bucket kind).get name
      = match classifiedOid kind name e with
        | some oid => some oid
        | none => (c.bucket kind).get name := by
  cases e with
  | malformedObject m =>
    have hsymm : (name = m.Name) = (m.Name = name) := propext eq_comm
    cases hm : m.missing <;> cases kind <;> by_cases hn : m.Name = name <;>
      simp [collectStep, classifiedOid, MalformedObjectError.Missing,
        MalformedObjectError.Corrupt, hm, hn, uploadContext.bucket, StringMap.get_set, hsymm]
  | text msg => simp [collectStep, classifiedOid, uploadContext.bucket]
  | notExist path => simp [collectStep, classifiedOid, uploadContext.bucket]
  | wrap inner context => simp [collectStep, classifiedOid, uploadContext.bucket]
  | join first second => simp [collectStep, classifiedOid, uploadContext.bucket]

theorem collectStep_otherErrs (c : uploadContext) (e : Error) :
    (collectStep c e).otherErrs = c.otherErrs ++ (if e.isMalformed then [] else [e]) := by
  cases e with
  | malformedObject m =>
    cases hm : m.missing <;>
      simp [collectStep, MalformedObjectError.Missing, MalformedObjectError.Corrupt, hm,
        Error.isMalformed]
  | text msg => simp [collectStep, Error.isMalformed]
  | notExist path => simp [collectStep, Error.isMalformed]
  | wrap inner context => simp [collectStep, Error.isMalformed]
  | join first second => simp [collectStep, Error.isMalformed]

theorem collectLoop_cons (c : uploadContext) (e : Error) (errs : List Error) :
    collectLoop c (e :: errs) = collectLoop (collectStep c e) errs := rfl

theorem collectLoop_bucket (c : uploadContext) (errs : List Error) (kind : Bool) (name : String) :
    ((collectLoop c errs).bucket kind).get name
      = match lastClassified kind name errs with
        | some oid => some oid
        | none => (c.bucket kind).get name := by
  induction errs generalizing c with
  | nil => simp [collectLoop, lastClassified]
  | cons e errs ih =>
    rw [collectLoop_cons, ih, lastClassified]
    cases hl : lastClassified kind name errs with
    | some oid => rfl
    | none =>
      dsimp only
      rw [collectStep_bucket]

theorem collectLoop_otherErrs (c : uploadContext) (errs : List Error) :
    (collectLoop c errs).otherErrs = c.otherErrs ++ errs.filter (fun e => !e.isMalformed) := by
  induction errs generalizing c with
  | nil => simp [collectLoop]
  | cons e errs ih =>
    rw [collectLoop_cons, ih, collectStep_otherErrs]
    cases he : e.isMalformed <;> simp [he]

theorem lastClassified_isSome (kind : Bool) (errs : List Error) (m : MalformedObjectError)
    (hm : Error.malformedObject m ∈ errs) (hk : m.Missing = kind) :
    (lastClassified kind m.Name errs).isSome = true := by
  induction errs with
  | nil => simp at hm
  | cons e errs ih =>
    rw [lastClassified]
    cases hl : lastClassified kind m.Name errs with
    | some oid => rfl
    | none =>
      rcases List.mem_cons.1 hm with h | h
      · subst h
        simp [classifiedOid, hk]
      · have := ih h
        rw [hl] at this
        simp at this

/-- C7: `CollectErrors` puts every error a drained queue reports in exactly one
bucket. Afterwards `otherErrs` is the previous `otherErrs` followed by the
errors that are not malformed-object errors, in their order; `missing` maps each
path to the oid of the last missing error reported for it (or to what it held
before), and `corrupt` likewise for corrupt errors; every malformed-object error
is missing or corrupt and not both, and its path has an entry in the bucket of
its kind; every other error is in `otherErrs`. -/
theorem C7_collectErrors_classifies (c : uploadContext) (tqueue : TransferQueue) :
    (c.CollectErrors tqueue).otherErrs
      = c.otherErrs ++ tqueue.Errors.filter (fun e => !e.isMalformed) ∧
    (∀ name, (c.CollectErrors tqueue).missing.get name
      = match lastClassified true name tqueue.Errors with
        | some oid => some oid
        | none => c.missing.get name) ∧
    (∀ name, (c.CollectErrors tqueue).corrupt.get name
      = match lastClassified false name tqueue.Errors with
        | some oid => some oid
        | none => c.corrupt.get name) ∧
    (∀ m : MalformedObjectError, m.Missing = !m.Corrupt) ∧
    (∀ m, Error.malformedObject m ∈ tqueue.Errors → m.Missing = true →
      ((c.CollectErrors tqueue).missing.get m.Name).isSome = true) ∧
    (∀ m, Error.malformedObject m ∈ tqueue.Errors → m.Corrupt = true →
      ((c.CollectErrors tqueue).corrupt.get m.Name).isSome = true) ∧
    (∀ e ∈ tqueue.Errors, e.isMalformed = false → e ∈ (c.CollectErrors tqueue).otherErrs) := by
  have hb := collectLoop_bucket c tqueue.Errors
  refine ⟨collectLoop_otherErrs c _, ?_, ?_, ?_, ?_, ?_, ?_⟩
  · intro name
    simpa [uploadContext.bucket] using hb true name
  · intro name
    simpa [uploadContext.bucket] using hb false name
  · intro m
    simp [MalformedObjectError.Corrupt]
  · intro m hm hk
    have h1 := hb true m.Name
    have h2 := lastClassified_isSome true _ m hm hk
    simp only [uploadContext.bucket, if_true] at h1
    unfold uploadContext.CollectErrors
    rw [h1]
    cases hl : lastClassified true m.Name tqueue.Errors with
    | none => rw [hl] at h2; simp at h2
    | some oid => rfl
  · intro m hm hk
    have hk2 : m.Missing = false := by
      simpa [MalformedObjectError.Corrupt] using hk
    have h1 := hb false m.Name
    have h2 := lastClassified_isSome false _ m hm hk2
    simp only [uploadContext.bucket] at h1
    unfold uploadContext.CollectErrors
    simp only [Bool.false_eq_true, if_false] at h1
    rw [h1]
    cases hl : lastClassified false m.Name tqueue.Errors with
    | none => rw [hl] at h2; simp at h2
    | some oid => rfl
  · intro e he hne
    unfold uploadContext.CollectErrors
    rw [collectLoop_otherErrs]
    apply List.mem_append_right
    simp [List.mem_filter, he, hne]

/-- C7 at a queue that reports a missing object, a plain failure and a corrupt
object. -/
theorem C7_collectErrors_classifies_witness :
    (((freshContext false false (noLocks .verifyStateEnabled)).CollectErrors
        (failingQueue [.malformedObject ⟨"one.bin", "a", true⟩, .text "timeout",
          .malformedObject ⟨"two.bin", "b", false⟩])).missing.get "one.bin").isSome = true ∧
    (((freshContext false false (noLocks .verifyStateEnabled)).CollectErrors
        (failingQueue [.malformedObject ⟨"one.bin", "a", true⟩, .text "timeout",
          .malformedObject ⟨"two.bin", "b", false⟩])).otherErrs) = [.text "timeout"] :=
  ⟨(C7_collectErrors_classifies (freshContext false false (noLocks .verifyStateEnabled))
      (failingQueue [.malformedObject ⟨"one.bin", "a", true⟩, .text "timeout",
        .malformedObject ⟨"two.bin", "b", false⟩])).2.2.2.2.1
      ⟨"one.bin", "a", true⟩ (by decide) rfl,
   rfl⟩

/-! ## The exit policy -/

theorem ReportErrors_outcome (c : uploadContext) :
    ((c.otherErrs ≠ [] ∨ ((0 < c.missing.len ∨ 0 < c.corrupt.len) ∧ c.allowMissing = false)) →
      ∃ s, c.ReportErrors = .exit (.osExit 2) s) ∧
    (¬ (c.otherErrs ≠ [] ∨ ((0 < c.missing.len ∨ 0 < c.corrupt.len) ∧ c.allowMissing = false)) →
      (c.lockVerifier.HasUnownedLocks = true ∧ c.lockVerifier.Enabled = true) →
      ∃ s, c.ReportErrors = .exit (.exitMessage "Cannot update locked files.") s) ∧
    (¬ (c.otherErrs ≠ [] ∨ ((0 < c.missing.len ∨ 0 < c.corrupt.len) ∧ c.allowMissing = false)) →
      ¬ (c.lockVerifier.HasUnownedLocks = true ∧ c.lockVerifier.Enabled = true) →
      ∃ s, c.ReportErrors = .done s) := by
  have hlen : (0 < c.otherErrs.length) ↔ c.otherErrs ≠ [] := List.length_pos
  by_cases h4 : c.otherErrs = []
  · by_cases h1 : 0 < c.missing.len <;> by_cases h2 : 0 < c.corrupt.len <;>
      cases h3 : c.allowMissing <;> cases h5 : c.lockVerifier.HasUnownedLocks <;>
      cases h6 : c.lockVerifier.Enabled <;> cases h7 : c.lockVerifier.HasOwnedLocks <;>
      simp [uploadContext.ReportErrors, uploadContext.Print, h1, h2, h3, h4, h5, h6, h7]
  · have h4len : 0 < c.otherErrs.length := hlen.2 h4
    by_cases h1 : 0 < c.missing.len <;> by_cases h2 : 0 < c.corrupt.len <;>
      cases h3 : c.allowMissing <;>
      simp [uploadContext.ReportErrors, uploadContext.Print, h1, h2, h3, h4, h4len]

/-- C8: `ReportErrors` ends the process with status 2, whatever the lock state,
exactly when `otherErrs` is non-empty or `missing` or `corrupt` is non-empty
while `allowMissing` is false. When neither holds it ends the process exactly
when there are unowned locks and lock verification is enabled, through the
fatal exit with the message about locked files. In every remaining state it
returns; in particular it returns with a non-empty `missing`, `allowMissing`
true, empty `otherErrs` and no unowned locks. -/
theorem C8_exit_policy (c : uploadContext) :
    ((∃ s, c.ReportErrors = .exit (.osExit 2) s) ↔
      (c.otherErrs ≠ [] ∨ ((0 < c.missing.len ∨ 0 < c.corrupt.len) ∧ c.allowMissing = false))) ∧
    (¬ (c.otherErrs ≠ [] ∨ ((0 < c.missing.len ∨ 0 < c.corrupt.len) ∧ c.allowMissing = false)) →
      ((c.ReportErrors.exited = true ↔
          (c.lockVerifier.HasUnownedLocks = true ∧ c.lockVerifier.Enabled = true)) ∧
       ((c.lockVerifier.HasUnownedLocks = true ∧ c.lockVerifier.Enabled = true) →
          ∃ s, c.ReportErrors = .exit (.exitMessage "Cannot update locked files.") s) ∧
       (¬ (c.lockVerifier.HasUnownedLocks = true ∧ c.lockVerifier.Enabled = true) →
          ∃ s, c.ReportErrors = .done s))) ∧
    (0 < c.missing.len → c.allowMissing = true → c.otherErrs = [] →
      c.lockVerifier.HasUnownedLocks = false → ∃ s, c.ReportErrors = .done s) := by
  obtain ⟨o1, o2, o3⟩ := ReportErrors_outcome c
  refine ⟨⟨?_, o1⟩, ?_, ?_⟩
  · rintro ⟨s, hs⟩
    by_contra hn
    by_cases hl : c.lockVerifier.HasUnownedLocks = true ∧ c.lockVerifier.Enabled = true
    · obtain ⟨s2, hs2⟩ := o2 hn hl
      rw [hs] at hs2
      simp at hs2
    · obtain ⟨s2, hs2⟩ := o3 hn hl
      rw [hs] at hs2
      simp at hs2
  · intro hn
    refine ⟨⟨?_, ?_⟩, o2 hn, o3 hn⟩
    · intro he
      by_contra hl
      obtain ⟨s2, hs2⟩ := o3 hn hl
      rw [hs2] at he
      simp [Run.exited] at he
    · intro hl
      obtain ⟨s2, hs2⟩ := o2 hn hl
      rw [hs2]
      rfl
  · intro hm ha ho hu
    apply o3
    · rintro (h | h)
      · exact h ho
      · rw [ha] at h
        simp at h
    · rintro ⟨h, _⟩
      rw [hu] at h
      simp at h

/-- C8 at a session that allows missing objects, with one missing object, no
other error and no lock: the report is informational and the function
returns. -/
theorem C8_exit_policy_witness :
    ∃ s, ({ freshContext false true (noLocks .verifyStateEnabled) with
            missing := StringMap.empty.set "one.bin" "a" }).ReportErrors = .done s :=
  (C8_exit_policy { freshContext false true (noLocks .verifyStateEnabled) with
      missing := StringMap.empty.set "one.bin" "a" }).2.2 (by decide) rfl rfl rfl

/-- C9, as stated, fails: after a queue that reports `p` as missing (oid `a`)
and then a queue that reports `p` as corrupt (oid `b`), the corrupt bucket holds
the later classification of `p`, and the missing bucket still holds the earlier
one. -/
theorem C9_last_write_wins_counterexample :
    ((((freshContext false false (noLocks .verifyStateEnabled)).CollectErrors
        (failingQueue [.malformedObject ⟨"p", "a", true⟩])).CollectErrors
        (failingQueue [.malformedObject ⟨"p", "b", false⟩])).corrupt.get "p" = some "b") ∧
    ((((freshContext false false (noLocks .verifyStateEnabled)).CollectErrors
        (failingQueue [.malformedObject ⟨"p", "a", true⟩])).CollectErrors
        (failingQueue [.malformedObject ⟨"p", "b", false⟩])).missing.get "p" = some "a") := by
  constructor <;> rfl

/-- C9, amended: last write wins within one bucket. When the later queue `B`
reports a malformed-object error of some kind for the path `p`, the last such
error having the oid `oid`, then after `CollectErrors` on `A` and then on `B`
the bucket of that kind maps `p` to `oid`, whatever `A` reported; and the bucket
of the other kind keeps for `p` what it held after `A` unless `B` also reports
an error of that other kind for `p`. -/
theorem C9_last_write_wins_per_bucket (c : uploadContext) (A B : TransferQueue) (p : String)
    (kind : Bool) (oid : String) (hB : lastClassified kind p B.Errors = some oid) :
    ((((c.CollectErrors A).CollectErrors B).bucket kind).get p = some oid) ∧
    (lastClassified (!kind) p B.Errors = none →
      (((c.CollectErrors A).CollectErrors B).bucket (!kind)).get p
        = ((c.CollectErrors A).bucket (!kind)).get p) := by
  constructor
  · unfold uploadContext.CollectErrors
    rw [collectLoop_bucket, hB]
  · intro hn
    unfold uploadContext.CollectErrors
    rw [collectLoop_bucket (collectLoop c A.Errors), hn]

/-- C9, amended, at two queues that both report `p` as missing: the later oid
replaces the earlier one. -/
theorem C9_last_write_wins_per_bucket_witness :
    ((((freshContext false false (noLocks .verifyStateEnabled)).CollectErrors
        (failingQueue [.malformedObject ⟨"p", "a", true⟩])).CollectErrors
        (failingQueue [.malformedObject ⟨"p", "b", true⟩])).bucket true).get "p" = some "b" :=
  (C9_last_write_wins_per_bucket (freshContext false false (noLocks .verifyStateEnabled))
    (failingQueue [.malformedObject ⟨"p", "a", true⟩])
    (failingQueue [.malformedObject ⟨"p", "b", true⟩]) "p" true "b" rfl).1

/-! ## The loop over ref updates -/

theorem dryRunLoop_scannerErr (c : uploadContext) (ps : List WrappedPointer) :
    (dryRunLoop c ps).scannerErr = c.scannerErr := by
  induction ps generalizing c with
  | nil => rfl
  | cons p ps ih =>
    rw [dryRunLoop]
    split
    · exact ih c
    · rw [ih]
      rfl

theorem UploadPointers_scannerErr (fs : FileSystem) (c : uploadContext) (q : TransferQueue)
    (ps : List WrappedPointer) :
    (c.UploadPointers fs q ps).state.1.scannerErr = c.scannerErr := by
  cases hdry : c.DryRun with
  | true =>
    unfold uploadContext.UploadPointers
    rw [hdry]
    simp [Run.state, dryRunLoop_scannerErr]
  | false =>
    obtain ⟨pre, post, ts, _, _, _, h4, _⟩ := UploadPointers_spec fs c q ps hdry
    rw [h4, (markAll_frame _ _).2.2.2.2.2.1]
    exact (prepareUpload_sameSession c ps).2.2.2.2.1

theorem deliver_scannerErr (fs : FileSystem) (evs : List ScanEvent) :
    ∀ (c : uploadContext) (q : TransferQueue) (r : uploadContext × TransferQueue),
      deliver fs c q evs = .done r →
      ((∃ err, ScanEvent.scanError err ∈ evs) ∨ c.scannerErr ≠ none) →
      r.1.scannerErr ≠ none := by
  induction evs with
  | nil =>
    intro c q r hd h
    simp only [deliver, Run.done.injEq] at hd
    subst hd
    rcases h with ⟨err, he⟩ | h
    · simp at he
    · exact h
  | cons ev evs ih =>
    intro c q r hd h
    cases ev with
    | pointer p =>
      rw [deliver] at hd
      have hs := UploadPointers_scannerErr fs c q [p]
      cases hu : c.UploadPointers fs q [p] with
      | exit e s => rw [hu] at hd; simp at hd
      | done s =>
        obtain ⟨c1, q1⟩ := s
        rw [hu] at hd hs
        simp only [Run.state] at hs
        apply ih c1 q1 r hd
        rcases h with ⟨err, he⟩ | h
        · left
          refine ⟨err, ?_⟩
          simpa using he
        · right
          rw [hs]
          exact h
    | scanError err =>
      rw [deliver] at hd
      apply ih _ q r hd
      right
      unfold uploadContext.addScannerError errors.Join
      cases c.scannerErr <;> simp
    | potentiallyLocked name =>
      rw [deliver] at hd
      apply ih _ q r hd
      rcases h with ⟨err, he⟩ | h
      · left
        refine ⟨err, ?_⟩
        simpa using he
      · right
        exact h

theorem uploadRangeOrAll_scanError (fs : FileSystem) (g : GitScanner) (ctx : uploadContext)
    (q : TransferQueue) (exclude : List String) (update : RefUpdate) (pushAll : Bool)
    (hscan : ∃ err, ScanEvent.scanError err ∈ (runScan g exclude update pushAll).1)
    (hrun : (uploadRangeOrAll fs g ctx q exclude update pushAll).exited = false) :
    ∃ c1 q1 e, uploadRangeOrAll fs g ctx q exclude update pushAll = .done (c1, q1, some e) := by
  unfold uploadRangeOrAll at hrun ⊢
  dsimp only at hrun ⊢
  cases hd : deliver fs ctx q (runScan g exclude update pushAll).1 with
  | exit e s =>
    rw [hd] at hrun
    simp [Run.exited] at hrun
  | done s =>
    obtain ⟨c1, q1⟩ := s
    have hne := deliver_scannerErr fs _ ctx q (c1, q1) hd (Or.inl hscan)
    dsimp only
    cases hs : (runScan g exclude update pushAll).2 with
    | some e => exact ⟨c1, q1, e, rfl⟩
    | none =>
      dsimp only
      cases he : c1.scannerErr with
      | none => exact absurd he hne
      | some e => exact ⟨c1, q1, e, by simp [uploadContext.scannerError, he]⟩

theorem refUpdateLoop_append (fs : FileSystem) (g : GitScanner)
    (engine : RefUpdate → List Transfer → List Error) (exclude : List String) (pushAll : Bool)
    (pre tail : List RefUpdate) :
    ∀ (ctx : uploadContext) (scanned : List (RefUpdate × TransferQueue))
      (collected : List RefUpdate) (o : UploadOutcome),
      refUpdateLoop fs g engine exclude pushAll ctx scanned collected pre = .done o →
      o.err = none →
      refUpdateLoop fs g engine exclude pushAll ctx scanned collected (pre ++ tail)
          = refUpdateLoop fs g engine exclude pushAll o.ctx o.scanned o.collected tail ∧
      o.scanned.map (fun x => x.1) = scanned.map (fun x => x.1) ++ pre ∧
      o.collected = collected ++ pre := by
  induction pre with
  | nil =>
    intro ctx scanned collected o ho _
    simp only [refUpdateLoop, Run.done.injEq] at ho
    subst ho
    simp
  | cons u pre ih =>
    intro ctx scanned collected o ho herr
    rw [refUpdateLoop] at ho
    rw [List.cons_append, refUpdateLoop]
    dsimp only at ho ⊢
    cases hu : uploadRangeOrAll fs g ctx (ctx.NewQueue (engine u)) exclude u pushAll with
    | exit e s => rw [hu] at ho; simp at ho
    | done s =>
      obtain ⟨c1, q1, err⟩ := s
      rw [hu] at ho
      dsimp only at ho ⊢
      cases err with
      | some e =>
        simp only [Run.done.injEq] at ho
        subst ho
        simp at herr
      | none =>
        dsimp only at ho ⊢
        obtain ⟨h1, h2, h3⟩ := ih _ _ _ o ho herr
        refine ⟨h1, ?_, ?_⟩
        · rw [h2]; simp
        · rw [h3]; simp

theorem refUpdateLoop_stops (fs : FileSystem) (g : GitScanner)
    (engine : RefUpdate → List Transfer → List Error) (exclude : List String) (pushAll : Bool)
    (ctx : uploadContext) (scanned : List (RefUpdate × TransferQueue))
    (collected : List RefUpdate) (u : RefUpdate) (rest : List RefUpdate)
    (c1 : uploadContext) (q1 : TransferQueue) (e : Error)
    (h : uploadRangeOrAll fs g ctx (ctx.NewQueue (engine u)) exclude u pushAll
      = .done (c1, q1, some e)) :
    refUpdateLoop fs g engine exclude pushAll ctx scanned collected (u :: rest)
      = .done { ctx := c1.CollectErrors q1, scanned := scanned ++ [(u, q1)],
                collected := collected ++ [u],
                err := some (errors.Wrap e ("ref \"" ++ u.LocalRef.Name ++ "\":")) } := by
  rw [refUpdateLoop]
  dsimp only
  rw [h]

theorem uploadForRefUpdates_log (fs : FileSystem) (g : GitScanner)
    (engine : RefUpdate → List Transfer → List Error)
    (verifyLocks : lockVerifier → List RefUpdate → Run lockVerifier)
    (ctx : uploadContext) (updates : List RefUpdate) (pushAll : Bool) (lv : lockVerifier)
    (o : UploadOutcome)
    (hv : verifyLocks ctx.lockVerifier updates = .done lv)
    (hloop : refUpdateLoop fs g engine (excludeFor updates) pushAll
      { ctx with lockVerifier := lv } [] [] updates = .done o) :
    (uploadForRefUpdates fs g engine verifyLocks ctx updates pushAll).state.scanned = o.scanned ∧
    (uploadForRefUpdates fs g engine verifyLocks ctx updates pushAll).state.collected
      = o.collected ∧
    (uploadForRefUpdates fs g engine verifyLocks ctx updates pushAll).state.err = o.err := by
  unfold uploadForRefUpdates
  rw [hv]
  dsimp only
  rw [hloop]
  dsimp only
  cases o.ctx.ReportErrors <;> simp [Run.state]

/-- C10, as stated, fails: in the batch `[main, topic]` the scan of `main`
reports a per-object scan error; `uploadForRefUpdates` returns after `main`, and
`topic`, which comes after it, is neither scanned nor drained. -/
theorem C10_scan_error_counterexample :
    (∃ err, ScanEvent.scanError err
      ∈ (runScan brokenAtFirst (excludeFor [updateMain, updateTopic]) updateMain false).1) ∧
    (uploadForRefUpdates allPresent brokenAtFirst (fun _ _ => []) verifyNothing
        (freshContext false false (noLocks .verifyStateEnabled))
        [updateMain, updateTopic] false).exited = false ∧
    updateTopic ∉ ((uploadForRefUpdates allPresent brokenAtFirst (fun _ _ => []) verifyNothing
        (freshContext false false (noLocks .verifyStateEnabled))
        [updateMain, updateTopic] false).state.scanned.map (fun x => x.1)) ∧
    updateTopic ∉ (uploadForRefUpdates allPresent brokenAtFirst (fun _ _ => []) verifyNothing
        (freshContext false false (noLocks .verifyStateEnabled))
        [updateMain, updateTopic] false).state.collected := by
  refine ⟨⟨Error.text "bad pointer", by decide⟩, rfl, ?_, ?_⟩
  · have h : (uploadForRefUpdates allPresent brokenAtFirst (fun _ _ => []) verifyNothing
        (freshContext false false (noLocks .verifyStateEnabled))
        [updateMain, updateTopic] false).state.scanned.map (fun x => x.1) = [updateMain] := rfl
    rw [h]
    decide
  · have h : (uploadForRefUpdates allPresent brokenAtFirst (fun _ _ => []) verifyNothing
        (freshContext false false (noLocks .verifyStateEnabled))
        [updateMain, updateTopic] false).state.collected = [updateMain] := rfl
    rw [h]
    decide

/-! ## The locked-by-us check -/

theorem LockedByUs_ownedLocks (lv : lockVerifier) (name : String) :
    (lv.LockedByUs name).2.ownedLocks = lv.ownedLocks ++ (findLock lv.ourLocks name).toList := by
  unfold lockVerifier.LockedByUs
  cases findLock lv.ourLocks name <;> simp

theorem LockedByThem_ownedLocks (lv : lockVerifier) (name : String) :
    (lv.LockedByThem name).2.ownedLocks = lv.ownedLocks := by
  unfold lockVerifier.LockedByThem
  cases findLock lv.theirLocks name <;> rfl

theorem prepareStep_ownedLocks (st : prepareState) (p : WrappedPointer)
    (h : ¬ (st.uniqOids.Contains p.Oid || st.c.HasUploaded p.Oid || p.Size == 0) = true) :
    (prepareStep st p).c.lockVerifier.ownedLocks
        = st.c.lockVerifier.ownedLocks ++ (findLock st.c.lockVerifier.ourLocks p.Name).toList ∧
    (prepareStep st p).uniqOids = st.uniqOids.Add p.Oid := by
  have hown : ((st.c.lockVerifier.LockedByThem p.Name).2.LockedByUs p.Name).2.ownedLocks
      = st.c.lockVerifier.ownedLocks ++ (findLock st.c.lockVerifier.ourLocks p.Name).toList := by
    rw [LockedByUs_ownedLocks, LockedByThem_ownedLocks, (LockedByThem_sameLocks _ _).2.2]
  rw [prepareStep_go st p h]
  cases admits st.c.lockVerifier p.Name
  · exact ⟨hown, rfl⟩
  · exact ⟨hown, rfl⟩

theorem prepareLoop_ownedLocks (st : prepareState) (ps : List WrappedPointer) :
    (prepareLoop st ps).c.lockVerifier.ownedLocks
      = st.c.lockVerifier.ownedLocks
        ++ (examined st.c.uploadedOids st.uniqOids ps).filterMap
            (fun p => findLock st.c.lockVerifier.ourLocks p.Name) := by
  induction ps generalizing st with
  | nil => simp [prepareLoop, examined]
  | cons p ps ih =>
    rw [prepareLoop, ih]
    have hs := prepareStep_sameSession st p
    rw [hs.2.1, hs.2.2.2.2.2.2.2.2.2.2.2.2]
    by_cases h : (st.uniqOids.Contains p.Oid || st.c.HasUploaded p.Oid || p.Size == 0) = true
    · rw [prepareStep_skip st p h]
      have h2 : (st.uniqOids.Contains p.Oid || st.c.uploadedOids.Contains p.Oid || p.Size == 0)
          = true := h
      simp only [examined, h2, if_true]
    · have h2 : ¬ (st.uniqOids.Contains p.Oid || st.c.uploadedOids.Contains p.Oid || p.Size == 0)
          = true := h
      obtain ⟨h3, h4⟩ := prepareStep_ownedLocks st p h
      rw [h3, h4]
      simp only [examined, h2, if_false]
      cases hf : findLock st.c.lockVerifier.ourLocks p.Name <;> simp [List.filterMap_cons, hf]

theorem mem_examined (uploaded : StringSet) (seen : StringSet) (ps : List WrappedPointer)
    (x : WrappedPointer) (hx : x ∈ examined uploaded seen ps) :
    x ∈ ps ∧ x.Oid ∉ seen.elems ∧ x.Oid ∉ uploaded.elems ∧ x.Size ≠ 0 := by
  induction ps generalizing seen with
  | nil => simp [examined] at hx
  | cons p ps ih =>
    by_cases h : (seen.Contains p.Oid || uploaded.Contains p.Oid || p.Size == 0) = true
    · simp only [examined, h, if_true] at hx
      have := ih seen hx
      exact ⟨List.mem_cons_of_mem _ this.1, this.2⟩
    · have hn := (skip_false_iff uploaded seen p).1 h
      simp only [examined, h, if_false] at hx
      rcases List.mem_cons.1 hx with rfl | hx
      · exact ⟨List.mem_cons_self _ _, hn⟩
      · have := ih _ hx
        refine ⟨List.mem_cons_of_mem _ this.1, ?_, this.2.2⟩
        intro hm
        exact this.2.1 ((StringSet.mem_add _ _ _).2 (Or.inr hm))

theorem examined_first (uploaded : StringSet) (seen : StringSet)
    (pre post : List WrappedPointer) (r : WrappedPointer)
    (hseen : r.Oid ∉ seen.elems) (hup : r.Oid ∉ uploaded.elems) (hsize : r.Size ≠ 0)
    (hfirst : ∀ x ∈ pre, x.Oid = r.Oid → x.Size = 0) :
    r ∈ examined uploaded seen (pre ++ r :: post) := by
  induction pre generalizing seen with
  | nil =>
    have h : ¬ (seen.Contains r.Oid || uploaded.Contains r.Oid || r.Size == 0) = true :=
      (skip_false_iff uploaded seen r).2 ⟨hseen, hup, hsize⟩
    simp only [List.nil_append, examined, h, if_false]
    exact List.mem_cons_self _ _
  | cons p pre ih =>
    have hrest : ∀ x ∈ pre, x.Oid = r.Oid → x.Size = 0 :=
      fun x hx => hfirst x (List.mem_cons_of_mem _ hx)
    rw [List.cons_append]
    by_cases h : (seen.Contains p.Oid || uploaded.Contains p.Oid || p.Size == 0) = true
    · simp only [examined, h, if_true]
      exact ih seen hseen hrest
    · have hn := (skip_false_iff uploaded seen p).1 h
      have hp : p.Oid ≠ r.Oid := fun he => hn.2.2 (hfirst p (List.mem_cons_self _ _) he)
      have hseen2 : r.Oid ∉ (seen.Add p.Oid).elems := by
        intro hm
        rcases (StringSet.mem_add _ _ _).1 hm with he | hm
        · exact hp he.symm
        · exact hseen hm
      simp only [examined, h, if_false]
      exact List.mem_cons_of_mem _ (ih _ hseen2 hrest)

theorem prepareUpload_ownedLocks (c : uploadContext) (batch : List WrappedPointer) :
    (c.prepareUpload batch).1.lockVerifier.ownedLocks
      = c.lockVerifier.ownedLocks
        ++ (examined c.uploadedOids NewStringSet batch).filterMap
            (fun p => findLock c.lockVerifier.ourLocks p.Name) := by
  unfold uploadContext.prepareUpload
  exact prepareLoop_ownedLocks _ batch

/-- C11, as stated, fails: `mine.bin` is locked by the current committer, so a
call of `LockedByUs` with it records the lock among the owned locks; yet after
`prepareUpload` on a batch in which the record of `mine.bin` has size zero, and
on a batch in which it repeats the oid of an earlier record, no owned lock is
recorded. -/
theorem C11_locked_by_us_counterexample :
    findLock (lockedByMeAndBob .verifyStateEnabled).ourLocks "mine.bin"
      = some ⟨"mine.bin", "me"⟩ ∧
    ((lockedByMeAndBob .verifyStateEnabled).LockedByUs "mine.bin").2.ownedLocks
      = [⟨"mine.bin", "me"⟩] ∧
    ((freshContext false false (lockedByMeAndBob .verifyStateEnabled)).prepareUpload
        [⟨"mine.bin", "a", 0⟩]).1.lockVerifier.ownedLocks = [] ∧
    ((freshContext false false (lockedByMeAndBob .verifyStateEnabled)).prepareUpload
        [⟨"other.bin", "a", 5⟩, ⟨"mine.bin", "a", 5⟩]).1.lockVerifier.ownedLocks = [] := by
  refine ⟨rfl, rfl, rfl, rfl⟩

/-- C11, amended: `LockedByUs` is called for exactly the records that pass the
first test of the loop (oid not seen earlier in the batch, not uploaded, size
not zero), whether or not they are then blocked as locked by others: the owned
locks after `prepareUpload` are those before it followed by the locks of the
current committer on the paths of these records, in order. So the lock on the
path of the first non-zero-size record of an oid that is not uploaded is
recorded, and a batch in which every record has size zero or an uploaded oid
records nothing. -/
theorem C11_locked_by_us_for_examined (c : uploadContext) (batch : List WrappedPointer) :
    ((c.prepareUpload batch).1.lockVerifier.ownedLocks
      = c.lockVerifier.ownedLocks
        ++ (examined c.uploadedOids NewStringSet batch).filterMap
            (fun p => findLock c.lockVerifier.ourLocks p.Name)) ∧
    (∀ x ∈ examined c.uploadedOids NewStringSet batch,
      x ∈ batch ∧ c.HasUploaded x.Oid = false ∧ x.Size ≠ 0) ∧
    (∀ pre r post lock, batch = pre ++ r :: post → r.Size ≠ 0 → c.HasUploaded r.Oid = false →
      (∀ x ∈ pre, x.Oid = r.Oid → x.Size = 0) →
      findLock c.lockVerifier.ourLocks r.Name = some lock →
      lock ∈ (c.prepareUpload batch).1.lockVerifier.ownedLocks) ∧
    ((∀ x ∈ batch, x.Size = 0 ∨ c.HasUploaded x.Oid = true) →
      (c.prepareUpload batch).1.lockVerifier.ownedLocks = c.lockVerifier.ownedLocks) := by
  have hown := prepareUpload_ownedLocks c batch
  refine ⟨hown, ?_, ?_, ?_⟩
  · intro x hx
    have := mem_examined _ _ _ _ hx
    exact ⟨this.1, (StringSet.contains_false_iff _ _).2 this.2.2.1, this.2.2.2⟩
  · intro pre r post lock hb hsize hup hfirst hlock
    rw [hown]
    apply List.mem_append_right
    rw [List.mem_filterMap]
    refine ⟨r, ?_, hlock⟩
    rw [hb]
    exact examined_first _ _ pre post r (by simp [NewStringSet])
      ((StringSet.contains_false_iff _ _).1 hup) hsize hfirst
  · intro hall
    rw [hown]
    have hnil : examined c.uploadedOids NewStringSet batch = [] := by
      apply List.eq_nil_iff_forall_not_mem.2
      intro x hx
      have := mem_examined _ _ _ _ hx
      rcases hall x this.1 with h | h
      · exact this.2.2.2 h
      · exact this.2.2.1 ((StringSet.contains_iff _ _).1 h)
    rw [hnil]
    simp

/-- C11, amended, at a batch whose record of `mine.bin` passes the first test:
the lock of the current committer on it is recorded, also when the record of
`locked.bin` before it is blocked. -/
theorem C11_locked_by_us_for_examined_witness :
    (⟨"mine.bin", "me"⟩ : refLock)
      ∈ ((freshContext false false (lockedByMeAndBob .verifyStateEnabled)).prepareUpload
          ([⟨"locked.bin", "a", 5⟩] ++ ⟨"mine.bin", "b", 7⟩ :: [])).1.lockVerifier.ownedLocks :=
  (C11_locked_by_us_for_examined (freshContext false false (lockedByMeAndBob .verifyStateEnabled))
    ([⟨"locked.bin", "a", 5⟩] ++ ⟨"mine.bin", "b", 7⟩ :: [])).2.2.1
    [⟨"locked.bin", "a", 5⟩] ⟨"mine.bin", "b", 7⟩ [] ⟨"mine.bin", "me"⟩ rfl (by decide) rfl
    (by decide) rfl

/-! ## The lock report of `ReportErrors` -/

theorem ownedReminder_not_in_bucketLines (kind : String) (m : StringMap) :
    ownedReminder ∉ bucketLines kind m := by
  intro hm
  unfold bucketLines at hm
  obtain ⟨e, _, he⟩ := List.mem_map.1 hm
  have h2 := congrArg String.data he
  simp only [String.data_append, List.append_assoc] at h2
  have h3 := congrArg List.head? h2
  simp [ownedReminder] at h3

theorem ownedReminder_not_in_unownedLines (lv : lockVerifier) :
    ownedReminder ∉ unownedLines lv := by
  intro hm
  unfold unownedLines at hm
  rcases List.mem_append.1 hm with h | h
  · revert h
    decide
  · obtain ⟨l, _, he⟩ := List.mem_map.1 h
    have h2 := congrArg String.data he
    simp only [String.data_append, List.append_assoc] at h2
    have h3 := congrArg List.head? h2
    simp [ownedReminder] at h3

theorem ownedReminder_not_in_reportLines (c : uploadContext) (h : c.otherErrs = []) :
    ownedReminder ∉ reportLines c := by
  unfold reportLines
  rw [h]
  simp only [List.map_nil, List.nil_append]
  split
  · intro hm
    rcases List.mem_append.1 hm with h1 | h1
    · rcases List.mem_append.1 h1 with h2 | h2
      · revert h2
        generalize c.allowMissing = b
        cases b <;> decide
      · exact ownedReminder_not_in_bucketLines _ _ h2
    · exact ownedReminder_not_in_bucketLines _ _ h1
  · simp

theorem ReportErrors_locks (c : uploadContext)
    (hn : ¬ (c.otherErrs ≠ [] ∨
      ((0 < c.missing.len ∨ 0 < c.corrupt.len) ∧ c.allowMissing = false))) :
    (c.lockVerifier.HasUnownedLocks = false → c.lockVerifier.HasOwnedLocks = true →
      ∃ s, c.ReportErrors = .done s ∧
        s.printed = c.printed ++ reportLines c ++ [ownedReminder]
          ++ c.lockVerifier.ownedLocks.map (fun l => "* " ++ l.path)) ∧
    (c.lockVerifier.HasUnownedLocks = false → c.lockVerifier.HasOwnedLocks = false →
      ∃ s, c.ReportErrors = .done s ∧ s.printed = c.printed ++ reportLines c) ∧
    (c.lockVerifier.HasUnownedLocks = true →
      c.ReportErrors.state.printed = c.printed ++ reportLines c ++ unownedLines c.lockVerifier
        ++ (if c.lockVerifier.Enabled then []
            else ["warning: The above files would have halted this push."])) := by
  have h4 : c.otherErrs = [] := by
    by_contra h
    exact hn (Or.inl h)
  refine ⟨?_, ?_, ?_⟩
  · intro h5 h7
    by_cases h1 : 0 < c.missing.len <;> by_cases h2 : 0 < c.corrupt.len <;>
      cases h3 : c.allowMissing <;>
      simp [uploadContext.ReportErrors, reportLines, ownedReminder, h1, h2, h3, h4, h5, h7]
        at hn ⊢
  · intro h5 h7
    by_cases h1 : 0 < c.missing.len <;> by_cases h2 : 0 < c.corrupt.len <;>
      cases h3 : c.allowMissing <;>
      simp [uploadContext.ReportErrors, reportLines, h1, h2, h3, h4, h5, h7] at hn ⊢
  · intro h5
    by_cases h1 : 0 < c.missing.len <;> by_cases h2 : 0 < c.corrupt.len <;>
      cases h3 : c.allowMissing <;> cases h6 : c.lockVerifier.Enabled <;>
      simp [uploadContext.ReportErrors, uploadContext.Print, reportLines, unownedLines, Run.state,
        h1, h2, h3, h4, h5, h6] at hn ⊢

/-- C12, as stated, fails: in a session without errors whose lock verifier, not
in the enabled mode, has seen both a path locked by someone else and a path
locked by the current committer, `ReportErrors` returns without ending the
process and the reminder about own locks is not among the printed lines. -/
theorem C12_owned_reminder_counterexample :
    (freshContext false false (bothKindsSeen .verifyStateUnknown)).ReportErrors.exited = false ∧
    (freshContext false false (bothKindsSeen .verifyStateUnknown)).lockVerifier.HasOwnedLocks
      = true ∧
    ownedReminder
      ∉ (freshContext false false (bothKindsSeen .verifyStateUnknown)).ReportErrors.state.printed := by
  refine ⟨rfl, rfl, ?_⟩
  have h : (freshContext false false (bothKindsSeen .verifyStateUnknown)).ReportErrors.state.printed
      = ["Unable to push locked files:", "* locked.bin - bob",
         "warning: The above files would have halted this push."] := rfl
  rw [h]
  decide

/-- C12, amended: the reminder about own locks is printed only when there are no
unowned locks. In every state in which `ReportErrors` reaches the lock
evaluation and the lock verifier has owned locks: without unowned locks the
function returns, having printed the reminder followed by the owned paths; with
unowned locks the lines it prints do not hold the reminder. Printing the
reminder never ends the process. -/
theorem C12_owned_reminder_without_unowned (c : uploadContext)
    (hn : ¬ (c.otherErrs ≠ [] ∨
      ((0 < c.missing.len ∨ 0 < c.corrupt.len) ∧ c.allowMissing = false)))
    (howned : c.lockVerifier.HasOwnedLocks = true) :
    (c.lockVerifier.HasUnownedLocks = false →
      ∃ s, c.ReportErrors = .done s ∧
        s.printed = c.printed ++ reportLines c ++ [ownedReminder]
          ++ c.lockVerifier.ownedLocks.map (fun l => "* " ++ l.path)) ∧
    (c.lockVerifier.HasUnownedLocks = true →
      ∃ lines, c.ReportErrors.state.printed = c.printed ++ lines ∧ ownedReminder ∉ lines) := by
  obtain ⟨l1, _, l3⟩ := ReportErrors_locks c hn
  have h4 : c.otherErrs = [] := by
    by_contra h
    exact hn (Or.inl h)
  refine ⟨fun hu => l1 hu howned, ?_⟩
  intro hu
  refine ⟨reportLines c ++ unownedLines c.lockVerifier
    ++ (if c.lockVerifier.Enabled then []
        else ["warning: The above files would have halted this push."]), ?_, ?_⟩
  · rw [l3 hu]
    simp only [List.append_assoc]
  · intro hm
    rcases List.mem_append.1 hm with h | h
    · rcases List.mem_append.1 h with h | h
      · exact ownedReminder_not_in_reportLines c h4 h
      · exact ownedReminder_not_in_unownedLines _ h
    · revert h
      generalize c.lockVerifier.Enabled = b
      cases b <;> decide

/-- C12, amended, at a session whose lock verifier has seen only a path locked
by the current committer: the reminder and the path are printed and the function
returns. -/
theorem C12_owned_reminder_without_unowned_witness :
    ∃ s, (freshContext false false (onlyOwnedSeen .verifyStateEnabled)).ReportErrors = .done s ∧
      s.printed = (freshContext false false (onlyOwnedSeen .verifyStateEnabled)).printed
        ++ reportLines (freshContext false false (onlyOwnedSeen .verifyStateEnabled))
        ++ [ownedReminder]
        ++ (freshContext false false (onlyOwnedSeen .verifyStateEnabled)).lockVerifier.ownedLocks.map
            (fun l => "* " ++ l.path) :=
  (C12_owned_reminder_without_unowned (freshContext false false (onlyOwnedSeen .verifyStateEnabled))
    (by decide) rfl).1 rfl

/-! ## Which record of an oid the filter keeps -/

theorem firstNonEmpty_cons (oid : String) (p : WrappedPointer) (ps : List WrappedPointer) :
    firstNonEmpty oid (p :: ps)
      = if p.Oid = oid ∧ p.Size ≠ 0 then some p else firstNonEmpty oid ps := by
  unfold firstNonEmpty
  rw [List.find?_cons]
  by_cases h : p.Oid = oid ∧ p.Size ≠ 0
  · have : (p.Oid == oid && p.Size != 0) = true := by simpa using h
    rw [this, if_pos h]
  · have : (p.Oid == oid && p.Size != 0) = false := by
      cases hb : (p.Oid == oid && p.Size != 0)
      · rfl
      · exact absurd (by simpa using hb) h
    rw [this, if_neg h]

theorem kept_oid_iff (lv : lockVerifier) (uploaded : StringSet) (seen : StringSet)
    (ps : List WrappedPointer) (oid : String) (x : WrappedPointer)
    (hseen : oid ∉ seen.elems) (hup : oid ∉ uploaded.elems) :
    (x ∈ kept lv uploaded seen ps ∧ x.Oid = oid)
      ↔ (firstNonEmpty oid ps = some x ∧ admits lv x.Name = true) := by
  induction ps generalizing seen with
  | nil => simp [kept, firstNonEmpty]
  | cons p ps ih =>
    rw [firstNonEmpty_cons]
    by_cases h : (seen.Contains p.Oid || uploaded.Contains p.Oid || p.Size == 0) = true
    · rw [kept_cons_skip _ _ _ _ _ h]
      have hno : ¬ (p.Oid = oid ∧ p.Size ≠ 0) := by
        rintro ⟨he, hs⟩
        apply (skip_false_iff uploaded seen p).2 ⟨he ▸ hseen, he ▸ hup, hs⟩
        exact h
      rw [if_neg hno]
      exact ih seen hseen
    · have hn := (skip_false_iff uploaded seen p).1 h
      by_cases he : p.Oid = oid
      · have hyes : p.Oid = oid ∧ p.Size ≠ 0 := ⟨he, hn.2.2⟩
        rw [if_pos hyes]
        have hnot : ∀ y ∈ kept lv uploaded (seen.Add p.Oid) ps, y.Oid ≠ oid := by
          intro y hy
          rw [← he]
          exact kept_oid_not_seen _ _ _ _ _ _ hy
        cases ha : admits lv p.Name
        · rw [kept_cons_block _ _ _ _ _ h ha]
          constructor
          · rintro ⟨hx, hxo⟩
            exact absurd hxo (hnot x hx)
          · rintro ⟨hx, hax⟩
            simp only [Option.some.injEq] at hx
            subst hx
            rw [ha] at hax
            exact absurd hax (by simp)
        · rw [kept_cons_pass _ _ _ _ _ h ha]
          constructor
          · rintro ⟨hx, hxo⟩
            rcases List.mem_cons.1 hx with rfl | hx
            · exact ⟨rfl, ha⟩
            · exact absurd hxo (hnot x hx)
          · rintro ⟨hx, _⟩
            simp only [Option.some.injEq] at hx
            subst hx
            exact ⟨List.mem_cons_self _ _, he⟩
      · have hno : ¬ (p.Oid = oid ∧ p.Size ≠ 0) := fun hh => he hh.1
        rw [if_neg hno]
        have hseen2 : oid ∉ (seen.Add p.Oid).elems := by
          intro hm
          rcases (StringSet.mem_add _ _ _).1 hm with h1 | h1
          · exact he h1.symm
          · exact hseen h1
        have hih := ih (seen.Add p.Oid) hseen2
        cases ha : admits lv p.Name
        · rw [kept_cons_block _ _ _ _ _ h ha]
          exact hih
        · rw [kept_cons_pass _ _ _ _ _ h ha, ← hih]
          constructor
          · rintro ⟨hx, hxo⟩
            rcases List.mem_cons.1 hx with rfl | hx
            · exact absurd hxo he
            · exact ⟨hx, hxo⟩
          · rintro ⟨hx, hxo⟩
            exact ⟨List.mem_cons_of_mem _ hx, hxo⟩

theorem prepareUpload_oid_iff (c : uploadContext) (batch : List WrappedPointer) (oid : String)
    (x : WrappedPointer) (hup : c.HasUploaded oid = false) :
    (x ∈ (c.prepareUpload batch).2 ∧ x.Oid = oid)
      ↔ (firstNonEmpty oid batch = some x ∧ admits c.lockVerifier x.Name = true) := by
  rw [prepareUpload_eq]
  exact kept_oid_iff _ _ _ _ _ _ (by simp [NewStringSet]) ((StringSet.contains_false_iff _ _).1 hup)

theorem firstNonEmpty_exists (batch : List WrappedPointer) (r : WrappedPointer) (hr : r ∈ batch)
    (hsize : r.Size ≠ 0) :
    ∃ f, firstNonEmpty r.Oid batch = some f := by
  have h : (firstNonEmpty r.Oid batch).isSome = true := by
    unfold firstNonEmpty
    rw [List.find?_isSome]
    exact ⟨r, hr, by simpa using hsize⟩
  exact Option.isSome_iff_exists.1 h

theorem firstNonEmpty_some (oid : String) (batch : List WrappedPointer) (f : WrappedPointer)
    (h : firstNonEmpty oid batch = some f) : f ∈ batch ∧ f.Oid = oid ∧ f.Size ≠ 0 := by
  unfold firstNonEmpty at h
  have h1 := List.mem_of_find?_eq_some h
  have h2 := List.find?_some h
  simp only [Bool.and_eq_true, beq_iff_eq, bne_iff_ne, ne_eq] at h2
  exact ⟨h1, h2.1, h2.2⟩

theorem admits_iff (lv : lockVerifier) (name : String) :
    admits lv name = true ↔ ¬ ((lv.LockedByThem name).1 = true ∧ lv.Enabled = true) := by
  unfold admits
  cases (lv.LockedByThem name).1 <;> cases lv.Enabled <;> simp

/-- C13, as stated, fails: with verification enabled and `locked.bin` locked by
someone else, in the batch `[locked.bin (oid a), free.bin (oid a)]` the record
of `free.bin` has a size that is not zero, an oid that is not uploaded and a
path that is not locked, yet the slice returned by `prepareUpload` holds no
record with its oid. -/
theorem C13_composed_filter_counterexample :
    (⟨"free.bin", "a", 5⟩ : WrappedPointer)
      ∈ [(⟨"locked.bin", "a", 5⟩ : WrappedPointer), ⟨"free.bin", "a", 5⟩] ∧
    (⟨"free.bin", "a", 5⟩ : WrappedPointer).Size ≠ 0 ∧
    (freshContext false false (lockedByBob .verifyStateEnabled)).HasUploaded "a" = false ∧
    ((freshContext false false (lockedByBob .verifyStateEnabled)).lockVerifier.LockedByThem
      "free.bin").1 = false ∧
    ¬ ∃ x ∈ ((freshContext false false (lockedByBob .verifyStateEnabled)).prepareUpload
        [⟨"locked.bin", "a", 5⟩, ⟨"free.bin", "a", 5⟩]).2, x.Oid = "a" := by
  refine ⟨by decide, by decide, rfl, rfl, ?_⟩
  have h : ((freshContext false false (lockedByBob .verifyStateEnabled)).prepareUpload
      [⟨"locked.bin", "a", 5⟩, ⟨"free.bin", "a", 5⟩]).2 = [] := rfl
  rw [h]
  simp

/-- C13, amended: the lock gate is applied to the first record of each oid only.
For every batch and every record `r` in it with a size that is not zero and an
oid that is not uploaded, let `f` be the first record of the batch with that oid
and a size that is not zero; the slice returned by `prepareUpload` holds a
record with the oid of `r` exactly when the path of `f` is not blocked (not
locked by others, or verification not enabled), and that record is `f`. -/
theorem C13_composed_filter_first_record (c : uploadContext) (batch : List WrappedPointer)
    (r : WrappedPointer) (hr : r ∈ batch) (hsize : r.Size ≠ 0)
    (hup : c.HasUploaded r.Oid = false) :
    ∃ f, firstNonEmpty r.Oid batch = some f ∧ f ∈ batch ∧ f.Oid = r.Oid ∧ f.Size ≠ 0 ∧
      ((∃ x ∈ (c.prepareUpload batch).2, x.Oid = r.Oid) ↔
        ¬ ((c.lockVerifier.LockedByThem f.Name).1 = true ∧ c.lockVerifier.Enabled = true)) ∧
      (¬ ((c.lockVerifier.LockedByThem f.Name).1 = true ∧ c.lockVerifier.Enabled = true) →
        f ∈ (c.prepareUpload batch).2) ∧
      (∀ x ∈ (c.prepareUpload batch).2, x.Oid = r.Oid → x = f) := by
  obtain ⟨f, hf⟩ := firstNonEmpty_exists batch r hr hsize
  obtain ⟨hf1, hf2, hf3⟩ := firstNonEmpty_some _ _ _ hf
  have key := fun x => prepareUpload_oid_iff c batch r.Oid x hup
  refine ⟨f, hf, hf1, hf2, hf3, ⟨?_, ?_⟩, ?_, ?_⟩
  · rintro ⟨x, hx, hxo⟩
    obtain ⟨h1, h2⟩ := (key x).1 ⟨hx, hxo⟩
    rw [hf] at h1
    simp only [Option.some.injEq] at h1
    subst h1
    exact (admits_iff _ _).1 h2
  · intro hfree
    exact ⟨f, ((key f).2 ⟨hf, (admits_iff _ _).2 hfree⟩).1, hf2⟩
  · intro hfree
    exact ((key f).2 ⟨hf, (admits_iff _ _).2 hfree⟩).1
  · intro x hx hxo
    obtain ⟨h1, _⟩ := (key x).1 ⟨hx, hxo⟩
    rw [hf] at h1
    simp only [Option.some.injEq] at h1
    exact h1.symm

/-- C13, amended, at a batch in which the first record of oid `a` has a free
path: the slice holds a record with that oid. -/
theorem C13_composed_filter_first_record_witness :
    ∃ f, firstNonEmpty "a" [(⟨"free.bin", "a", 5⟩ : WrappedPointer), ⟨"locked.bin", "a", 5⟩]
        = some f ∧
      f ∈ ((freshContext false false (lockedByBob .verifyStateEnabled)).prepareUpload
        [⟨"free.bin", "a", 5⟩, ⟨"locked.bin", "a", 5⟩]).2 := by
  obtain ⟨f, h1, _, _, _, _, h6, _⟩ :=
    C13_composed_filter_first_record (freshContext false false (lockedByBob .verifyStateEnabled))
      [⟨"free.bin", "a", 5⟩, ⟨"locked.bin", "a", 5⟩] ⟨"locked.bin", "a", 5⟩
      (by decide) (by decide) rfl
  refine ⟨f, h1, h6 ?_⟩
  have hf : f = ⟨"free.bin", "a", 5⟩ := by
    have h2 : firstNonEmpty "a" [(⟨"free.bin", "a", 5⟩ : WrappedPointer), ⟨"locked.bin", "a", 5⟩]
        = some ⟨"free.bin", "a", 5⟩ := rfl
    rw [h2] at h1
    simp only [Option.some.injEq] at h1
    exact h1.symm
  subst hf
  decide

/-! ## `UploadPointers` in dry-run mode -/

theorem dryRunLoop_cons (c : uploadContext) (p : WrappedPointer) (ps : List WrappedPointer) :
    dryRunLoop c (p :: ps)
      = if c.HasUploaded p.Oid then dryRunLoop c ps
        else dryRunLoop ((c.Print (pushLine p)).SetUploaded p.Oid) ps := by
  rw [dryRunLoop]
  rfl

theorem dryRunLoop_spec (c : uploadContext) (ps : List WrappedPointer) :
    (dryRunLoop c ps).printed = c.printed ++ (announced c.uploadedOids ps).map pushLine ∧
    (∀ x, x ∈ (dryRunLoop c ps).uploadedOids.elems
      ↔ x ∈ c.uploadedOids.elems ∨ x ∈ ps.map (fun p => p.Oid)) ∧
    (dryRunLoop c ps).DryRun = c.DryRun := by
  induction ps generalizing c with
  | nil => simp [dryRunLoop, announced]
  | cons p ps ih =>
    rw [dryRunLoop_cons]
    cases h : c.HasUploaded p.Oid with
    | true =>
      have h2 : c.uploadedOids.Contains p.Oid = true := h
      have hm : p.Oid ∈ c.uploadedOids.elems := (StringSet.contains_iff _ _).1 h2
      obtain ⟨i1, i2, i3⟩ := ih c
      simp only [if_true, announced, h2]
      refine ⟨i1, ?_, i3⟩
      intro x
      rw [i2, List.map_cons, List.mem_cons]
      constructor
      · rintro (hx | hx)
        · exact Or.inl hx
        · exact Or.inr (Or.inr hx)
      · rintro (hx | hx | hx)
        · exact Or.inl hx
        · exact Or.inl (hx ▸ hm)
        · exact Or.inr hx
    | false =>
      have h2 : c.uploadedOids.Contains p.Oid = false := h
      obtain ⟨i1, i2, i3⟩ := ih ((c.Print (pushLine p)).SetUploaded p.Oid)
      simp only [Bool.false_eq_true, if_false, announced, h2]
      refine ⟨?_, ?_, ?_⟩
      · rw [i1]
        simp [uploadContext.SetUploaded, uploadContext.Print]
      · intro x
        rw [i2]
        simp only [uploadContext.SetUploaded, uploadContext.Print, StringSet.mem_add,
          List.map_cons, List.mem_cons]
        tauto
      · rw [i3]
        rfl

theorem mem_announced (uploaded : StringSet) (ps : List WrappedPointer) (x : WrappedPointer)
    (hx : x ∈ announced uploaded ps) : x ∈ ps ∧ x.Oid ∉ uploaded.elems := by
  induction ps generalizing uploaded with
  | nil => simp [announced] at hx
  | cons p ps ih =>
    cases h : uploaded.Contains p.Oid with
    | true =>
      simp only [announced, h, if_true] at hx
      have := ih uploaded hx
      exact ⟨List.mem_cons_of_mem _ this.1, this.2⟩
    | false =>
      simp only [announced, h, Bool.false_eq_true, if_false] at hx
      rcases List.mem_cons.1 hx with rfl | hx
      · exact ⟨List.mem_cons_self _ _, (StringSet.contains_false_iff _ _).1 h⟩
      · have := ih _ hx
        exact ⟨List.mem_cons_of_mem _ this.1,
          fun hm => this.2 ((StringSet.mem_add _ _ _).2 (Or.inr hm))⟩

theorem announced_oid_ne (uploaded : StringSet) (ps : List WrappedPointer) (x : WrappedPointer)
    (oid : String) (hx : x ∈ announced (uploaded.Add oid) ps) : x.Oid ≠ oid :=
  fun he => (mem_announced _ _ _ hx).2 ((StringSet.mem_add _ _ _).2 (Or.inl he))

theorem announced_props (uploaded : StringSet) (ps : List WrappedPointer) :
    List.Sublist (announced uploaded ps) ps ∧
    ((announced uploaded ps).map (fun p => p.Oid)).Nodup ∧
    (∀ x ∈ announced uploaded ps, ps.find? (fun y => y.Oid == x.Oid) = some x) ∧
    (∀ p ∈ ps, p.Oid ∉ uploaded.elems → ∃ x ∈ announced uploaded ps, x.Oid = p.Oid) := by
  induction ps generalizing uploaded with
  | nil => simp [announced]
  | cons p ps ih =>
    cases h : uploaded.Contains p.Oid with
    | true =>
      have hm : p.Oid ∈ uploaded.elems := (StringSet.contains_iff _ _).1 h
      obtain ⟨i1, i2, i3, i4⟩ := ih uploaded
      simp only [announced, h, if_true]
      refine ⟨List.Sublist.cons _ i1, i2, ?_, ?_⟩
      · intro x hx
        have hne : p.Oid ≠ x.Oid := fun he => (mem_announced _ _ _ hx).2 (he ▸ hm)
        have hb : (p.Oid == x.Oid) = false := by simpa using hne
        rw [List.find?_cons, hb]
        exact i3 x hx
      · intro r hr hnew
        rcases List.mem_cons.1 hr with rfl | hr
        · exact absurd hm hnew
        · exact i4 r hr hnew
    | false =>
      obtain ⟨i1, i2, i3, i4⟩ := ih (uploaded.Add p.Oid)
      simp only [announced, h, Bool.false_eq_true, if_false]
      refine ⟨List.Sublist.cons₂ _ i1, ?_, ?_, ?_⟩
      · rw [List.map_cons, List.nodup_cons]
        refine ⟨?_, i2⟩
        intro hm
        obtain ⟨x, hx, hxo⟩ := List.mem_map.1 hm
        exact announced_oid_ne _ _ _ _ hx hxo
      · intro x hx
        rcases List.mem_cons.1 hx with rfl | hx
        · simp [List.find?_cons]
        · have hne : p.Oid ≠ x.Oid := fun he => announced_oid_ne _ _ _ _ hx he.symm
          have hb : (p.Oid == x.Oid) = false := by simpa using hne
          rw [List.find?_cons, hb]
          exact i3 x hx
      · intro r hr hnew
        rcases List.mem_cons.1 hr with rfl | hr
        · exact ⟨r, List.mem_cons_self _ _, rfl⟩
        · by_cases he : r.Oid = p.Oid
          · exact ⟨p, List.mem_cons_self _ _, he.symm⟩
          · have hnew2 : r.Oid ∉ (uploaded.Add p.Oid).elems := by
              intro hm
              rcases (StringSet.mem_add _ _ _).1 hm with h1 | h1
              · exact he h1
              · exact hnew h1
            obtain ⟨x, hx, hxo⟩ := i4 r hr hnew2
            exact ⟨x, List.mem_cons_of_mem _ hx, hxo⟩

theorem announced_nil_of_uploaded (uploaded : StringSet) (ps : List WrappedPointer)
    (h : ∀ p ∈ ps, p.Oid ∈ uploaded.elems) : announced uploaded ps = [] := by
  apply List.eq_nil_iff_forall_not_mem.2
  intro x hx
  have := mem_announced _ _ _ hx
  exact this.2 (h x this.1)

theorem UploadPointers_dryRun (fs : FileSystem) (c : uploadContext) (q : TransferQueue)
    (batch : List WrappedPointer) (hdry : c.DryRun = true) :
    c.UploadPointers fs q batch = .done (dryRunLoop c batch, q) := by
  unfold uploadContext.UploadPointers
  rw [hdry]
  rfl

/-- C14: in dry-run mode `UploadPointers` returns, leaves the queue as it was,
and prints exactly one push line for each distinct oid of the batch that was not
uploaded before, at the first record of that oid and in the order of the batch;
afterwards every oid of the batch is in `uploadedOids`, so that a later dry-run
call for objects of the same batch prints nothing. -/
theorem C14_dry_run (fs : FileSystem) (c : uploadContext) (q : TransferQueue)
    (batch : List WrappedPointer) (hdry : c.DryRun = true) :
    (c.UploadPointers fs q batch).exited = false ∧
    (c.UploadPointers fs q batch).state.2.added = q.added ∧
    (c.UploadPointers fs q batch).state.1.printed
      = c.printed ++ (announced c.uploadedOids batch).map pushLine ∧
    List.Sublist (announced c.uploadedOids batch) batch ∧
    ((announced c.uploadedOids batch).map (fun p => p.Oid)).Nodup ∧
    (∀ x ∈ announced c.uploadedOids batch,
      c.HasUploaded x.Oid = false ∧ batch.find? (fun y => y.Oid == x.Oid) = some x) ∧
    (∀ p ∈ batch, c.HasUploaded p.Oid = false →
      ∃ x ∈ announced c.uploadedOids batch, x.Oid = p.Oid) ∧
    (∀ p ∈ batch, (c.UploadPointers fs q batch).state.1.HasUploaded p.Oid = true) ∧
    (∀ (q2 : TransferQueue) (later : List WrappedPointer),
      (∀ p ∈ later, p.Oid ∈ batch.map (fun b => b.Oid)) →
      ((c.UploadPointers fs q batch).state.1.UploadPointers fs q2 later).state.1.printed
        = (c.UploadPointers fs q batch).state.1.printed) := by
  have hu := UploadPointers_dryRun fs c q batch hdry
  obtain ⟨d1, d2, d3⟩ := dryRunLoop_spec c batch
  obtain ⟨a1, a2, a3, a4⟩ := announced_props c.uploadedOids batch
  rw [hu]
  simp only [Run.state, Run.exited]
  refine ⟨trivial, trivial, d1, a1, a2, ?_, ?_, ?_, ?_⟩
  · intro x hx
    exact ⟨(StringSet.contains_false_iff _ _).2 (mem_announced _ _ _ hx).2, a3 x hx⟩
  · intro p hp hnew
    exact a4 p hp ((StringSet.contains_false_iff _ _).1 hnew)
  · intro p hp
    apply (StringSet.contains_iff _ _).2
    rw [d2]
    exact Or.inr (List.mem_map_of_mem _ hp)
  · intro q2 later hlater
    have hdry2 : (dryRunLoop c batch).DryRun = true := by rw [d3, hdry]
    rw [UploadPointers_dryRun fs _ q2 later hdry2]
    simp only [Run.state]
    rw [(dryRunLoop_spec (dryRunLoop c batch) later).1, announced_nil_of_uploaded]
    · simp
    · intro p hp
      rw [d2]
      exact Or.inr (hlater p hp)

/-- C14 at a dry run over a batch that names the oid `a` twice, in a session
that has already uploaded `b`: one line is printed, for the first record of
`a`. -/
theorem C14_dry_run_witness :
    (({ freshContext true false (noLocks .verifyStateEnabled) with
          uploadedOids := ⟨["b"]⟩ }).UploadPointers allPresent quietQueue
        [⟨"one.bin", "a", 100⟩, ⟨"two.bin", "b", 7⟩, ⟨"copy.bin", "a", 100⟩]).state.1.printed
      = ({ freshContext true false (noLocks .verifyStateEnabled) with
          uploadedOids := ⟨["b"]⟩ }).printed
        ++ (announced ({ freshContext true false (noLocks .verifyStateEnabled) with
              uploadedOids := ⟨["b"]⟩ }).uploadedOids
            [⟨"one.bin", "a", 100⟩, ⟨"two.bin", "b", 7⟩, ⟨"copy.bin", "a", 100⟩]).map pushLine ∧
    (announced (⟨["b"]⟩ : StringSet)
        [⟨"one.bin", "a", 100⟩, ⟨"two.bin", "b", 7⟩, ⟨"copy.bin", "a", 100⟩]).map pushLine
      = ["push a => one.bin"] :=
  ⟨(C14_dry_run allPresent
      { freshContext true false (noLocks .verifyStateEnabled) with uploadedOids := ⟨["b"]⟩ }
      quietQueue [⟨"one.bin", "a", 100⟩, ⟨"two.bin", "b", 7⟩, ⟨"copy.bin", "a", 100⟩] rfl).2.2.1,
   by decide⟩

/-! ## What the operations leave alone -/

theorem collectStep_frame (c : uploadContext) (e : Error) :
    (collectStep c e).uploadedOids = c.uploadedOids ∧
    (collectStep c e).lockVerifier = c.lockVerifier ∧
    (collectStep c e).allowMissing = c.allowMissing := by
  cases e with
  | malformedObject m =>
    cases hm : m.missing <;>
      simp [collectStep, MalformedObjectError.Missing, MalformedObjectError.Corrupt, hm]
  | text msg => simp [collectStep]
  | notExist path => simp [collectStep]
  | wrap inner context => simp [collectStep]
  | join first second => simp [collectStep]

theorem collectLoop_frame (c : uploadContext) (errs : List Error) :
    (collectLoop c errs).uploadedOids = c.uploadedOids ∧
    (collectLoop c errs).lockVerifier = c.lockVerifier ∧
    (collectLoop c errs).allowMissing = c.allowMissing := by
  induction errs generalizing c with
  | nil => exact ⟨rfl, rfl, rfl⟩
  | cons e errs ih =>
    rw [collectLoop_cons]
    obtain ⟨i1, i2, i3⟩ := ih (collectStep c e)
    obtain ⟨s1, s2, s3⟩ := collectStep_frame c e
    exact ⟨i1.trans s1, i2.trans s2, i3.trans s3⟩

theorem ReportErrors_frame (c : uploadContext) :
    c.ReportErrors.state.uploadedOids = c.uploadedOids ∧
    c.ReportErrors.state.missing = c.missing ∧
    c.ReportErrors.state.corrupt = c.corrupt ∧
    c.ReportErrors.state.otherErrs = c.otherErrs ∧
    c.ReportErrors.state.lockVerifier = c.lockVerifier := by
  have hlen : (0 < c.otherErrs.length) ↔ c.otherErrs ≠ [] := List.length_pos
  by_cases h4 : c.otherErrs = []
  · by_cases h1 : 0 < c.missing.len <;> by_cases h2 : 0 < c.corrupt.len <;>
      cases h3 : c.allowMissing <;> cases h5 : c.lockVerifier.HasUnownedLocks <;>
      cases h6 : c.lockVerifier.Enabled <;> cases h7 : c.lockVerifier.HasOwnedLocks <;>
      simp [uploadContext.ReportErrors, uploadContext.Print, Run.state, h1, h2, h3, h4, h5, h6, h7]
  · have h4len : 0 < c.otherErrs.length := hlen.2 h4
    by_cases h1 : 0 < c.missing.len <;> by_cases h2 : 0 < c.corrupt.len <;>
      cases h3 : c.allowMissing <;>
      simp [uploadContext.ReportErrors, uploadContext.Print, Run.state, h1, h2, h3, h4, h4len]

theorem UploadPointers_uploaded_mono (fs : FileSystem) (c : uploadContext) (q : TransferQueue)
    (batch : List WrappedPointer) (x : String) (hx : x ∈ c.uploadedOids.elems) :
    x ∈ (c.UploadPointers fs q batch).state.1.uploadedOids.elems := by
  cases hdry : c.DryRun with
  | true =>
    rw [UploadPointers_dryRun fs c q batch hdry]
    simp only [Run.state]
    exact ((dryRunLoop_spec c batch).2.1 x).2 (Or.inl hx)
  | false =>
    obtain ⟨_, _, _, _, _, _, hmem, _, _⟩ := UploadPointers_added fs c q batch hdry
    exact (hmem x).2 (Or.inl hx)

/-- C15: `uploadedOids` only grows. An oid that is in `uploadedOids` before
`SetUploaded`, `prepareUpload`, `UploadPointers` (in dry-run mode or not, and
whether the call returns or ends the process), `CollectErrors` or `ReportErrors`
is still in it afterwards. -/
theorem C15_uploadedOids_monotone (fs : FileSystem) (c : uploadContext) (oid : String)
    (h : c.HasUploaded oid = true) :
    (∀ other, (c.SetUploaded other).HasUploaded oid = true) ∧
    (∀ batch, (c.prepareUpload batch).1.HasUploaded oid = true) ∧
    (∀ q batch, (c.UploadPointers fs q batch).state.1.HasUploaded oid = true) ∧
    (∀ tqueue, (c.CollectErrors tqueue).HasUploaded oid = true) ∧
    c.ReportErrors.state.HasUploaded oid = true := by
  have hm : oid ∈ c.uploadedOids.elems := (StringSet.contains_iff _ _).1 h
  refine ⟨?_, ?_, ?_, ?_, ?_⟩
  · intro other
    apply (StringSet.contains_iff _ _).2
    exact (StringSet.mem_add _ _ _).2 (Or.inr hm)
  · intro batch
    unfold uploadContext.HasUploaded
    rw [(prepareUpload_sameSession c batch).2.1]
    exact h
  · intro q batch
    exact (StringSet.contains_iff _ _).2 (UploadPointers_uploaded_mono fs c q batch oid hm)
  · intro tqueue
    unfold uploadContext.HasUploaded uploadContext.CollectErrors
    rw [(collectLoop_frame c _).1]
    exact h
  · unfold uploadContext.HasUploaded
    rw [(ReportErrors_frame c).1]
    exact h

/-- C15 at a session that has uploaded `b`: the oid is still uploaded after a
call of `UploadPointers` for other objects. -/
theorem C15_uploadedOids_monotone_witness :
    (({ freshContext false false (noLocks .verifyStateEnabled) with
          uploadedOids := ⟨["b"]⟩ }).UploadPointers allPresent quietQueue
        [⟨"one.bin", "a", 100⟩]).state.1.HasUploaded "b" = true :=
  (C15_uploadedOids_monotone allPresent
    { freshContext false false (noLocks .verifyStateEnabled) with uploadedOids := ⟨["b"]⟩ }
    "b" rfl).2.2.1 quietQueue [⟨"one.bin", "a", 100⟩]

/-! ## The exclusion list and the choice of scan -/

theorem excludeFor_eq (updates : List RefUpdate) :
    excludeFor updates
      = (updates.filter (fun u => u.LocalRefCommitish != u.RemoteRef.Sha)).map
          (fun u => u.RemoteRef.Sha) := by
  induction updates with
  | nil => rfl
  | cons u rest ih =>
    cases h : (u.LocalRefCommitish != u.RemoteRef.Sha)
    · simp [excludeFor, List.filter_cons, h, ih]
    · simp [excludeFor, List.filter_cons, h, ih]

theorem uploadRangeOrAll_congr (fs : FileSystem) (g1 g2 : GitScanner) (ctx : uploadContext)
    (q : TransferQueue) (exclude : List String) (update : RefUpdate) (pushAll : Bool)
    (h : runScan g1 exclude update pushAll = runScan g2 exclude update pushAll) :
    uploadRangeOrAll fs g1 ctx q exclude update pushAll
      = uploadRangeOrAll fs g2 ctx q exclude update pushAll := by
  unfold uploadRangeOrAll
  rw [h]

theorem refUpdateLoop_congr (fs : FileSystem) (g1 g2 : GitScanner)
    (engine : RefUpdate → List Transfer → List Error) (exclude : List String) (pushAll : Bool)
    (h : ∀ u, runScan g1 exclude u pushAll = runScan g2 exclude u pushAll)
    (updates : List RefUpdate) :
    ∀ (ctx : uploadContext) (scanned : List (RefUpdate × TransferQueue))
      (collected : List RefUpdate),
      refUpdateLoop fs g1 engine exclude pushAll ctx scanned collected updates
        = refUpdateLoop fs g2 engine exclude pushAll ctx scanned collected updates := by
  induction updates with
  | nil => intro ctx scanned collected; rfl
  | cons u rest ih =>
    intro ctx scanned collected
    rw [refUpdateLoop, refUpdateLoop]
    dsimp only
    rw [uploadRangeOrAll_congr fs g1 g2 ctx _ exclude u pushAll (h u)]
    cases uploadRangeOrAll fs g2 ctx (ctx.NewQueue (engine u)) exclude u pushAll with
    | exit e s => rfl
    | done s =>
      obtain ⟨c1, q1, err⟩ := s
      cases err with
      | some e => rfl
      | none => exact ih _ _ _

theorem uploadForRefUpdates_congr (fs : FileSystem) (g1 g2 : GitScanner)
    (engine : RefUpdate → List Transfer → List Error)
    (verifyLocks : lockVerifier → List RefUpdate → Run lockVerifier)
    (ctx : uploadContext) (updates : List RefUpdate) (pushAll : Bool)
    (h : ∀ u, runScan g1 (excludeFor updates) u pushAll
      = runScan g2 (excludeFor updates) u pushAll) :
    uploadForRefUpdates fs g1 engine verifyLocks ctx updates pushAll
      = uploadForRefUpdates fs g2 engine verifyLocks ctx updates pushAll := by
  unfold uploadForRefUpdates
  cases verifyLocks ctx.lockVerifier updates with
  | exit e lv => rfl
  | done lv =>
    dsimp only
    rw [refUpdateLoop_congr fs g1 g2 engine (excludeFor updates) pushAll h]

theorem uploadRangeOrAll_state (fs : FileSystem) (g : GitScanner) (ctx : uploadContext)
    (q : TransferQueue) (exclude : List String) (update : RefUpdate) (pushAll : Bool) :
    (uploadRangeOrAll fs g ctx q exclude update pushAll).state.2.1
      = (deliver fs ctx q (runScan g exclude update pushAll).1).state.2 := by
  unfold uploadRangeOrAll
  dsimp only
  cases deliver fs ctx q (runScan g exclude update pushAll).1 with
  | exit e s => rfl
  | done s =>
    obtain ⟨c1, q1⟩ := s
    dsimp only
    cases (runScan g exclude update pushAll).2 <;> rfl

theorem refUpdateLoop_scanned_grows (fs : FileSystem) (g : GitScanner)
    (engine : RefUpdate → List Transfer → List Error) (exclude : List String) (pushAll : Bool)
    (updates : List RefUpdate) :
    ∀ (ctx : uploadContext) (scanned : List (RefUpdate × TransferQueue))
      (collected : List RefUpdate),
      ∃ t, (refUpdateLoop fs g engine exclude pushAll ctx scanned collected updates).state.scanned
        = scanned ++ t := by
  induction updates with
  | nil =>
    intro ctx scanned collected
    exact ⟨[], by simp [refUpdateLoop, Run.state]⟩
  | cons u rest ih =>
    intro ctx scanned collected
    rw [refUpdateLoop]
    dsimp only
    cases hu : uploadRangeOrAll fs g ctx (ctx.NewQueue (engine u)) exclude u pushAll with
    | exit e s => exact ⟨[(u, s.2.1)], rfl⟩
    | done s =>
      obtain ⟨c1, q1, err⟩ := s
      dsimp only
      cases err with
      | some e => exact ⟨[(u, q1)], rfl⟩
      | none =>
        dsimp only
        obtain ⟨t, ht⟩ := ih (c1.CollectErrors q1) (scanned ++ [(u, q1)]) (collected ++ [u])
        exact ⟨(u, q1) :: t, by rw [ht]; simp⟩

theorem refUpdateLoop_head_entry (fs : FileSystem) (g : GitScanner)
    (engine : RefUpdate → List Transfer → List Error) (exclude : List String) (pushAll : Bool)
    (ctx : uploadContext) (scanned : List (RefUpdate × TransferQueue))
    (collected : List RefUpdate) (u : RefUpdate) (rest : List RefUpdate) :
    ∃ t, (refUpdateLoop fs g engine exclude pushAll ctx scanned collected (u :: rest)).state.scanned
      = scanned
        ++ (u, (deliver fs ctx (ctx.NewQueue (engine u)) (runScan g exclude u pushAll).1).state.2)
          :: t := by
  have hq := uploadRangeOrAll_state fs g ctx (ctx.NewQueue (engine u)) exclude u pushAll
  rw [refUpdateLoop]
  dsimp only
  cases hu : uploadRangeOrAll fs g ctx (ctx.NewQueue (engine u)) exclude u pushAll with
  | exit e s =>
    rw [hu] at hq
    have hq2 : s.2.1
        = (deliver fs ctx (ctx.NewQueue (engine u)) (runScan g exclude u pushAll).1).state.2 := hq
    refine ⟨[], ?_⟩
    rw [← hq2]
    rfl
  | done s =>
    obtain ⟨c1, q1, err⟩ := s
    rw [hu] at hq
    have hq2 : q1
        = (deliver fs ctx (ctx.NewQueue (engine u)) (runScan g exclude u pushAll).1).state.2 := hq
    dsimp only
    cases err with
    | some e =>
      refine ⟨[], ?_⟩
      rw [← hq2]
      rfl
    | none =>
      dsimp only
      obtain ⟨t, ht⟩ := refUpdateLoop_scanned_grows fs g engine exclude pushAll rest
        (c1.CollectErrors q1) (scanned ++ [(u, q1)]) (collected ++ [u])
      refine ⟨t, ?_⟩
      rw [ht, ← hq2]
      simp

theorem uploadForRefUpdates_scanned (fs : FileSystem) (g : GitScanner)
    (engine : RefUpdate → List Transfer → List Error)
    (verifyLocks : lockVerifier → List RefUpdate → Run lockVerifier)
    (ctx : uploadContext) (updates : List RefUpdate) (pushAll : Bool) (lv : lockVerifier)
    (hv : verifyLocks ctx.lockVerifier updates = .done lv) :
    (uploadForRefUpdates fs g engine verifyLocks ctx updates pushAll).state.scanned
      = (refUpdateLoop fs g engine (excludeFor updates) pushAll { ctx with lockVerifier := lv }
          [] [] updates).state.scanned := by
  unfold uploadForRefUpdates
  rw [hv]
  dsimp only
  cases refUpdateLoop fs g engine (excludeFor updates) pushAll { ctx with lockVerifier := lv }
      [] [] updates with
  | exit e o => rfl
  | done o =>
    dsimp only
    cases o.ctx.ReportErrors <;> rfl

theorem uploadForRefUpdates_entry (fs : FileSystem) (g : GitScanner)
    (engine : RefUpdate → List Transfer → List Error)
    (verifyLocks : lockVerifier → List RefUpdate → Run lockVerifier)
    (ctx : uploadContext) (pre : List RefUpdate) (u : RefUpdate) (post : List RefUpdate)
    (pushAll : Bool) (lv : lockVerifier) (o : UploadOutcome)
    (hv : verifyLocks ctx.lockVerifier (pre ++ u :: post) = .done lv)
    (hpre : refUpdateLoop fs g engine (excludeFor (pre ++ u :: post)) pushAll
      { ctx with lockVerifier := lv } [] [] pre = .done o)
    (hok : o.err = none) :
    o.scanned.map (fun x => x.1) = pre ∧
    ∃ t, (uploadForRefUpdates fs g engine verifyLocks ctx (pre ++ u :: post) pushAll).state.scanned
      = o.scanned
        ++ (u, (deliver fs o.ctx (o.ctx.NewQueue (engine u))
              (runScan g (excludeFor (pre ++ u :: post)) u pushAll).1).state.2) :: t := by
  obtain ⟨happ, hsc, _⟩ := refUpdateLoop_append fs g engine (excludeFor (pre ++ u :: post))
    pushAll pre (u :: post) _ [] [] o hpre hok
  refine ⟨by simpa using hsc, ?_⟩
  rw [uploadForRefUpdates_scanned fs g engine verifyLocks ctx _ pushAll lv hv, happ]
  exact refUpdateLoop_head_entry fs g engine _ pushAll o.ctx o.scanned o.collected u post

/-- C16: the exclusion list computed by `uploadForRefUpdates` is the list of the
remote SHAs of the updates whose local commitish differs from their remote SHA,
in the order of the updates, so it is no longer than the batch. Every update
that the run reaches is scanned with it: without `pushAll`, the queue logged for
the update is the one left by delivering the events of the incremental scan of
the update's local commitish with the exclusion list of the whole batch; with
`pushAll`, it is the one left by delivering the events of the full-history scan
of the update's local commitish. A run in which no scan reports an error and
the process does not end in the loop reaches every update. The run depends on
the scanner through these calls only: two scanners whose incremental scans agree
on this list give the same run without `pushAll`, and two scanners whose
full-history scans agree give the same run with `pushAll`. -/
theorem C16_exclusion_list (fs : FileSystem) (g1 g2 : GitScanner)
    (engine : RefUpdate → List Transfer → List Error)
    (verifyLocks : lockVerifier → List RefUpdate → Run lockVerifier)
    (ctx : uploadContext) (updates : List RefUpdate) :
    (excludeFor updates
      = (updates.filter (fun u => u.LocalRefCommitish != u.RemoteRef.Sha)).map
          (fun u => u.RemoteRef.Sha)) ∧
    (excludeFor updates).length ≤ updates.length ∧
    (∀ exclude u, runScan g1 exclude u false
      = g1.ScanMultiRangeToRemote u.LocalRefCommitish exclude) ∧
    (∀ exclude u, runScan g1 exclude u true = g1.ScanRefWithDeleted u.LocalRefCommitish) ∧
    ((∀ commit, g1.ScanMultiRangeToRemote commit (excludeFor updates)
        = g2.ScanMultiRangeToRemote commit (excludeFor updates)) →
      uploadForRefUpdates fs g1 engine verifyLocks ctx updates false
        = uploadForRefUpdates fs g2 engine verifyLocks ctx updates false) ∧
    ((∀ commit, g1.ScanRefWithDeleted commit = g2.ScanRefWithDeleted commit) →
      uploadForRefUpdates fs g1 engine verifyLocks ctx updates true
        = uploadForRefUpdates fs g2 engine verifyLocks ctx updates true) ∧
    (∀ pre u post lv o, updates = pre ++ u :: post →
      verifyLocks ctx.lockVerifier updates = .done lv →
      refUpdateLoop fs g1 engine (excludeFor updates) false { ctx with lockVerifier := lv }
        [] [] pre = .done o →
      o.err = none →
      o.scanned.map (fun x => x.1) = pre ∧
      ∃ t, (uploadForRefUpdates fs g1 engine verifyLocks ctx updates false).state.scanned
        = o.scanned
          ++ (u, (deliver fs o.ctx (o.ctx.NewQueue (engine u))
                (g1.ScanMultiRangeToRemote u.LocalRefCommitish (excludeFor updates)).1).state.2)
            :: t) ∧
    (∀ pre u post lv o, updates = pre ++ u :: post →
      verifyLocks ctx.lockVerifier updates = .done lv →
      refUpdateLoop fs g1 engine (excludeFor updates) true { ctx with lockVerifier := lv }
        [] [] pre = .done o →
      o.err = none →
      o.scanned.map (fun x => x.1) = pre ∧
      ∃ t, (uploadForRefUpdates fs g1 engine verifyLocks ctx updates true).state.scanned
        = o.scanned
          ++ (u, (deliver fs o.ctx (o.ctx.NewQueue (engine u))
                (g1.ScanRefWithDeleted u.LocalRefCommitish).1).state.2) :: t) ∧
    (∀ pushAll lv o, verifyLocks ctx.lockVerifier updates = .done lv →
      refUpdateLoop fs g1 engine (excludeFor updates) pushAll { ctx with lockVerifier := lv }
        [] [] updates = .done o →
      o.err = none →
      (uploadForRefUpdates fs g1 engine verifyLocks ctx updates pushAll).state.scanned.map
        (fun x => x.1) = updates) := by
  refine ⟨excludeFor_eq updates, ?_, ?_, ?_, ?_, ?_, ?_, ?_, ?_⟩
  · rw [excludeFor_eq, List.length_map]
    exact List.length_filter_le _ _
  · intro exclude u
    rfl
  · intro exclude u
    rfl
  · intro h
    apply uploadForRefUpdates_congr
    intro u
    exact h u.LocalRefCommitish
  · intro h
    apply uploadForRefUpdates_congr
    intro u
    exact h u.LocalRefCommitish
  · intro pre u post lv o hsplit hv hpre hok
    subst hsplit
    exact uploadForRefUpdates_entry fs g1 engine verifyLocks ctx pre u post false lv o hv hpre hok
  · intro pre u post lv o hsplit hv hpre hok
    subst hsplit
    exact uploadForRefUpdates_entry fs g1 engine verifyLocks ctx pre u post true lv o hv hpre hok
  · intro pushAll lv o hv hloop hok
    obtain ⟨_, hsc, _⟩ := refUpdateLoop_append fs g1 engine (excludeFor updates) pushAll updates
      [] _ [] [] o hloop hok
    rw [uploadForRefUpdates_scanned fs g1 engine verifyLocks ctx updates pushAll lv hv, hloop]
    simpa [Run.state] using hsc

/-- C16 at the batch `[main, stable, topic]`, in which `stable` has equal tips:
the exclusion list holds the remote SHAs of `main` and `topic`; with a scanner
that names each pointer after the exclusion list it is called with, the queue of
every update holds a transfer named after that one list, and with `pushAll` the
queues hold the pointer of the full-history scan. -/
theorem C16_exclusion_list_witness :
    excludeFor [updateMain, updateStable, updateTopic] = ["r1", "r2"] ∧
    (uploadForRefUpdates allPresent echoScanner (fun _ _ => []) verifyNothing
        (freshContext false false (noLocks .verifyStateEnabled))
        [updateMain, updateStable, updateTopic] false).state.scanned.map
        (fun x => (x.1.LocalRef.Name, x.2.added.map (fun t => t.Name)))
      = [("main", ["r1,r2"]), ("stable", ["r1,r2"]), ("topic", ["r1,r2"])] ∧
    (uploadForRefUpdates allPresent echoScanner (fun _ _ => []) verifyNothing
        (freshContext false false (noLocks .verifyStateEnabled))
        [updateMain, updateStable, updateTopic] true).state.scanned.map
        (fun x => (x.1.LocalRef.Name, x.2.added.map (fun t => t.Name)))
      = [("main", ["full history"]), ("stable", ["full history"]), ("topic", ["full history"])] ∧
    ∃ t, (uploadForRefUpdates allPresent echoScanner (fun _ _ => []) verifyNothing
        (freshContext false false (noLocks .verifyStateEnabled))
        [updateMain, updateStable, updateTopic] false).state.scanned
      = ([] : List (RefUpdate × TransferQueue))
        ++ (updateMain,
            (deliver allPresent (freshContext false false (noLocks .verifyStateEnabled))
              ((freshContext false false (noLocks .verifyStateEnabled)).NewQueue
                ((fun _ _ => []) updateMain))
              (echoScanner.ScanMultiRangeToRemote updateMain.LocalRefCommitish
                (excludeFor [updateMain, updateStable, updateTopic])).1).state.2) :: t :=
  ⟨by decide, rfl, rfl,
   ((C16_exclusion_list allPresent echoScanner echoScanner (fun _ _ => []) verifyNothing
      (freshContext false false (noLocks .verifyStateEnabled))
      [updateMain, updateStable, updateTopic]).2.2.2.2.2.2.1
      [] updateMain [updateStable, updateTopic] (noLocks .verifyStateEnabled)
      { ctx := freshContext false false (noLocks .verifyStateEnabled), scanned := [],
        collected := [], err := none }
      rfl rfl rfl rfl).2⟩

/-! ## Errors returned by the loop over ref updates -/

theorem refUpdateLoop_err (fs : FileSystem) (g : GitScanner)
    (engine : RefUpdate → List Transfer → List Error) (exclude : List String) (pushAll : Bool)
    (updates : List RefUpdate) :
    ∀ (ctx : uploadContext) (scanned : List (RefUpdate × TransferQueue))
      (collected : List RefUpdate) (e : Error),
      (refUpdateLoop fs g engine exclude pushAll ctx scanned collected updates).state.err = some e →
      ∃ u q1 c0 c1 e0 sc col, u ∈ updates ∧
        uploadRangeOrAll fs g c0 (c0.NewQueue (engine u)) exclude u pushAll
          = .done (c1, q1, some e0) ∧
        refUpdateLoop fs g engine exclude pushAll ctx scanned collected updates
          = .done { ctx := c1.CollectErrors q1, scanned := sc ++ [(u, q1)],
                    collected := col ++ [u],
                    err := some (errors.Wrap e0 ("ref \"" ++ u.LocalRef.Name ++ "\":")) } := by
  induction updates with
  | nil =>
    intro ctx scanned collected e h
    simp [refUpdateLoop, Run.state] at h
  | cons u rest ih =>
    intro ctx scanned collected e h
    rw [refUpdateLoop] at h ⊢
    dsimp only at h ⊢
    cases hu : uploadRangeOrAll fs g ctx (ctx.NewQueue (engine u)) exclude u pushAll with
    | exit x s =>
      rw [hu] at h
      simp [Run.state] at h
    | done s =>
      obtain ⟨c1, q1, err⟩ := s
      rw [hu] at h
      dsimp only at h ⊢
      cases err with
      | some e0 =>
        exact ⟨u, q1, ctx, c1, e0, scanned, collected, List.mem_cons_self _ _, hu, rfl⟩
      | none =>
        dsimp only at h ⊢
        obtain ⟨u2, q2, c0, c2, e0, sc, col, hmem, hrun, hres⟩ := ih _ _ _ e h
        exact ⟨u2, q2, c0, c2, e0, sc, col, List.mem_cons_of_mem _ hmem, hrun, hres⟩

theorem uploadForRefUpdates_err (fs : FileSystem) (g : GitScanner)
    (engine : RefUpdate → List Transfer → List Error)
    (verifyLocks : lockVerifier → List RefUpdate → Run lockVerifier)
    (ctx : uploadContext) (updates : List RefUpdate) (pushAll : Bool) (e : Error)
    (h : (uploadForRefUpdates fs g engine verifyLocks ctx updates pushAll).state.err = some e) :
    ∃ lv o, verifyLocks ctx.lockVerifier updates = .done lv ∧
      refUpdateLoop fs g engine (excludeFor updates) pushAll { ctx with lockVerifier := lv }
        [] [] updates = .done o ∧
      o.err = some e ∧
      (uploadForRefUpdates fs g engine verifyLocks ctx updates pushAll).state.ctx
        = o.ctx.ReportErrors.state ∧
      (uploadForRefUpdates fs g engine verifyLocks ctx updates pushAll).state.scanned
        = o.scanned ∧
      (uploadForRefUpdates fs g engine verifyLocks ctx updates pushAll).state.collected
        = o.collected := by
  unfold uploadForRefUpdates at h ⊢
  cases hv : verifyLocks ctx.lockVerifier updates with
  | exit x lv =>
    rw [hv] at h
    simp [Run.state] at h
  | done lv =>
    rw [hv] at h
    dsimp only at h ⊢
    cases hl : refUpdateLoop fs g engine (excludeFor updates) pushAll
        { ctx with lockVerifier := lv } [] [] updates with
    | exit x o =>
      obtain ⟨_, _, _, _, _, _, _, _, _, hres⟩ :=
        refUpdateLoop_err fs g engine (excludeFor updates) pushAll updates
          { ctx with lockVerifier := lv } [] [] e (by
            rw [hl] at h ⊢
            simpa [Run.state] using h)
      rw [hl] at hres
      simp at hres
    | done o =>
      rw [hl] at h
      dsimp only at h ⊢
      refine ⟨lv, o, rfl, hl, ?_, ?_, ?_, ?_⟩
      · cases hr : o.ctx.ReportErrors <;> rw [hr] at h <;> simpa [Run.state] using h
      · cases hr : o.ctx.ReportErrors <;> simp [Run.state]
      · cases hr : o.ctx.ReportErrors <;> simp [Run.state]
      · cases hr : o.ctx.ReportErrors <;> simp [Run.state]

theorem wrapInt64_of_isInt64 (x : Int) (h : isInt64 x) : wrapInt64 x = x := by
  unfold isInt64 at h
  unfold wrapInt64
  omega

theorem wrapInt64_isInt64 (x : Int) : isInt64 (wrapInt64 x) := by
  unfold isInt64 wrapInt64
  omega

theorem wrapInt64_add_wrap (a b : Int) : wrapInt64 (wrapInt64 a + b) = wrapInt64 (a + b) := by
  unfold wrapInt64
  omega

theorem meterAfter_eq (sizes : List Int) :
    ∀ before, isInt64 before → meterAfter before sizes = wrapInt64 (before + sizes.sum) := by
  induction sizes with
  | nil =>
    intro before h
    simp [meterAfter, wrapInt64_of_isInt64 before h]
  | cons size rest ih =>
    intro before _
    have h := ih (wrapInt64 (before + size)) (wrapInt64_isInt64 _)
    unfold meterAfter at h ⊢
    rw [List.foldl_cons, h, wrapInt64_add_wrap, List.sum_cons, add_assoc]

theorem prepareUpload_meter (c : uploadContext) (batch : List WrappedPointer) :
    (c.prepareUpload batch).1.meter.estimatedBytes
      = meterAfter c.meter.estimatedBytes ((c.prepareUpload batch).2.map (fun p => p.Size)) := by
  rw [prepareUpload_eq]
  unfold uploadContext.prepareUpload
  exact prepareLoop_meter _ batch

/-- C18, as stated, fails: the meter is an `int64` and its addition wraps. In
the batch `[big.bin (2^63 - 1 bytes), one.bin (1 byte)]` both records are
returned by `prepareUpload`, the sum of their sizes is `2^63`, and the meter,
which stood at zero, stands at `-2^63` afterwards. -/
theorem C18_progress_estimate_counterexample :
    ((freshContext false false (noLocks .verifyStateEnabled)).prepareUpload
        [⟨"big.bin", "a", 9223372036854775807⟩, ⟨"one.bin", "b", 1⟩]).2
      = [⟨"big.bin", "a", 9223372036854775807⟩, ⟨"one.bin", "b", 1⟩] ∧
    (([⟨"big.bin", "a", 9223372036854775807⟩, ⟨"one.bin", "b", 1⟩] : List WrappedPointer).map
        (fun p => p.Size)).sum = 9223372036854775808 ∧
    (freshContext false false (noLocks .verifyStateEnabled)).meter.estimatedBytes = 0 ∧
    ((freshContext false false (noLocks .verifyStateEnabled)).prepareUpload
        [⟨"big.bin", "a", 9223372036854775807⟩, ⟨"one.bin", "b", 1⟩]).1.meter.estimatedBytes
      = -9223372036854775808 := by
  refine ⟨rfl, by decide, rfl, ?_⟩
  rw [prepareUpload_meter]
  decide

/-- C18, amended: the total that `prepareUpload` adds to the progress meter is
the sum of the sizes of the records it returns, taken in `int64` arithmetic:
the meter afterwards is the `int64` value of its total before plus that sum. It
is exactly the total before plus the sum whenever this stays in the `int64`
range. Nothing is added for a skipped record, and the meter is unchanged when no
record is returned. The sizes are added by `prepareUpload` itself: outside
dry-run mode the meter holds this total in the state `UploadPointers` reaches,
whether every descriptor could be built or the process ended on a descriptor
error. -/
theorem C18_progress_estimate_int64 (fs : FileSystem) (c : uploadContext) (q : TransferQueue)
    (batch : List WrappedPointer) (hrange : isInt64 c.meter.estimatedBytes) :
    ((c.prepareUpload batch).1.meter.estimatedBytes
      = wrapInt64
          (c.meter.estimatedBytes + ((c.prepareUpload batch).2.map (fun p => p.Size)).sum)) ∧
    (isInt64 (c.meter.estimatedBytes + ((c.prepareUpload batch).2.map (fun p => p.Size)).sum) →
      (c.prepareUpload batch).1.meter.estimatedBytes
        = c.meter.estimatedBytes + ((c.prepareUpload batch).2.map (fun p => p.Size)).sum) ∧
    ((c.prepareUpload batch).2 = [] →
      (c.prepareUpload batch).1.meter.estimatedBytes = c.meter.estimatedBytes) ∧
    (c.DryRun = false →
      (c.UploadPointers fs q batch).state.1.meter.estimatedBytes
        = wrapInt64
            (c.meter.estimatedBytes
              + ((c.prepareUpload batch).2.map (fun p => p.Size)).sum)) := by
  have hm : (c.prepareUpload batch).1.meter.estimatedBytes
      = wrapInt64
          (c.meter.estimatedBytes + ((c.prepareUpload batch).2.map (fun p => p.Size)).sum) := by
    rw [prepareUpload_meter, meterAfter_eq _ _ hrange]
  refine ⟨hm, ?_, ?_, ?_⟩
  · intro hsum
    rw [hm, wrapInt64_of_isInt64 _ hsum]
  · intro hnil
    rw [hm, hnil]
    simp [wrapInt64_of_isInt64 _ hrange]
  · intro hdry
    obtain ⟨pre, post, ts, _, _, _, h4, _⟩ := UploadPointers_spec fs c q batch hdry
    rw [h4, (markAll_frame _ _).2.2.2.1]
    exact hm

/-- C18, amended, at a batch of three objects in which the store cannot be read
for the last one: the process ends on the descriptor error and the meter already
holds the sizes of the two records that were returned. -/
theorem C18_progress_estimate_int64_witness :
    (({ freshContext false false (noLocks .verifyStateEnabled) with
          gitfilter := brokenStoreFor }).UploadPointers allPresent quietQueue
        [⟨"one.bin", "a", 100⟩, ⟨"empty.bin", "b", 0⟩, ⟨"three.bin", "c", 50⟩]).exited = true ∧
    (({ freshContext false false (noLocks .verifyStateEnabled) with
          gitfilter := brokenStoreFor }).UploadPointers allPresent quietQueue
        [⟨"one.bin", "a", 100⟩, ⟨"empty.bin", "b", 0⟩, ⟨"three.bin", "c", 50⟩]).state.1.meter.estimatedBytes
      = wrapInt64
          (({ freshContext false false (noLocks .verifyStateEnabled) with
              gitfilter := brokenStoreFor }).meter.estimatedBytes
            + ((({ freshContext false false (noLocks .verifyStateEnabled) with
                  gitfilter := brokenStoreFor }).prepareUpload
                [⟨"one.bin", "a", 100⟩, ⟨"empty.bin", "b", 0⟩, ⟨"three.bin", "c", 50⟩]).2.map
                (fun p : WrappedPointer => p.Size)).sum) ∧
    wrapInt64
        (({ freshContext false false (noLocks .verifyStateEnabled) with
            gitfilter := brokenStoreFor }).meter.estimatedBytes
          + ((({ freshContext false false (noLocks .verifyStateEnabled) with
                gitfilter := brokenStoreFor }).prepareUpload
              [⟨"one.bin", "a", 100⟩, ⟨"empty.bin", "b", 0⟩, ⟨"three.bin", "c", 50⟩]).2.map
              (fun p : WrappedPointer => p.Size)).sum) = 150 :=
  ⟨rfl,
   (C18_progress_estimate_int64 allPresent
      { freshContext false false (noLocks .verifyStateEnabled) with gitfilter := brokenStoreFor }
      quietQueue
      [⟨"one.bin", "a", 100⟩, ⟨"empty.bin", "b", 0⟩, ⟨"three.bin", "c", 50⟩]
      (by unfold isInt64; decide)).2.2.2 rfl,
   by decide⟩

/-! ## Order of the returned records -/

/-- C19: the slice returned by `prepareUpload` is a subsequence of the batch:
its records are records of the batch, in the order they have there; and the
record returned for an oid is the first record of the batch with that oid and a
size that is not zero. -/
theorem C19_subsequence (c : uploadContext) (batch : List WrappedPointer) :
    List.Sublist (c.prepareUpload batch).2 batch ∧
    (∀ x ∈ (c.prepareUpload batch).2, x ∈ batch) ∧
    (∀ x ∈ (c.prepareUpload batch).2, firstNonEmpty x.Oid batch = some x) := by
  have hsub : List.Sublist (c.prepareUpload batch).2 batch := by
    rw [prepareUpload_eq]
    exact kept_sublist _ _ _ _
  refine ⟨hsub, fun x hx => hsub.subset hx, ?_⟩
  intro x hx
  have hup : c.HasUploaded x.Oid = false := by
    rw [prepareUpload_eq] at hx
    exact (StringSet.contains_false_iff _ _).2 (mem_kept _ _ _ _ _ hx).2.2.1
  exact ((prepareUpload_oid_iff c batch x.Oid x hup).1 ⟨hx, rfl⟩).1

/-- C19 at a batch in which the oid `b` comes first with size zero and then
twice with a size: the records returned are the first of `a` and the first
non-empty one of `b`, in batch order. -/
theorem C19_subsequence_witness :
    ((freshContext false false (noLocks .verifyStateEnabled)).prepareUpload
        [⟨"empty.bin", "b", 0⟩, ⟨"one.bin", "a", 100⟩, ⟨"two.bin", "b", 7⟩, ⟨"copy.bin", "b", 7⟩]).2
      = [⟨"one.bin", "a", 100⟩, ⟨"two.bin", "b", 7⟩] ∧
    List.Sublist
      ((freshContext false false (noLocks .verifyStateEnabled)).prepareUpload
        [⟨"empty.bin", "b", 0⟩, ⟨"one.bin", "a", 100⟩, ⟨"two.bin", "b", 7⟩, ⟨"copy.bin", "b", 7⟩]).2
      [⟨"empty.bin", "b", 0⟩, ⟨"one.bin", "a", 100⟩, ⟨"two.bin", "b", 7⟩, ⟨"copy.bin", "b", 7⟩] :=
  ⟨rfl,
   (C19_subsequence (freshContext false false (noLocks .verifyStateEnabled))
      [⟨"empty.bin", "b", 0⟩, ⟨"one.bin", "a", 100⟩, ⟨"two.bin", "b", 7⟩, ⟨"copy.bin", "b", 7⟩]).1⟩

/-! ## What a call marks as uploaded -/

/-- C20, as stated, fails: in the batch `[empty.bin (oid b, 0 bytes), two.bin
(oid b, 7 bytes)]` the first record is excluded for its zero size, the
non-dry-run `UploadPointers` meets no descriptor error, and the oid of that
record, not uploaded before, is marked uploaded by the call. -/
theorem C20_marks_queued_oids_counterexample :
    (freshContext false false (noLocks .verifyStateEnabled)).DryRun = false ∧
    ((freshContext false false (noLocks .verifyStateEnabled)).UploadPointers allPresent quietQueue
        [⟨"empty.bin", "b", 0⟩, ⟨"two.bin", "b", 7⟩]).exited = false ∧
    (⟨"empty.bin", "b", 0⟩ : WrappedPointer)
      ∈ [(⟨"empty.bin", "b", 0⟩ : WrappedPointer), ⟨"two.bin", "b", 7⟩] ∧
    (⟨"empty.bin", "b", 0⟩ : WrappedPointer)
      ∉ ((freshContext false false (noLocks .verifyStateEnabled)).prepareUpload
          [⟨"empty.bin", "b", 0⟩, ⟨"two.bin", "b", 7⟩]).2 ∧
    (freshContext false false (noLocks .verifyStateEnabled)).HasUploaded "b" = false ∧
    (((freshContext false false (noLocks .verifyStateEnabled)).UploadPointers allPresent quietQueue
        [⟨"empty.bin", "b", 0⟩, ⟨"two.bin", "b", 7⟩]).state.1.HasUploaded "b") = true := by
  refine ⟨rfl, rfl, by decide, ?_, rfl, rfl⟩
  have h : ((freshContext false false (noLocks .verifyStateEnabled)).prepareUpload
      [⟨"empty.bin", "b", 0⟩, ⟨"two.bin", "b", 7⟩]).2 = [⟨"two.bin", "b", 7⟩] := rfl
  rw [h]
  decide

/-- C20, amended: after a non-dry-run `UploadPointers` call that meets no
descriptor error, an oid is in `uploadedOids` exactly when it was there before
or is the oid of a transfer added to the queue by this call; `prepareUpload`
itself leaves `uploadedOids` as it was. The oid of a record that reaches the
lock gate and is blocked there is not marked uploaded, so a later call examines
it again; the oid of a zero-size record is not marked uploaded when every record
of the batch with that oid has size zero. -/
theorem C20_marks_queued_oids (fs : FileSystem) (c : uploadContext) (q : TransferQueue)
    (batch : List WrappedPointer) (hdry : c.DryRun = false)
    (hret : (c.UploadPointers fs q batch).exited = false) :
    (∀ x, (c.UploadPointers fs q batch).state.1.HasUploaded x = true ↔
      (c.HasUploaded x = true ∨
        x ∈ ((c.UploadPointers fs q batch).state.2.added.drop q.added.length).map
          (fun t => t.Oid))) ∧
    (c.prepareUpload batch).1.uploadedOids = c.uploadedOids ∧
    (((c.UploadPointers fs q batch).state.2.added.drop q.added.length).map (fun t => t.Oid)
      = (c.prepareUpload batch).2.map (fun p => p.Oid)) ∧
    (∀ r, firstNonEmpty r.Oid batch = some r → c.HasUploaded r.Oid = false →
      ((c.lockVerifier.LockedByThem r.Name).1 = true ∧ c.lockVerifier.Enabled = true) →
      (c.UploadPointers fs q batch).state.1.HasUploaded r.Oid = false ∧
      r ∈ examined (c.UploadPointers fs q batch).state.1.uploadedOids NewStringSet [r]) ∧
    (∀ r ∈ batch, r.Size = 0 → c.HasUploaded r.Oid = false →
      (∀ y ∈ batch, y.Oid = r.Oid → y.Size = 0) →
      (c.UploadPointers fs q batch).state.1.HasUploaded r.Oid = false) := by
  obtain ⟨pre, post, ts, hk, hall, hadd, hmem, _, hpost⟩ :=
    UploadPointers_added fs c q batch hdry
  have hp : post = [] := hpost hret
  subst hp
  rw [List.append_nil] at hk
  have hoids : ts.map (fun t => t.Oid) = (c.prepareUpload batch).2.map (fun p => p.Oid) := by
    rw [prepareUpload_eq, hk]
    exact (forall₂_transfer_fields fs c pre ts hall).1
  have hiff : ∀ x, (c.UploadPointers fs q batch).state.1.HasUploaded x = true ↔
      (c.HasUploaded x = true ∨ x ∈ ts.map (fun t => t.Oid)) := by
    intro x
    unfold uploadContext.HasUploaded
    rw [StringSet.contains_iff, StringSet.contains_iff]
    exact hmem x
  have hnot : ∀ oid, c.HasUploaded oid = false →
      (¬ ∃ x ∈ (c.prepareUpload batch).2, x.Oid = oid) →
      (c.UploadPointers fs q batch).state.1.HasUploaded oid = false := by
    intro oid hup hno
    cases hh : (c.UploadPointers fs q batch).state.1.HasUploaded oid with
    | false => rfl
    | true =>
      rcases (hiff oid).1 hh with h1 | h1
      · rw [hup] at h1
        exact absurd h1 (by simp)
      · rw [hoids] at h1
        obtain ⟨x, hx, hxo⟩ := List.mem_map.1 h1
        exact absurd ⟨x, hx, hxo⟩ hno
  rw [hadd]
  refine ⟨hiff, (prepareUpload_sameSession c batch).2.1, hoids, ?_, ?_⟩
  · intro r hfirst hup hblocked
    have hsize := (firstNonEmpty_some _ _ _ hfirst).2.2
    have hafter : (c.UploadPointers fs q batch).state.1.HasUploaded r.Oid = false := by
      apply hnot r.Oid hup
      rintro ⟨x, hx, hxo⟩
      obtain ⟨h1, h2⟩ := (prepareUpload_oid_iff c batch r.Oid x hup).1 ⟨hx, hxo⟩
      rw [hfirst] at h1
      simp only [Option.some.injEq] at h1
      subst h1
      exact (admits_iff _ _).1 h2 hblocked
    refine ⟨hafter, ?_⟩
    exact examined_first _ NewStringSet [] [] r (by simp [NewStringSet])
      ((StringSet.contains_false_iff _ _).1 hafter) hsize (by simp)
  · intro r _ _ hup hzero
    apply hnot r.Oid hup
    rintro ⟨x, hx, hxo⟩
    have hx2 := hx
    rw [prepareUpload_eq] at hx2
    have := mem_kept _ _ _ _ _ hx2
    exact this.2.2.2.1 (hzero x this.1 hxo)

/-- C20, amended, at a batch in which `locked.bin` is blocked by the lock of
someone else: its oid is not marked uploaded and the oid of the other record
is. -/
theorem C20_marks_queued_oids_witness :
    (((freshContext false false (lockedByBob .verifyStateEnabled)).UploadPointers allPresent
        quietQueue [⟨"locked.bin", "a", 5⟩, ⟨"one.bin", "b", 100⟩]).state.1.HasUploaded "a")
      = false ∧
    (((freshContext false false (lockedByBob .verifyStateEnabled)).UploadPointers allPresent
        quietQueue [⟨"locked.bin", "a", 5⟩, ⟨"one.bin", "b", 100⟩]).state.1.HasUploaded "b")
      = true :=
  ⟨((C20_marks_queued_oids allPresent (freshContext false false (lockedByBob .verifyStateEnabled))
      quietQueue [⟨"locked.bin", "a", 5⟩, ⟨"one.bin", "b", 100⟩] rfl rfl).2.2.2.1
      ⟨"locked.bin", "a", 5⟩ rfl rfl ⟨rfl, rfl⟩).1,
   rfl⟩

/-! ## The error of a scan -/

theorem deliver_scannerErr_eq (fs : FileSystem) (evs : List ScanEvent) :
    ∀ (c : uploadContext) (q : TransferQueue) (r : uploadContext × TransferQueue),
      deliver fs c q evs = .done r → r.1.scannerErr = joinScanErrors c.scannerErr evs := by
  induction evs with
  | nil =>
    intro c q r hd
    simp only [deliver, Run.done.injEq] at hd
    subst hd
    rfl
  | cons ev evs ih =>
    intro c q r hd
    cases ev with
    | pointer p =>
      rw [deliver] at hd
      have hs := UploadPointers_scannerErr fs c q [p]
      cases hu : c.UploadPointers fs q [p] with
      | exit e s => rw [hu] at hd; simp at hd
      | done s =>
        obtain ⟨c1, q1⟩ := s
        rw [hu] at hd hs
        simp only [Run.state] at hs
        rw [ih c1 q1 r hd, hs]
        rfl
    | scanError err =>
      rw [deliver] at hd
      rw [ih _ q r hd]
      rfl
    | potentiallyLocked name =>
      rw [deliver] at hd
      rw [ih _ q r hd]
      rfl

theorem uploadRangeOrAll_error_eq (fs : FileSystem) (g : GitScanner) (ctx : uploadContext)
    (q : TransferQueue) (exclude : List String) (update : RefUpdate) (pushAll : Bool)
    (c1 : uploadContext) (q1 : TransferQueue) (err : Option Error)
    (h : uploadRangeOrAll fs g ctx q exclude update pushAll = .done (c1, q1, err)) :
    err = match (runScan g exclude update pushAll).2 with
          | some e => some e
          | none => joinScanErrors ctx.scannerErr (runScan g exclude update pushAll).1 := by
  unfold uploadRangeOrAll at h
  dsimp only at h
  cases hd : deliver fs ctx q (runScan g exclude update pushAll).1 with
  | exit e s =>
    rw [hd] at h
    simp at h
  | done s =>
    obtain ⟨c2, q2⟩ := s
    have hj := deliver_scannerErr_eq fs _ ctx q (c2, q2) hd
    rw [hd] at h
    dsimp only at h
    cases hs : (runScan g exclude update pushAll).2 with
    | some e =>
      rw [hs] at h
      simp only [Run.done.injEq, Prod.mk.injEq] at h
      exact h.2.2.symm
    | none =>
      rw [hs] at h
      simp only [Run.done.injEq, Prod.mk.injEq] at h
      dsimp only
      rw [← h.2.2, ← hj]
      rfl

/-- C10, amended: a scan error ends the batch at its ref update. When the
updates before `u` were processed without error, the scan of `u` reports a
per-object scan error and does not end the process, then `uploadForRefUpdates`
has scanned and drained exactly the updates up to and including `u`, none of
those after it; the buckets hold what `CollectErrors` left on the queue of `u`;
and the error it stops with wraps, with the name of the local ref of `u`, the
error of the scan of `u`: the error the scanner itself returned when it returned
one, and otherwise the accumulated scan error, which is the accumulator before
the scan joined with the per-object errors of the scan in order. -/
theorem C10_scan_error_stops_batch (fs : FileSystem) (g : GitScanner)
    (engine : RefUpdate → List Transfer → List Error)
    (verifyLocks : lockVerifier → List RefUpdate → Run lockVerifier)
    (ctx : uploadContext) (pre : List RefUpdate) (u : RefUpdate) (rest : List RefUpdate)
    (pushAll : Bool) (lv : lockVerifier) (o : UploadOutcome)
    (hv : verifyLocks ctx.lockVerifier (pre ++ u :: rest) = .done lv)
    (hpre : refUpdateLoop fs g engine (excludeFor (pre ++ u :: rest)) pushAll
      { ctx with lockVerifier := lv } [] [] pre = .done o)
    (hok : o.err = none)
    (hscan : ∃ err, ScanEvent.scanError err
      ∈ (runScan g (excludeFor (pre ++ u :: rest)) u pushAll).1)
    (hrun : (uploadRangeOrAll fs g o.ctx (o.ctx.NewQueue (engine u))
      (excludeFor (pre ++ u :: rest)) u pushAll).exited = false) :
    (uploadForRefUpdates fs g engine verifyLocks ctx (pre ++ u :: rest) pushAll).state.scanned.map
        (fun x => x.1) = pre ++ [u] ∧
    (uploadForRefUpdates fs g engine verifyLocks ctx (pre ++ u :: rest) pushAll).state.collected
        = pre ++ [u] ∧
    ∃ c1 q1 e0,
      uploadRangeOrAll fs g o.ctx (o.ctx.NewQueue (engine u)) (excludeFor (pre ++ u :: rest)) u
          pushAll = .done (c1, q1, some e0) ∧
      (some e0 = match (runScan g (excludeFor (pre ++ u :: rest)) u pushAll).2 with
                 | some e => some e
                 | none => joinScanErrors o.ctx.scannerErr
                     (runScan g (excludeFor (pre ++ u :: rest)) u pushAll).1) ∧
      (uploadForRefUpdates fs g engine verifyLocks ctx (pre ++ u :: rest) pushAll).state.err
        = some (errors.Wrap e0 ("ref \"" ++ u.LocalRef.Name ++ "\":")) ∧
      (uploadForRefUpdates fs g engine verifyLocks ctx (pre ++ u :: rest) pushAll).state.ctx.missing
        = (c1.CollectErrors q1).missing ∧
      (uploadForRefUpdates fs g engine verifyLocks ctx (pre ++ u :: rest) pushAll).state.ctx.corrupt
        = (c1.CollectErrors q1).corrupt ∧
      (uploadForRefUpdates fs g engine verifyLocks ctx (pre ++ u :: rest)
          pushAll).state.ctx.otherErrs
        = (c1.CollectErrors q1).otherErrs := by
  obtain ⟨c1, q1, e, hu⟩ := uploadRangeOrAll_scanError fs g o.ctx (o.ctx.NewQueue (engine u))
    (excludeFor (pre ++ u :: rest)) u pushAll hscan hrun
  have he := uploadRangeOrAll_error_eq fs g o.ctx (o.ctx.NewQueue (engine u))
    (excludeFor (pre ++ u :: rest)) u pushAll c1 q1 (some e) hu
  obtain ⟨happ, hsc, hcol⟩ := refUpdateLoop_append fs g engine (excludeFor (pre ++ u :: rest))
    pushAll pre (u :: rest) _ [] [] o hpre hok
  have hstop := refUpdateLoop_stops fs g engine (excludeFor (pre ++ u :: rest)) pushAll o.ctx
    o.scanned o.collected u rest c1 q1 e hu
  rw [hstop] at happ
  obtain ⟨l1, l2, l3⟩ := uploadForRefUpdates_log fs g engine verifyLocks ctx (pre ++ u :: rest)
    pushAll lv _ hv happ
  obtain ⟨lv2, o2, hv2, hloop2, _, hctx, _, _⟩ :=
    uploadForRefUpdates_err fs g engine verifyLocks ctx (pre ++ u :: rest) pushAll _ l3
  have hlv : lv2 = lv := by
    rw [hv] at hv2
    simp only [Run.done.injEq] at hv2
    exact hv2.symm
  subst hlv
  rw [happ] at hloop2
  simp only [Run.done.injEq] at hloop2
  subst hloop2
  obtain ⟨_, f2, f3, f4, _⟩ := ReportErrors_frame (c1.CollectErrors q1)
  refine ⟨?_, ?_, c1, q1, e, hu, he, l3, ?_, ?_, ?_⟩
  · rw [l1]
    simp only [List.map_append, List.map_cons, List.map_nil, hsc]
    simp
  · rw [l2, hcol]
    simp
  · rw [hctx]; exact f2
  · rw [hctx]; exact f3
  · rw [hctx]; exact f4

/-- C10, amended, at the batch `[main, topic]`: when the scan of `main` reports
a per-object error only, the error returned wraps that error; when the scanner
also returns an error of its own, the error returned wraps the scanner's error;
in both runs only `main` is scanned and drained. -/
theorem C10_scan_error_stops_batch_witness :
    (uploadForRefUpdates allPresent brokenAtFirst (fun _ _ => []) verifyNothing
        (freshContext false false (noLocks .verifyStateEnabled))
        ([] ++ updateMain :: [updateTopic]) false).state.collected = [] ++ [updateMain] ∧
    (uploadForRefUpdates allPresent brokenAtFirst (fun _ _ => []) verifyNothing
        (freshContext false false (noLocks .verifyStateEnabled))
        ([] ++ updateMain :: [updateTopic]) false).state.err
      = some (Error.wrap (Error.text "bad pointer") "ref \"main\":") ∧
    (uploadForRefUpdates allPresent brokenTwice (fun _ _ => []) verifyNothing
        (freshContext false false (noLocks .verifyStateEnabled))
        ([] ++ updateMain :: [updateTopic]) false).state.collected = [] ++ [updateMain] ∧
    (uploadForRefUpdates allPresent brokenTwice (fun _ _ => []) verifyNothing
        (freshContext false false (noLocks .verifyStateEnabled))
        ([] ++ updateMain :: [updateTopic]) false).state.err
      = some (Error.wrap (Error.text "scan failed") "ref \"main\":") :=
  ⟨(C10_scan_error_stops_batch allPresent brokenAtFirst (fun _ _ => []) verifyNothing
      (freshContext false false (noLocks .verifyStateEnabled)) [] updateMain [updateTopic] false
      (noLocks .verifyStateEnabled)
      { ctx := freshContext false false (noLocks .verifyStateEnabled), scanned := [],
        collected := [], err := none }
      rfl rfl rfl ⟨Error.text "bad pointer", by decide⟩ rfl).2.1,
   rfl,
   (C10_scan_error_stops_batch allPresent brokenTwice (fun _ _ => []) verifyNothing
      (freshContext false false (noLocks .verifyStateEnabled)) [] updateMain [updateTopic] false
      (noLocks .verifyStateEnabled)
      { ctx := freshContext false false (noLocks .verifyStateEnabled), scanned := [],
        collected := [], err := none }
      rfl rfl rfl ⟨Error.text "bad pointer", by decide⟩ rfl).2.1,
   rfl⟩

end Uploader
